import Mathlib

/-!
# iron-hook: webhook endpoint service

A shallow embedding of the Go package `ironhook` (service.go, service_helpers.go,
endpoint.go, notification.go) and theorems about its endpoint lifecycle.

Conventions of the embedding.

* A Go `string` is a byte sequence. It is modelled by the Lean string that has one
  character per byte; all the literals of the program are ASCII.
* A Go function returning `(T, error)` returns a pair `T × Option Error`
  (`none` is the nil error) when the program uses the value next to a non-nil
  error, and `Except Error T` when it does not.
* The service writes to a record store and talks to HTTP servers. An operation
  of the service returns an `Outcome`: the store after the call, the HTTP
  requests that were handed to a client during the call, and the Go return
  value.
* Logging has no effect on the store or on the network and is left out.
-/

namespace IronHook

/-! ## Errors -/

/-- The error values of the package, and the errors of the libraries it calls. -/
inductive Error where
  | ErrEndpointNotYetActivated
  | ErrFailedNotifyingTheEndpoint
  | ErrInternalProcessingError
  | ErrFailedEndpointVerification
  | ErrIncorrectEndpointURL
  | ErrEmptyEndpointURL
  | ErrEmptyEndpointURLScheme
  | ErrUnsupportedEndpointURLScheme
  | ErrIncorrectVerificationResponse
  | ErrRecordNotFound
  | ErrEmptyEndpointUUID
  | ErrUnsupportedDatabaseEngine
  /-- The value `gorm.ErrRecordNotFound`. -/
  | gormErrRecordNotFound
  /-- Any other error reported by gorm. -/
  | gormError (msg : String)
  /-- An error of package net/url. -/
  | urlError (msg : String)
  /-- An error of package net/http (request construction, transport). -/
  | httpError (msg : String)
  /-- An error of an `io.Reader`. -/
  | readError (msg : String)
  deriving DecidableEq, Repr

deriving instance DecidableEq for Except

/-! ## UUIDs -/

/-- A `uuid.UUID`: sixteen bytes, held as the 128-bit number they spell
(big-endian). -/
structure UUID where
  val : Nat
  deriving DecidableEq, Repr

/-- The value `uuid.Nil`: all sixteen bytes zero. -/
def uuidNil : UUID := ⟨0⟩

/-- Lower-case hexadecimal digit of `n % 16`. -/
def lowerHexDigit (n : Nat) : Char :=
  let d := n % 16
  if d < 10 then Char.ofNat (48 + d) else Char.ofNat (87 + d)

/-- The `k` hexadecimal digits of `v`, most significant first. -/
def hexDigits (v : Nat) : Nat → List Char
  | 0 => []
  | k + 1 => lowerHexDigit (v / 16 ^ k) :: hexDigits v k

/-- The method `UUID.String`: the canonical form
`xxxxxxxx-xxxx-xxxx-xxxx-xxxxxxxxxxxx`. -/
def UUID.String (u : UUID) : String :=
  let v := u.val % 2 ^ 128
  String.mk
    (hexDigits (v / 2 ^ 96) 8 ++ '-' :: hexDigits (v / 2 ^ 80) 4 ++ '-' ::
      hexDigits (v / 2 ^ 64) 4 ++ '-' :: hexDigits (v / 2 ^ 48) 4 ++ '-' ::
      hexDigits v 12)

/-- The call `uuid.Must(uuid.NewV4())` on the sixteen random bytes `rand`: the
version nibble (high half of byte 6) is set to 4 and the variant bits (top two
bits of byte 8) to `10`. -/
def uuidNewV4 (rand : Nat) : UUID :=
  let r := rand % 2 ^ 128
  let b6 := r / 2 ^ 72 % 256
  let b8 := r / 2 ^ 56 % 256
  ⟨r - b6 * 2 ^ 72 - b8 * 2 ^ 56 + (b6 % 16 + 64) * 2 ^ 72 + (b8 % 64 + 128) * 2 ^ 56⟩

/-! ## Data model (endpoint.go, notification.go) -/

/-- The type `WebhookEndpointStatus`, a Go `int`. -/
abbrev WebhookEndpointStatus := Int

def Unverified : WebhookEndpointStatus := 0

def Suspended : WebhookEndpointStatus := 1

def Verified : WebhookEndpointStatus := 2

def Healthy : WebhookEndpointStatus := 3

structure WebhookEndpoint where
  UUID : UUID
  URL : String
  Status : WebhookEndpointStatus
  deriving DecidableEq, Repr

/-- A row of the endpoints table. `ID` and `DeletedAt` are the fields of the
embedded `gorm.Model` that the queries depend on: the primary key and the
soft-deletion mark (`true` when the row is marked deleted). The two timestamps
of `gorm.Model` are not read by the program and are left out. -/
structure WebhookEndpointDB where
  ID : Nat
  DeletedAt : Bool
  UUID : UUID
  URL : String
  Status : WebhookEndpointStatus
  deriving DecidableEq, Repr

structure WebhookNotification where
  EventUUID : UUID
  Topic : String
  Body : String
  deriving DecidableEq, Repr

/-- A row of the notifications table (see `WebhookEndpointDB` for `ID` and
`DeletedAt`). -/
structure WebhookNotificationDB where
  ID : Nat
  DeletedAt : Bool
  EventUUID : UUID
  Topic : String
  Body : String
  EndpointUUID : UUID
  deriving DecidableEq, Repr

def endpointDbToWeb (dbe : WebhookEndpointDB) : WebhookEndpoint :=
  { UUID := dbe.UUID, URL := dbe.URL, Status := dbe.Status }

/-- The loop of `endpointsDbToWeb`: the record at index `i` of the input is
converted and stored at index `i` of the result. -/
def endpointsDbToWebLoop : Nat → List WebhookEndpointDB → List WebhookEndpoint → List WebhookEndpoint
  | _, [], web_endpoints => web_endpoints
  | i, e :: es, web_endpoints =>
    endpointsDbToWebLoop (i + 1) es (web_endpoints.set i (endpointDbToWeb e))

def endpointsDbToWeb (dbes : List WebhookEndpointDB) : List WebhookEndpoint :=
  let web_endpoints : List WebhookEndpoint :=
    List.replicate dbes.length { UUID := uuidNil, URL := "", Status := 0 }
  endpointsDbToWebLoop 0 dbes web_endpoints

/-! ## The record store (gorm)

The store is an in-memory pair of tables. A table is the list of its rows in
primary-key order, which is also the order of insertion because the key is
auto-incremented; `ORDER BY id` is the list order. Every query of a model
with a `DeletedAt` field skips the rows marked deleted. -/

structure DB where
  endpoints : List WebhookEndpointDB
  notifications : List WebhookNotificationDB
  deriving DecidableEq, Repr

/-- The primary keys of a table, in list order, are as auto-increment assigns
them: positive and strictly increasing. -/
def keysOK (ids : List Nat) : Prop := (∀ i ∈ ids, 0 < i) ∧ ids.Pairwise (· < ·)

instance (ids : List Nat) : Decidable (keysOK ids) := by
  unfold keysOK
  infer_instance

/-- Well-formed stores: the primary keys of both tables are positive and
strictly increasing along the list. -/
def DB.WF (db : DB) : Prop :=
  keysOK (db.endpoints.map (·.ID)) ∧ keysOK (db.notifications.map (·.ID))

instance (db : DB) : Decidable db.WF := by
  unfold DB.WF
  infer_instance

/-- The empty store, as left by `AutoMigrate` on a new database. -/
def DB.empty : DB := { endpoints := [], notifications := [] }

/-- The next auto-incremented primary key: one more than every key in use. -/
def nextID (ids : List Nat) : Nat := ids.foldr max 0 + 1

/-- Insertion of a row with an explicit primary key, in key order. -/
def insertEndpointByID (v : WebhookEndpointDB) : List WebhookEndpointDB → List WebhookEndpointDB
  | [] => [v]
  | r :: rs => if v.ID < r.ID then v :: r :: rs else r :: insertEndpointByID v rs

/-- The call `db.Create(&v)` on an endpoint row. A zero primary key is assigned
by auto-increment; an explicit key that is already taken violates the primary
key constraint. Returns the store, the value as gorm leaves it, and
`tx.Error`. -/
def dbCreateEndpoint (db : DB) (v : WebhookEndpointDB) : DB × WebhookEndpointDB × Option Error :=
  if v.ID = 0 then
    let v1 := { v with ID := nextID (db.endpoints.map (·.ID)) }
    ({ db with endpoints := db.endpoints ++ [v1] }, v1, none)
  else if db.endpoints.any (fun r => r.ID == v.ID) then
    (db, v, some (Error.gormError "UNIQUE constraint failed"))
  else
    ({ db with endpoints := insertEndpointByID v db.endpoints }, v, none)

/-- The call `db.First(&dest, "uuid = ?", uuid)`: the first row, in key
order, that is not marked deleted and has this uuid. -/
def dbFirstEndpoint (db : DB) (uuid : UUID) : Except Error WebhookEndpointDB :=
  match db.endpoints.find? (fun r => !r.DeletedAt && r.UUID == uuid) with
  | some r => .ok r
  | none => .error Error.gormErrRecordNotFound

/-- The call `db.Save(&v)` on an endpoint row. With a zero primary key it is a
`Create`. Otherwise all columns of the row with this key are updated, provided
the row is not marked deleted; when no row was updated gorm inserts the value,
overwriting on a key conflict. -/
def dbSaveEndpoint (db : DB) (v : WebhookEndpointDB) : DB × Option Error :=
  if v.ID = 0 then
    let r := dbCreateEndpoint db v
    (r.1, r.2.2)
  else if db.endpoints.any (fun r => r.ID == v.ID && !r.DeletedAt) then
    let upd := fun (r : WebhookEndpointDB) => if r.ID == v.ID && !r.DeletedAt then v else r
    ({ db with endpoints := db.endpoints.map upd }, none)
  else if db.endpoints.any (fun r => r.ID == v.ID) then
    ({ db with endpoints := db.endpoints.map (fun r => if r.ID == v.ID then v else r) }, none)
  else
    ({ db with endpoints := insertEndpointByID v db.endpoints }, none)

/-- The call `db.Delete(&v)` on an endpoint row: the model has a `DeletedAt`
field, so the row with the key of `v` is marked deleted, not removed. Without
a primary key gorm refuses to delete (`ErrMissingWhereClause`). -/
def dbDeleteEndpoint (db : DB) (v : WebhookEndpointDB) : DB × Option Error :=
  if v.ID = 0 then
    (db, some (Error.gormError "WHERE conditions required"))
  else
    let mark := fun (r : WebhookEndpointDB) =>
      if r.ID == v.ID && !r.DeletedAt then { r with DeletedAt := true } else r
    ({ db with endpoints := db.endpoints.map mark }, none)

/-- The call `db.Find(&dest)` on the endpoints table: all rows not marked
deleted, in key order. -/
def dbFindEndpoints (db : DB) : Except Error (List WebhookEndpointDB) :=
  .ok (db.endpoints.filter (fun r => !r.DeletedAt))

/-- Insertion of a notification row with an explicit primary key, in key
order. -/
def insertNotificationByID (v : WebhookNotificationDB) :
    List WebhookNotificationDB → List WebhookNotificationDB
  | [] => [v]
  | r :: rs => if v.ID < r.ID then v :: r :: rs else r :: insertNotificationByID v rs

/-- The call `db.Create(&v)` on a notification row (see `dbCreateEndpoint`);
the program only calls it with a zero primary key. -/
def dbCreateNotification (db : DB) (v : WebhookNotificationDB) :
    DB × WebhookNotificationDB × Option Error :=
  if v.ID = 0 then
    let v1 := { v with ID := nextID (db.notifications.map (·.ID)) }
    ({ db with notifications := db.notifications ++ [v1] }, v1, none)
  else if db.notifications.any (fun r => r.ID == v.ID) then
    (db, v, some (Error.gormError "UNIQUE constraint failed"))
  else
    ({ db with notifications := insertNotificationByID v db.notifications }, v, none)

/-- The call `db.Last(&dest, "endpoint_uuid = ?", uuid)`: the last row, in key
order, that is not marked deleted and has this endpoint uuid. -/
def dbLastNotification (db : DB) (uuid : UUID) : Except Error WebhookNotificationDB :=
  match db.notifications.reverse.find? (fun r => !r.DeletedAt && r.EndpointUUID == uuid) with
  | some r => .ok r
  | none => .error Error.gormErrRecordNotFound

/-! ## Byte strings -/

/-- The function `strings.Cut` for a one-byte separator: the text before the
first separator, the text after it, and whether it was found. -/
def cutAt (sep : Char) : List Char → List Char × List Char × Bool
  | [] => ([], [], false)
  | c :: cs =>
    if c = sep then ([], cs, true)
    else
      let r := cutAt sep cs
      (c :: r.1, r.2.1, r.2.2)

/-- Split at the last separator (`strings.LastIndex`): the text before it and
the text after it, or `none` when there is no separator. -/
def cutLast (sep : Char) (s : List Char) : Option (List Char × List Char) :=
  let r := cutAt sep s.reverse
  if r.2.2 then some (r.2.1.reverse, r.1.reverse) else none

/-- All the pieces between separators (`strings.Split` for a one-byte
separator). -/
def splitOnByte (sep : Char) : List Char → List (List Char)
  | [] => [[]]
  | c :: cs =>
    match splitOnByte sep cs with
    | [] => [[c]]
    | seg :: segs => if c = sep then [] :: seg :: segs else (c :: seg) :: segs

def isLowerByte (c : Char) : Bool := 97 ≤ c.toNat && c.toNat ≤ 122

def isUpperByte (c : Char) : Bool := 65 ≤ c.toNat && c.toNat ≤ 90

def isDigitByte (c : Char) : Bool := 48 ≤ c.toNat && c.toNat ≤ 57

/-- ASCII lower-casing of one byte. -/
def toLowerByte (c : Char) : Char := if isUpperByte c then Char.ofNat (c.toNat + 32) else c

/-- Byte-wise lexicographic order on strings. -/
def bytesLt : List Char → List Char → Bool
  | _, [] => false
  | [], _ :: _ => true
  | a :: as, b :: bs => a.toNat < b.toNat || (a == b && bytesLt as bs)

/-- Length of the UTF-8 sequence that starts the byte string, or 0 when
the first byte does not start a valid one (`utf8.DecodeRuneInString`). -/
def utf8Size (s : List Char) : Nat :=
  let cont := fun (c : Char) => 128 ≤ c.toNat && c.toNat ≤ 191
  match s with
  | b0 :: b1 :: rest =>
    let n0 := b0.toNat
    let n1 := b1.toNat
    if 194 ≤ n0 && n0 ≤ 223 then (if cont b1 then 2 else 0)
    else
      match rest with
      | b2 :: rest2 =>
        let low := if n0 = 224 then 160 else if n0 = 240 then 144 else 128
        let high := if n0 = 237 then 159 else if n0 = 244 then 143 else 191
        if 224 ≤ n0 && n0 ≤ 239 then
          (if low ≤ n1 && n1 ≤ high && cont b2 then 3 else 0)
        else if 240 ≤ n0 && n0 ≤ 244 then
          match rest2 with
          | b3 :: _ => if low ≤ n1 && n1 ≤ high && cont b2 && cont b3 then 4 else 0
          | [] => 0
        else 0
      | [] => 0
  | _ => 0

/-- The loop of `strconv.Quote`; `copy` bytes of a multi-byte sequence are
still to be copied. A quote or backslash gets a backslash, a control byte its
escape, a byte that starts no valid UTF-8 sequence is written as `\x` and two
digits, other ASCII is copied. A valid multi-byte sequence is copied, which is
what `strconv.Quote` does for every printable rune. -/
def strconvQuoteLoop : Nat → List Char → List Char
  | _, [] => []
  | copy + 1, c :: cs => c :: strconvQuoteLoop copy cs
  | 0, c :: cs =>
    let n := c.toNat
    let bs := Char.ofNat 92
    if n < 128 then
      if n = 34 || n = 92 then bs :: c :: strconvQuoteLoop 0 cs
      else if 32 ≤ n && n < 127 then c :: strconvQuoteLoop 0 cs
      else if n = 7 then bs :: 'a' :: strconvQuoteLoop 0 cs
      else if n = 8 then bs :: 'b' :: strconvQuoteLoop 0 cs
      else if n = 12 then bs :: 'f' :: strconvQuoteLoop 0 cs
      else if n = 10 then bs :: 'n' :: strconvQuoteLoop 0 cs
      else if n = 13 then bs :: 'r' :: strconvQuoteLoop 0 cs
      else if n = 9 then bs :: 't' :: strconvQuoteLoop 0 cs
      else if n = 11 then bs :: 'v' :: strconvQuoteLoop 0 cs
      else bs :: 'x' :: lowerHexDigit (n / 16) :: lowerHexDigit n :: strconvQuoteLoop 0 cs
    else
      let size := utf8Size (c :: cs)
      if size = 0 then
        bs :: 'x' :: lowerHexDigit (n / 16) :: lowerHexDigit n :: strconvQuoteLoop 0 cs
      else c :: strconvQuoteLoop (size - 1) cs

/-- The function `strconv.Quote`, the verb `%q` of `fmt`. -/
def strconvQuote (s : List Char) : List Char :=
  '"' :: strconvQuoteLoop 0 s ++ ['"']

/-! ## Package net/url -/

/-- The escaping modes of net/url. -/
inductive encoding where
  | encodePath
  | encodePathSegment
  | encodeHost
  | encodeZone
  | encodeUserPassword
  | encodeQueryComponent
  | encodeFragment
  deriving DecidableEq, Repr

open encoding

def ishex (c : Char) : Bool :=
  isDigitByte c || (97 ≤ c.toNat && c.toNat ≤ 102) || (65 ≤ c.toNat && c.toNat ≤ 70)

def unhex (c : Char) : Nat :=
  if isDigitByte c then c.toNat - 48
  else if 97 ≤ c.toNat && c.toNat ≤ 102 then c.toNat - 97 + 10
  else if 65 ≤ c.toNat && c.toNat ≤ 70 then c.toNat - 65 + 10
  else 0

/-- Upper-case hexadecimal digit of `n % 16`. -/
def upperHexDigit (n : Nat) : Char :=
  let d := n % 16
  if d < 10 then Char.ofNat (48 + d) else Char.ofNat (55 + d)

/-- The function `shouldEscape` of net/url. -/
def shouldEscape (c : Char) (mode : encoding) : Bool :=
  if isLowerByte c || isUpperByte c || isDigitByte c then false
  else if (mode = encodeHost || mode = encodeZone) &&
      "!$&()*+,;=:[]<>\"".data.contains c || ((mode = encodeHost || mode = encodeZone) && c.toNat = 39) then
    false
  else if "-_.~".data.contains c then false
  else if "$&+,/:;=?@".data.contains c &&
      (mode = encodePath || mode = encodePathSegment || mode = encodeUserPassword ||
        mode = encodeQueryComponent || mode = encodeFragment) then
    match mode with
    | encodePath => c = '?'
    | encodePathSegment => c = '/' || c = ';' || c = ',' || c = '?'
    | encodeUserPassword => c = '@' || c = '/' || c = '?' || c = ':'
    | encodeQueryComponent => true
    | _ => false
  else if mode = encodeFragment && "!()*".data.contains c then false
  else true

/-- The function `escape` of net/url. -/
def escape (s : List Char) (mode : encoding) : List Char :=
  s.flatMap fun c =>
    if c = ' ' && mode = encodeQueryComponent then ['+']
    else if shouldEscape c mode then
      ['%', upperHexDigit (c.toNat / 16), upperHexDigit c.toNat]
    else [c]

/-- The validation loop of `unescape` of net/url: the error it stops with, if
any. -/
def unescapeCheck (mode : encoding) : List Char → Option Error
  | [] => none
  | c :: rest =>
    if c = '%' then
      match rest with
      | h1 :: h2 :: rest2 =>
        if !ishex h1 || !ishex h2 then some (Error.urlError "invalid URL escape")
        else if mode = encodeHost && unhex h1 < 8 && !(h1 = '2' && h2 = '5') then
          some (Error.urlError "invalid URL escape")
        else if mode = encodeZone && !(h1 = '2' && h2 = '5') && unhex h1 * 16 + unhex h2 ≠ 32 &&
            shouldEscape (Char.ofNat (unhex h1 * 16 + unhex h2)) encodeHost then
          some (Error.urlError "invalid URL escape")
        else unescapeCheck mode rest2
      | _ => some (Error.urlError "invalid URL escape")
    else if (mode = encodeHost || mode = encodeZone) && c.toNat < 128 && shouldEscape c encodeHost then
      some (Error.urlError "invalid character in host name")
    else unescapeCheck mode rest

/-- The decoding loop of `unescape` of net/url. -/
def unescapeDecode (mode : encoding) : List Char → List Char
  | [] => []
  | c :: rest =>
    if c = '%' then
      match rest with
      | h1 :: h2 :: rest2 => Char.ofNat (unhex h1 * 16 + unhex h2) :: unescapeDecode mode rest2
      | _ => c :: rest
    else if c = '+' && mode = encodeQueryComponent then ' ' :: unescapeDecode mode rest
    else c :: unescapeDecode mode rest

/-- The function `unescape` of net/url. -/
def unescape (s : List Char) (mode : encoding) : Except Error (List Char) :=
  match unescapeCheck mode s with
  | some e => .error e
  | none => .ok (unescapeDecode mode s)

/-- The function `validEncoded` of net/url. -/
def validEncoded (s : List Char) (mode : encoding) : Bool :=
  s.all fun c =>
    "!$&()*+,;=:@[]%".data.contains c || c.toNat = 39 || !shouldEscape c mode

structure Userinfo where
  username : String
  password : String
  passwordSet : Bool
  deriving DecidableEq, Repr

/-- The type `url.URL`. -/
structure URL where
  Scheme : String
  Opaque : String
  User : Option Userinfo
  Host : String
  Path : String
  RawPath : String
  OmitHost : Bool
  ForceQuery : Bool
  RawQuery : String
  Fragment : String
  RawFragment : String
  deriving DecidableEq, Repr

/-- The zero `URL`. -/
def URL.zero : URL :=
  { Scheme := "", Opaque := "", User := none, Host := "", Path := "", RawPath := "",
    OmitHost := false, ForceQuery := false, RawQuery := "", Fragment := "", RawFragment := "" }

/-- The function `getScheme` of net/url, reading `rest` with the bytes
already accepted in `acc` (reversed). -/
def getSchemeLoop (rawURL : List Char) : List Char → List Char → Except Error (List Char × List Char)
  | _, [] => .ok ([], rawURL)
  | acc, c :: cs =>
    if isLowerByte c || isUpperByte c then getSchemeLoop rawURL (c :: acc) cs
    else if isDigitByte c || c = '+' || c = '-' || c = '.' then
      if acc.isEmpty then .ok ([], rawURL) else getSchemeLoop rawURL (c :: acc) cs
    else if c = ':' then
      if acc.isEmpty then .error (Error.urlError "missing protocol scheme")
      else .ok (acc.reverse, cs)
    else .ok ([], rawURL)

def getScheme (rawURL : List Char) : Except Error (List Char × List Char) :=
  getSchemeLoop rawURL [] rawURL

/-- The function `stringContainsCTLByte` of net/url. -/
def stringContainsCTLByte (s : List Char) : Bool :=
  s.any fun c => c.toNat < 32 || c.toNat = 127

/-- The function `validOptionalPort` of net/url. -/
def validOptionalPort (port : List Char) : Bool :=
  match port with
  | [] => true
  | c :: rest => c = ':' && rest.all isDigitByte

/-- The function `validUserinfo` of net/url. -/
def validUserinfo (s : List Char) : Bool :=
  s.all fun c =>
    isUpperByte c || isLowerByte c || isDigitByte c ||
      "-._:~!$&()*+,;=%@".data.contains c || c.toNat = 39

/-- Split at the first occurrence of `%25` (`strings.Index`): the text before
it and the text from it on. -/
def cutZone : List Char → Option (List Char × List Char)
  | [] => none
  | c :: cs =>
    if ['%', '2', '5'].isPrefixOf (c :: cs) then some ([], c :: cs)
    else (cutZone cs).map fun r => (c :: r.1, r.2)

/-- The error `fmt.Errorf("invalid port %q after host", colonPort)`. -/
def invalidPort (colonPort : List Char) : Error :=
  Error.urlError (String.mk ("invalid port ".data ++ strconvQuote colonPort ++ " after host".data))

/-- The function `parseHost` of net/url, as in the releases of Go in which a
host in square brackets is not yet checked to be an IP literal. -/
def parseHost (host : List Char) : Except Error (List Char) :=
  if host.head? = some '[' then
    match cutLast ']' host with
    | none => .error (Error.urlError "missing ']' in host")
    | some (upto, colonPort) =>
      if !validOptionalPort colonPort then .error (invalidPort colonPort)
      else
        match cutZone upto with
        | some (h1, h2) =>
          match unescape h1 encodeHost with
          | .error e => .error e
          | .ok host1 =>
            match unescape h2 encodeZone with
            | .error e => .error e
            | .ok host2 =>
              match unescape (']' :: colonPort) encodeHost with
              | .error e => .error e
              | .ok host3 => .ok (host1 ++ host2 ++ host3)
        | none => unescape host encodeHost
  else
    match cutLast ':' host with
    | some (_, port) =>
      if !validOptionalPort (':' :: port) then .error (invalidPort (':' :: port))
      else unescape host encodeHost
    | none => unescape host encodeHost

/-- The function `parseAuthority` of net/url. -/
def parseAuthority (authority : List Char) : Except Error (Option Userinfo × List Char) :=
  match cutLast '@' authority with
  | none =>
    match parseHost authority with
    | .error e => .error e
    | .ok host => .ok (none, host)
  | some (userinfo, hostpart) =>
    match parseHost hostpart with
    | .error e => .error e
    | .ok host =>
      if !validUserinfo userinfo then .error (Error.urlError "net/url: invalid userinfo")
      else if !userinfo.contains ':' then
        match unescape userinfo encodeUserPassword with
        | .error e => .error e
        | .ok u => .ok (some { username := String.mk u, password := "", passwordSet := false }, host)
      else
        let c := cutAt ':' userinfo
        match unescape c.1 encodeUserPassword with
        | .error e => .error e
        | .ok u =>
          match unescape c.2.1 encodeUserPassword with
          | .error e => .error e
          | .ok pw =>
            .ok (some { username := String.mk u, password := String.mk pw, passwordSet := true }, host)

/-- The method `URL.setPath`. -/
def URL.setPath (u : URL) (p : List Char) : Except Error URL :=
  match unescape p encodePath with
  | .error e => .error e
  | .ok path =>
    .ok { u with Path := String.mk path,
                 RawPath := if p = escape path encodePath then "" else String.mk p }

/-- The method `URL.setFragment`. -/
def URL.setFragment (u : URL) (f : List Char) : Except Error URL :=
  match unescape f encodeFragment with
  | .error e => .error e
  | .ok frag =>
    .ok { u with Fragment := String.mk frag,
                 RawFragment := if f = escape frag encodeFragment then "" else String.mk f }

/-- The function `parse` of net/url. -/
def urlparse (rawURL : List Char) (viaRequest : Bool) : Except Error URL :=
  if stringContainsCTLByte rawURL then
    .error (Error.urlError "net/url: invalid control character in URL")
  else if rawURL.isEmpty && viaRequest then .error (Error.urlError "empty url")
  else if rawURL = ['*'] then .ok { URL.zero with Path := "*" }
  else
    match getScheme rawURL with
    | .error e => .error e
    | .ok (scheme0, rest0) =>
      let scheme := scheme0.map toLowerByte
      let forceQuery := rest0.getLast? = some '?' && rest0.count '?' = 1
      let rest1 := if forceQuery then rest0.dropLast else (cutAt '?' rest0).1
      let rawQuery := if forceQuery then [] else (cutAt '?' rest0).2.1
      let url : URL :=
        { URL.zero with Scheme := String.mk scheme, ForceQuery := forceQuery,
                        RawQuery := String.mk rawQuery }
      if rest1.head? ≠ some '/' && !scheme.isEmpty then
        .ok { url with Opaque := String.mk rest1 }
      else if rest1.head? ≠ some '/' && viaRequest then
        .error (Error.urlError "invalid URI for request")
      else if rest1.head? ≠ some '/' && (cutAt '/' rest1).1.contains ':' then
        .error (Error.urlError "first path segment in URL cannot contain colon")
      else if (!scheme.isEmpty || (!viaRequest && !(List.isPrefixOf ['/', '/', '/'] rest1))) &&
          ['/', '/'].isPrefixOf rest1 then
        let c := cutAt '/' (rest1.drop 2)
        let authority := c.1
        let rest2 := if c.2.2 then '/' :: c.2.1 else []
        match parseAuthority authority with
        | .error e => .error e
        | .ok (user, host) => URL.setPath { url with User := user, Host := String.mk host } rest2
      else if !scheme.isEmpty && rest1.head? = some '/' then
        URL.setPath { url with OmitHost := true } rest1
      else URL.setPath url rest1

/-- The function `url.Parse`. -/
def urlParse (rawURL : String) : Except Error URL :=
  let c := cutAt '#' rawURL.data
  match urlparse c.1 false with
  | .error e => .error e
  | .ok url => if c.2.1.isEmpty then .ok url else URL.setFragment url c.2.1

/-- The method `URL.IsAbs`. -/
def URL.IsAbs (u : URL) : Bool := u.Scheme ≠ ""

/-- The method `Userinfo.String`. -/
def Userinfo.String (u : Userinfo) : List Char :=
  escape u.username.data encodeUserPassword ++
    (if u.passwordSet then ':' :: escape u.password.data encodeUserPassword else [])

/-- Whether `unescape` succeeds on `raw` with the result `want`. -/
def unescapesTo (raw : List Char) (mode : encoding) (want : List Char) : Bool :=
  match unescape raw mode with
  | .ok p => p = want
  | .error _ => false

/-- The method `URL.EscapedPath`. -/
def URL.EscapedPath (u : URL) : List Char :=
  if u.RawPath ≠ "" && validEncoded u.RawPath.data encodePath &&
      unescapesTo u.RawPath.data encodePath u.Path.data then u.RawPath.data
  else if u.Path = "*" then ['*']
  else escape u.Path.data encodePath

/-- The method `URL.EscapedFragment`. -/
def URL.EscapedFragment (u : URL) : List Char :=
  if u.RawFragment ≠ "" && validEncoded u.RawFragment.data encodeFragment &&
      unescapesTo u.RawFragment.data encodeFragment u.Fragment.data then u.RawFragment.data
  else escape u.Fragment.data encodeFragment

/-- The method `URL.String`. -/
def URL.String (u : URL) : String :=
  let scheme : List Char := if u.Scheme ≠ "" then u.Scheme.data ++ [':'] else []
  let path := u.EscapedPath
  let authority : List Char :=
    if u.Scheme ≠ "" || u.Host ≠ "" || u.User.isSome then
      if u.OmitHost && u.Host = "" && u.User.isNone then []
      else
        (if u.Host ≠ "" || u.Path ≠ "" || u.User.isSome then ['/', '/'] else []) ++
        (match u.User with
          | some ui => ui.String ++ ['@']
          | none => []) ++
        (if u.Host ≠ "" then escape u.Host.data encodeHost else [])
    else []
  let slash : List Char :=
    if !path.isEmpty && path.head? ≠ some '/' && u.Host ≠ "" then ['/'] else []
  let dot : List Char :=
    if (scheme ++ authority ++ slash).isEmpty && (cutAt '/' path).1.contains ':' then ['.', '/']
    else []
  let body : List Char :=
    if u.Opaque ≠ "" then scheme ++ u.Opaque.data
    else scheme ++ authority ++ slash ++ dot ++ path
  let query : List Char :=
    if u.ForceQuery || u.RawQuery ≠ "" then '?' :: u.RawQuery.data else []
  let fragment : List Char := if u.Fragment ≠ "" then '#' :: u.EscapedFragment else []
  String.mk (body ++ query ++ fragment)


/-- The type `url.Values`: the values of each key, in the order added. -/
abbrev Values := List (String × List String)

/-- Append a value to a key, as `m[key] = append(m[key], value)`. -/
def Values.add : Values → String → String → Values
  | [], key, value => [(key, [value])]
  | (k, vs) :: m, key, value =>
    if k = key then (k, vs ++ [value]) :: m else (k, vs) :: Values.add m key value

/-- The method `Values.Set`. -/
def Values.Set : Values → String → String → Values
  | [], key, value => [(key, [value])]
  | (k, vs) :: m, key, value =>
    if k = key then (k, [value]) :: m else (k, vs) :: Values.Set m key value

/-- The function `parseQuery` of net/url on the pieces of the query between
`&`; a piece that is empty, holds a semicolon or does not unescape is
skipped. -/
def parseQueryLoop (m : Values) : List (List Char) → Values
  | [] => m
  | piece :: pieces =>
    if piece.contains ';' || piece.isEmpty then parseQueryLoop m pieces
    else
      let c := cutAt '=' piece
      match unescape c.1 encodeQueryComponent, unescape c.2.1 encodeQueryComponent with
      | .ok key, .ok value => parseQueryLoop (m.add (String.mk key) (String.mk value)) pieces
      | _, _ => parseQueryLoop m pieces

/-- The method `URL.Query`: the parsed query, malformed pairs dropped. -/
def URL.Query (u : URL) : Values :=
  parseQueryLoop [] (splitOnByte '&' u.RawQuery.data)

/-- Insert an entry by key in byte order. -/
def insertByKey (e : String × List String) : Values → Values
  | [] => [e]
  | f :: m => if bytesLt e.1.data f.1.data then e :: f :: m else f :: insertByKey e m

/-- The entries sorted by key. -/
def sortByKey (m : Values) : Values := m.foldr insertByKey []

/-- The method `Values.Encode`: `key=value` pairs, query-escaped, sorted by
key and joined by `&`. -/
def Values.Encode (m : Values) : String :=
  let pairs : List (List Char) :=
    (sortByKey m).flatMap fun e =>
      e.2.map fun v =>
        escape e.1.data encodeQueryComponent ++ '=' :: escape v.data encodeQueryComponent
  String.mk (List.intercalate ['&'] pairs)

/-! ## Package path -/

/-- The elements kept by `path.Clean`, given the elements kept so far (last
first): empty and `.` elements are dropped, a `..` removes the element before
it, or is kept when the path is not rooted and there is nothing to remove. -/
def cleanElems (rooted : Bool) : List (List Char) → List (List Char) → List (List Char)
  | out, [] => out.reverse
  | out, seg :: segs =>
    if seg.isEmpty || seg = ['.'] then cleanElems rooted out segs
    else if seg = ['.', '.'] then
      match out with
      | top :: below =>
        if top ≠ ['.', '.'] then cleanElems rooted below segs
        else if rooted then cleanElems rooted out segs
        else cleanElems rooted (seg :: out) segs
      | [] => if rooted then cleanElems rooted out segs else cleanElems rooted (seg :: out) segs
    else cleanElems rooted (seg :: out) segs

/-- The function `path.Clean`. -/
def pathClean (path : List Char) : List Char :=
  if path.isEmpty then ['.']
  else
    let rooted := path.head? = some '/'
    let body := List.intercalate ['/'] (cleanElems rooted [] (splitOnByte '/' path))
    if rooted then '/' :: body else if body.isEmpty then ['.'] else body

/-- The buffer that `path.Join` builds before cleaning it. -/
def pathJoinBuf : List Char → List (List Char) → List Char
  | buf, [] => buf
  | buf, e :: es =>
    if !buf.isEmpty || !e.isEmpty then
      pathJoinBuf ((if !buf.isEmpty then buf ++ ['/'] else buf) ++ e) es
    else pathJoinBuf buf es

/-- The function `path.Join`. -/
def pathJoin (elem : List String) : String :=
  if (elem.map String.length).sum = 0 then ""
  else String.mk (pathClean (pathJoinBuf [] (elem.map String.data)))

/-! ## Package encoding/json -/

/-- The string escaping of `json.Marshal` (HTML-safe). `copy` bytes of a
multi-byte sequence are still to be copied, `drop` bytes of an escaped one
are still to be skipped. A byte that starts no valid UTF-8 sequence is written
as the escape `\ufffd`, as the encoder of the first version of encoding/json
does; later encoders write the three bytes of U+FFFD instead. -/
def jsonEscape : Nat → Nat → List Char → List Char
  | _, _, [] => []
  | copy + 1, _, c :: cs => c :: jsonEscape copy 0 cs
  | 0, drop + 1, _ :: cs => jsonEscape 0 drop cs
  | 0, 0, c :: cs =>
    let n := c.toNat
    let bs := Char.ofNat 92
    if n < 128 then
      if n = 34 || n = 92 then bs :: c :: jsonEscape 0 0 cs
      else if n = 8 then bs :: 'b' :: jsonEscape 0 0 cs
      else if n = 12 then bs :: 'f' :: jsonEscape 0 0 cs
      else if n = 10 then bs :: 'n' :: jsonEscape 0 0 cs
      else if n = 13 then bs :: 'r' :: jsonEscape 0 0 cs
      else if n = 9 then bs :: 't' :: jsonEscape 0 0 cs
      else if n < 32 || n = 60 || n = 62 || n = 38 then
        bs :: 'u' :: '0' :: '0' :: lowerHexDigit (n / 16) :: lowerHexDigit n :: jsonEscape 0 0 cs
      else c :: jsonEscape 0 0 cs
    else
      let size := utf8Size (c :: cs)
      if size = 0 then bs :: 'u' :: 'f' :: 'f' :: 'f' :: 'd' :: jsonEscape 0 0 cs
      else if n = 226 ∧ (cs.take 2).map Char.toNat = [128, 168] then
        bs :: 'u' :: '2' :: '0' :: '2' :: '8' :: jsonEscape 0 2 cs
      else if n = 226 ∧ (cs.take 2).map Char.toNat = [128, 169] then
        bs :: 'u' :: '2' :: '0' :: '2' :: '9' :: jsonEscape 0 2 cs
      else c :: jsonEscape (size - 1) 0 cs

/-- A string as a JSON string literal. -/
def jsonString (s : String) : List Char :=
  '"' :: jsonEscape 0 0 s.data ++ ['"']

/-- The call `json.Marshal(notification)`: an object with the fields
`event_uuid`, `topic` and `body`; the uuid marshals as its canonical text.
It has no error for this type. -/
def jsonMarshal (n : WebhookNotification) : Except Error String :=
  .ok (String.mk
    ("\x7b\"event_uuid\":".data ++ jsonString n.EventUUID.String ++
      ",\"topic\":".data ++ jsonString n.Topic ++
      ",\"body\":".data ++ jsonString n.Body ++ "\x7d".data))


/-! ## Package net/http

A client is known by what its method `Do` answers to a request: a response or
an error. A response body is known by what `io.ReadAll` returns on it. -/

/-- An `io.Reader`, as the result of reading it to the end. -/
abbrev Reader := Except Error String

/-- The type `http.Request`, with the fields the program sets. -/
structure Request where
  Method : String
  URL : URL
  Host : String
  Header : List (String × String)
  Body : Option String
  deriving DecidableEq, Repr

/-- The type `http.Response`, with the fields the program reads. -/
structure Response where
  StatusCode : Int
  Body : Reader
  deriving DecidableEq

/-- An `http.Client`: its method `Do`. -/
abbrev HttpClient := Request → Except Error Response

/-- Whether a method name is an HTTP token (`validMethod` of net/http). -/
def validMethod (method : String) : Bool :=
  !method.data.isEmpty &&
    method.data.all fun c =>
      isLowerByte c || isUpperByte c || isDigitByte c || "!#$%&*+-.^_|~".data.contains c ||
        c.toNat = 39 || c.toNat = 96

/-- The function `hasPort` of net/http: the last colon comes after the last
closing bracket. -/
def hasPort (s : String) : Bool :=
  match cutLast ':' s.data with
  | some (_, port) => !port.contains ']'
  | none => false

/-- The function `removeEmptyPort` of net/http. -/
def removeEmptyPort (host : String) : String :=
  if hasPort host then
    (if host.data.getLast? = some ':' then String.mk host.data.dropLast else host)
  else host

/-- The function `http.NewRequest`. -/
def NewRequest (method : String) (url : String) (body : Option String) : Except Error Request :=
  let method := if method = "" then "GET" else method
  if !validMethod method then .error (Error.httpError "net/http: invalid method")
  else
    match urlParse url with
    | .error e => .error e
    | .ok u =>
      let host := removeEmptyPort u.Host
      .ok { Method := method, URL := { u with Host := host }, Host := host, Header := [],
            Body := body }

/-- The method `Header.Set` for a key already in canonical form. -/
def headerSet : List (String × String) → String → String → List (String × String)
  | [], key, value => [(key, value)]
  | (k, v) :: h, key, value =>
    if k = key then (k, value) :: h else (k, v) :: headerSet h key value

/-- The method `Client.Get`: the requests handed to `Do` (none when the
request cannot be built) and the result. -/
def HttpClient.Get (c : HttpClient) (url : String) : List Request × Except Error Response :=
  match NewRequest "GET" url none with
  | .error e => ([], .error e)
  | .ok req => ([req], c req)

/-! ## The service (service_helpers.go, service.go) -/

/-- Parse string endpoint into url object. -/
def prepareEndpointForOperations (endpoint : String) : Except Error URL :=
  match urlParse endpoint with
  | .error err => .error err
  | .ok u =>
    if !u.IsAbs then .error Error.ErrEmptyEndpointURLScheme
    else
      let scheme_is_not_http := u.Scheme ≠ "http" && u.Scheme ≠ "https"
      if scheme_is_not_http then .error Error.ErrUnsupportedEndpointURLScheme
      else if u.Host = "" then .error Error.ErrEmptyEndpointURL
      else .ok u

/-- Append /verification?id=<uuid> to the endpoint. -/
def prepareEndpointForVerification (endpoint uuid : String) : String × Option Error :=
  match prepareEndpointForOperations endpoint with
  | .error err => ("", some err)
  | .ok u =>
    let u := { u with Path := pathJoin [u.Path, "verification"] }
    let q := u.Query
    let q := q.Set "id" uuid
    let u := { u with RawQuery := q.Encode }
    (u.String, none)

/-- Append /notification to the endpoint. -/
def prepareEndpointForNotification (endpoint : String) : String × Option Error :=
  match prepareEndpointForOperations endpoint with
  | .error err => ("", some err)
  | .ok u =>
    let u := { u with Path := pathJoin [u.Path, "notification"] }
    (u.String, none)

/-- Verify if the response body holds the expected information. -/
def verifyResponseBodyForVerification (iobody : Reader) (uuid : String) : Option Error :=
  match iobody with
  | .error err => some err
  | .ok body =>
    if body ≠ uuid then some Error.ErrIncorrectVerificationResponse
    else none

/-- The type `WebhookEndpointServiceImpl`: the store and the injected HTTP
client. -/
structure WebhookEndpointServiceImpl where
  db : DB
  http : HttpClient

/-- What a call of the service leaves behind: the store after the call, the
requests handed to an HTTP client during the call, and the returned value. -/
structure Outcome (α : Type) where
  db : DB
  calls : List Request
  ret : α
  deriving DecidableEq

/-- The method `fetchWebhookEndpointFromDB`: the pointer (`none` is nil) and
the error. -/
def fetchWebhookEndpointFromDB (s : WebhookEndpointServiceImpl) (endpoint : WebhookEndpoint) :
    Option WebhookEndpointDB × Option Error :=
  if endpoint.UUID = uuidNil then (none, some Error.ErrEmptyEndpointUUID)
  else
    match dbFirstEndpoint s.db endpoint.UUID with
    | .error txError =>
      if txError = Error.gormErrRecordNotFound then (none, some Error.ErrRecordNotFound)
      else (none, some txError)
    | .ok reference_endpoint => (some reference_endpoint, none)

/-- The method `Create`. `rand` is the randomness `uuid.NewV4` draws. -/
def Create (rand : Nat) (s : WebhookEndpointServiceImpl) (endpoint : WebhookEndpoint) :
    Outcome (WebhookEndpoint × Option Error) :=
  let endpoint := { endpoint with Status := Unverified }
  let endpoint := if endpoint.UUID = uuidNil then { endpoint with UUID := uuidNewV4 rand } else endpoint
  if endpoint.URL = "" then
    { db := s.db, calls := [], ret := (endpoint, some Error.ErrEmptyEndpointURL) }
  else
    let db_endpoint : WebhookEndpointDB :=
      { ID := 0, DeletedAt := false, UUID := endpoint.UUID, URL := endpoint.URL,
        Status := endpoint.Status }
    let tx := dbCreateEndpoint s.db db_endpoint
    { db := tx.1, calls := [], ret := (endpoint, tx.2.2) }

/-- The method `UpdateURL`. -/
def UpdateURL (s : WebhookEndpointServiceImpl) (endpoint : WebhookEndpoint) :
    Outcome (WebhookEndpoint × Option Error) :=
  match fetchWebhookEndpointFromDB s endpoint with
  | (_, some err) => { db := s.db, calls := [], ret := (endpoint, some err) }
  | (none, none) => { db := s.db, calls := [], ret := (endpoint, some Error.ErrInternalProcessingError) }
  | (some model_endpoint, none) =>
    if endpoint.URL = model_endpoint.URL then
      { db := s.db, calls := [], ret := (endpoint, none) }
    else
      let model_endpoint := { model_endpoint with URL := endpoint.URL }
      let model_endpoint := { model_endpoint with Status := Unverified }
      let tx := dbSaveEndpoint s.db model_endpoint
      { db := tx.1, calls := [], ret := (endpoint, tx.2) }

/-- The method `Verify`. `dflt` is the client `&http.Client{Timeout: 3s}`
that the method makes for the challenge; it is not the injected client. -/
def Verify (dflt : HttpClient) (s : WebhookEndpointServiceImpl) (endpoint : WebhookEndpoint) :
    Outcome (WebhookEndpoint × Option Error) :=
  match fetchWebhookEndpointFromDB s endpoint with
  | (_, some err) => { db := s.db, calls := [], ret := (endpoint, some err) }
  | (none, none) => { db := s.db, calls := [], ret := (endpoint, some Error.ErrInternalProcessingError) }
  | (some model_endpoint, none) =>
    if model_endpoint.Status > Suspended then
      { db := s.db, calls := [], ret := (endpoint, none) }
    else
      match prepareEndpointForVerification model_endpoint.URL model_endpoint.UUID.String with
      | (_, some err) => { db := s.db, calls := [], ret := (endpoint, some err) }
      | (url, none) =>
        let got := dflt.Get url
        match got.2 with
        | .error err => { db := s.db, calls := got.1, ret := (endpoint, some err) }
        | .ok resp =>
          let verificationResult := verifyResponseBodyForVerification resp.Body endpoint.UUID.String
          if verificationResult ≠ none then
            { db := s.db, calls := got.1, ret := (endpoint, some Error.ErrFailedEndpointVerification) }
          else
            let model_endpoint := { model_endpoint with Status := Verified }
            let endpoint := { endpoint with Status := Verified }
            let tx := dbSaveEndpoint s.db model_endpoint
            { db := tx.1, calls := got.1, ret := (endpoint, tx.2) }

/-- The method `Delete`. -/
def Delete (s : WebhookEndpointServiceImpl) (endpoint : WebhookEndpoint) : Outcome (Option Error) :=
  match fetchWebhookEndpointFromDB s endpoint with
  | (_, some err) => { db := s.db, calls := [], ret := some err }
  | (none, none) => { db := s.db, calls := [], ret := some Error.ErrInternalProcessingError }
  | (some model_endpoint, none) =>
    let tx := dbDeleteEndpoint s.db model_endpoint
    { db := tx.1, calls := [], ret := tx.2 }

/-- The method `Get`. It reads the store and changes nothing. -/
def Get (s : WebhookEndpointServiceImpl) (endpoint : WebhookEndpoint) : WebhookEndpoint × Option Error :=
  match fetchWebhookEndpointFromDB s endpoint with
  | (_, some err) => (endpoint, some err)
  | (none, none) => (endpoint, some Error.ErrInternalProcessingError)
  | (some model_endpoint, none) =>
    let simplified_webhook_endpoint : WebhookEndpoint :=
      { UUID := model_endpoint.UUID, URL := model_endpoint.URL, Status := model_endpoint.Status }
    (simplified_webhook_endpoint, none)

/-- The method `Notify`. -/
def Notify (s : WebhookEndpointServiceImpl) (endpoint : WebhookEndpoint)
    (notification : WebhookNotification) : Outcome (Option Error) :=
  match Get s endpoint with
  | (_, some err) => { db := s.db, calls := [], ret := some err }
  | (ref_endpoint, none) =>
    if ref_endpoint.Status < Verified then
      { db := s.db, calls := [], ret := some Error.ErrEndpointNotYetActivated }
    else
      match jsonMarshal notification with
      | .error err => { db := s.db, calls := [], ret := some err }
      | .ok jsonval =>
        match prepareEndpointForNotification ref_endpoint.URL with
        | (_, some err) => { db := s.db, calls := [], ret := some err }
        | (final_url, none) =>
          match NewRequest "GET" final_url (some jsonval) with
          | .error err => { db := s.db, calls := [], ret := some err }
          | .ok request =>
            let request :=
              { request with Header := headerSet request.Header "Content-Type" "application/json" }
            match s.http request with
            | .error err => { db := s.db, calls := [request], ret := some err }
            | .ok response =>
              let db_notifiaction : WebhookNotificationDB :=
                { ID := 0, DeletedAt := false, EventUUID := notification.EventUUID,
                  Topic := notification.Topic, Body := notification.Body,
                  EndpointUUID := ref_endpoint.UUID }
              let tx := dbCreateNotification s.db db_notifiaction
              match tx.2.2 with
              | some txError => { db := tx.1, calls := [request], ret := some txError }
              | none =>
                if response.StatusCode ≥ 400 then
                  match response.Body with
                  | .error _ =>
                    { db := tx.1, calls := [request], ret := some Error.ErrFailedNotifyingTheEndpoint }
                  | .ok _ =>
                    { db := tx.1, calls := [request], ret := some Error.ErrFailedNotifyingTheEndpoint }
                else { db := tx.1, calls := [request], ret := none }

/-- The method `LastNotificationSent`. It reads the store and changes
nothing. -/
def LastNotificationSent (s : WebhookEndpointServiceImpl) (endpoint : WebhookEndpoint) :
    WebhookNotification × Option Error :=
  let zero : WebhookNotification := { EventUUID := uuidNil, Topic := "", Body := "" }
  if endpoint.UUID = uuidNil then (zero, some Error.ErrEmptyEndpointUUID)
  else
    match dbLastNotification s.db endpoint.UUID with
    | .error txError =>
      if txError = Error.gormErrRecordNotFound then (zero, some Error.ErrRecordNotFound)
      else (zero, some txError)
    | .ok db_notifiaction =>
      ({ EventUUID := db_notifiaction.EventUUID, Topic := db_notifiaction.Topic,
         Body := db_notifiaction.Body }, none)

/-- The method `ListEndpoints`. It reads the store and changes nothing. -/
def ListEndpoints (s : WebhookEndpointServiceImpl) : Option (List WebhookEndpoint) × Option Error :=
  match dbFindEndpoints s.db with
  | .error txError => (none, some txError)
  | .ok db_endpoints => (some (endpointsDbToWeb db_endpoints), none)

/-! ## Plain URLs

Vocabulary for the statement on the challenge URL: bases that net/url and
`path.Join` leave as they are written. These are not part of the program. -/

/-- The unreserved bytes of RFC 3986: letters, digits, `-`, `_`, `.`, `~`. -/
def unreservedByte (c : Char) : Bool :=
  isLowerByte c || isUpperByte c || isDigitByte c || c = '-' || c = '_' || c = '.' || c = '~'

/-- A path segment that `path.Clean` keeps as it is: not empty, not `.`, not
`..`, made of unreserved bytes. -/
def plainSegment (seg : List Char) : Prop :=
  seg ≠ [] ∧ seg ≠ ['.'] ∧ seg ≠ ['.', '.'] ∧ ∀ c ∈ seg, unreservedByte c = true

instance (seg : List Char) : Decidable (plainSegment seg) := by
  unfold plainSegment
  infer_instance

/-- The path made of the segments, each after a slash. -/
def pathOfSegments (segs : List (List Char)) : List Char := segs.flatMap ('/' :: ·)

/-- The text `scheme://host/seg1/.../segn`. -/
def plainBase (sch host : List Char) (segs : List (List Char)) : List Char :=
  sch ++ ':' :: '/' :: '/' :: (host ++ pathOfSegments segs)

/-! ## Sequences of calls

A call of the service together with what its environment supplies: the random
bytes drawn by Create, the client that Verify makes for the challenge, and the
injected client as it answers at the time of a Notify. -/

inductive Call where
  | create (rand : Nat) (endpoint : WebhookEndpoint)
  | updateURL (endpoint : WebhookEndpoint)
  | verify (dflt : HttpClient) (endpoint : WebhookEndpoint)
  | delete (endpoint : WebhookEndpoint)
  | notify (http : HttpClient) (endpoint : WebhookEndpoint) (notification : WebhookNotification)

/-- The store after a call and the HTTP requests the call handed to a
client. -/
def Call.run (c : Call) (db : DB) : DB × List Request :=
  match c with
  | .create rand endpoint =>
    let o := Create rand ⟨db, fun _ => .error (Error.httpError "not used")⟩ endpoint
    (o.db, o.calls)
  | .updateURL endpoint =>
    let o := UpdateURL ⟨db, fun _ => .error (Error.httpError "not used")⟩ endpoint
    (o.db, o.calls)
  | .verify dflt endpoint =>
    let o := Verify dflt ⟨db, fun _ => .error (Error.httpError "not used")⟩ endpoint
    (o.db, o.calls)
  | .delete endpoint =>
    let o := Delete ⟨db, fun _ => .error (Error.httpError "not used")⟩ endpoint
    (o.db, o.calls)
  | .notify http endpoint notification =>
    let o := Notify ⟨db, http⟩ endpoint notification
    (o.db, o.calls)

/-- The store after a sequence of calls. -/
def runCalls (calls : List Call) (db : DB) : DB :=
  calls.foldl (fun d c => (c.run d).1) db

/-- The store after the first `n` calls of a sequence that starts on the empty
store. -/
def storeAfter (calls : List Call) (n : Nat) : DB := runCalls (calls.take n) DB.empty

/-- The stores the service can reach from the empty store. -/
def Reachable (db : DB) : Prop := ∃ calls : List Call, runCalls calls DB.empty = db

/-- The records of the endpoints table: the rows not marked deleted. -/
def DB.records (db : DB) : List WebhookEndpointDB := db.endpoints.filter (fun r => !r.DeletedAt)

/-- No two records of the endpoints table have the same UUID. -/
def DB.uniqueUUIDs (db : DB) : Prop := (db.records.map (·.UUID)).Nodup

instance (db : DB) : Decidable db.uniqueUUIDs := by
  unfold DB.uniqueUUIDs
  infer_instance

/-- The UUID under which a Create call stores its record: the caller's when
it is not nil, the generated one otherwise. -/
def createdUUID (rand : Nat) (endpoint : WebhookEndpoint) : UUID :=
  if endpoint.UUID = uuidNil then uuidNewV4 rand else endpoint.UUID

/-- A call uses a fresh UUID on a store: if it is a Create call that inserts a
record, no record of the store has the UUID of the new record. -/
def Call.freshOn (c : Call) (db : DB) : Prop :=
  match c with
  | .create rand endpoint =>
    endpoint.URL ≠ "" → createdUUID rand endpoint ∉ db.records.map (·.UUID)
  | _ => True

instance (c : Call) (db : DB) : Decidable (c.freshOn db) := by
  cases c <;> unfold Call.freshOn <;> infer_instance

/-- Every Create call of the sequence uses a fresh UUID on the store it is
run on. -/
def freshRun : List Call → DB → Prop
  | [], _ => True
  | c :: cs, db => c.freshOn db ∧ freshRun cs (c.run db).1

instance freshRunDecidable : (calls : List Call) → (db : DB) → Decidable (freshRun calls db)
  | [], _ => isTrue trivial
  | c :: cs, db => @instDecidableAnd _ _ inferInstance (freshRunDecidable cs (c.run db).1)

/-- Two Create calls with the same caller-supplied UUID. -/
def duplicateCreates : List Call :=
  [Call.create 0 ⟨⟨7⟩, "http://a.example.com", Unverified⟩,
   Call.create 1 ⟨⟨7⟩, "http://b.example.com", Unverified⟩]

/-- The call number `j` of the sequence is a successful challenge for the
row `r`: it is a Verify call that found a record with the key, UUID and URL of
`r`, sent the challenge to the verification URL built from that URL and UUID,
and read the UUID back as the body of the response. -/
def ChallengedAt (calls : List Call) (j : Nat) (r : WebhookEndpointDB) : Prop :=
  ∃ (dflt : HttpClient) (endpoint : WebhookEndpoint) (rec : WebhookEndpointDB) (url : String)
    (resp : Response),
    calls[j]? = some (Call.verify dflt endpoint) ∧
    dbFirstEndpoint (storeAfter calls j) endpoint.UUID = .ok rec ∧
    rec.ID = r.ID ∧ rec.UUID = r.UUID ∧ rec.URL = r.URL ∧
    prepareEndpointForVerification r.URL r.UUID.String = (url, none) ∧
    (dflt.Get url).2 = .ok resp ∧ resp.Body = .ok r.UUID.String

/-- From just after call number `j` up to the store before call number `n`,
the store has a row with the key, UUID and URL of `r`: the URL was not set to
another one in between. -/
def KeptSince (calls : List Call) (j n : Nat) (r : WebhookEndpointDB) : Prop :=
  ∀ m, j < m → m ≤ n →
    ∃ r2 ∈ (storeAfter calls m).endpoints, r2.ID = r.ID ∧ r2.UUID = r.UUID ∧ r2.URL = r.URL

/-- Before call number `n`, the URL of the row `r` has been challenged
successfully and not been set to another one since. -/
def Certified (calls : List Call) (n : Nat) (r : WebhookEndpointDB) : Prop :=
  ∃ j, j < n ∧ ChallengedAt calls j r ∧ KeptSince calls j n r

/-! ## Test doubles

Values used to run the definitions on concrete inputs. -/

/-- A client whose every request fails in the transport. -/
def refusingClient : HttpClient := fun _ => .error (Error.httpError "connection refused")

/-- A client that answers every request with status 200 and the first value
of the query parameter `id` as the body, like the verification handler of a
receiver. -/
def echoClient : HttpClient := fun req =>
  .ok { StatusCode := 200,
        Body := .ok (((req.URL.Query.lookup "id").bind List.head?).getD "") }

/-- A client that answers every request with the given status code and an
empty body. -/
def statusClient (code : Int) : HttpClient := fun _ =>
  .ok { StatusCode := code, Body := .ok "" }

/-- A store with one endpoint, suspended, and no notification. -/
def storeSuspended : DB :=
  { endpoints :=
      [{ ID := 1, DeletedAt := false, UUID := ⟨7⟩, URL := "http://example.com/hooks",
         Status := Suspended }],
    notifications := [] }

/-- A store with one endpoint, verified, and no notification. -/
def storeVerified : DB :=
  { endpoints :=
      [{ ID := 1, DeletedAt := false, UUID := ⟨7⟩, URL := "http://example.com/hooks",
         Status := Verified }],
    notifications := [] }

/-- A client whose responses have a body that cannot be read. -/
def brokenBodyClient : HttpClient := fun _ =>
  .ok { StatusCode := 200, Body := .error (Error.readError "unexpected EOF") }

/-- The challenge request for the endpoint of the example stores. -/
def challengeRequest : Request :=
  { Method := "GET",
    URL := { URL.zero with Scheme := "http", Host := "example.com",
                           Path := "/hooks/verification",
                           RawQuery := "id=00000000-0000-0000-0000-000000000007" },
    Host := "example.com", Header := [], Body := none }

/-- The notification of the examples. -/
def exampleNotification : WebhookNotification := { EventUUID := ⟨1⟩, Topic := "t", Body := "" }

/-- Its JSON form. -/
def exampleJSON : String :=
  "\x7b\"event_uuid\":\"00000000-0000-0000-0000-000000000001\",\"topic\":\"t\",\"body\":\"\"\x7d"

/-- The notification request for the endpoint of the example stores. -/
def notificationRequest : Request :=
  { Method := "GET",
    URL := { URL.zero with Scheme := "http", Host := "example.com",
                           Path := "/hooks/notification" },
    Host := "example.com", Header := [("Content-Type", "application/json")],
    Body := some exampleJSON }

/-- A store with notifications for two endpoints; the last one for endpoint
7 is followed by one for endpoint 8. -/
def storeNotified : DB :=
  { endpoints := storeVerified.endpoints,
    notifications :=
      [{ ID := 1, DeletedAt := false, EventUUID := ⟨1⟩, Topic := "a", Body := "", EndpointUUID := ⟨7⟩ },
       { ID := 2, DeletedAt := false, EventUUID := ⟨2⟩, Topic := "b", Body := "x", EndpointUUID := ⟨7⟩ },
       { ID := 3, DeletedAt := false, EventUUID := ⟨3⟩, Topic := "c", Body := "", EndpointUUID := ⟨8⟩ }] }

/-- A store with one endpoint, as Create leaves it. -/
def storeUnverified : DB :=
  { endpoints :=
      [{ ID := 1, DeletedAt := false, UUID := ⟨7⟩, URL := "http://example.com/hooks",
         Status := Unverified }],
    notifications := [] }

/-- Create, Verify against the echoing server, Notify. -/
def exampleCalls : List Call :=
  [Call.create 0 ⟨⟨7⟩, "http://example.com/hooks", Healthy⟩,
   Call.verify echoClient ⟨⟨7⟩, "", Unverified⟩,
   Call.notify (statusClient 200) ⟨⟨7⟩, "", Unverified⟩ exampleNotification]

open Error

/-! ## Lemmas on the store -/

theorem dbFirstEndpoint_find {db : DB} {uuid : UUID} {rec : WebhookEndpointDB}
    (h : dbFirstEndpoint db uuid = .ok rec) :
    db.endpoints.find? (fun r => !r.DeletedAt && r.UUID == uuid) = some rec := by
  unfold dbFirstEndpoint at h
  split at h
  · rename_i r hr
    cases h
    exact hr
  · cases h

theorem dbFirstEndpoint_props {db : DB} {uuid : UUID} {rec : WebhookEndpointDB}
    (h : dbFirstEndpoint db uuid = .ok rec) :
    rec ∈ db.endpoints ∧ rec.DeletedAt = false ∧ rec.UUID = uuid := by
  have hf := dbFirstEndpoint_find h
  have hm := List.mem_of_find?_eq_some hf
  have hp := List.find?_some hf
  simp at hp
  exact ⟨hm, hp.1, hp.2⟩

/-- Updating the row found by a query to a value that still satisfies the
query makes the query find that value. -/
theorem find?_map_update (p : WebhookEndpointDB → Bool) (v rec : WebhookEndpointDB)
    (hv : p v = true) (hdel : rec.DeletedAt = false) :
    ∀ l : List WebhookEndpointDB, l.find? p = some rec →
      (l.map (fun r => if r.ID == rec.ID && !r.DeletedAt then v else r)).find? p = some v := by
  intro l
  induction l with
  | nil => intro h; simp at h
  | cons x xs ih =>
    intro h
    by_cases hx : p x = true
    · simp [List.find?, hx] at h
      subst h
      simp [List.find?, hdel, hv]
    · simp [List.find?, hx] at h
      by_cases hc : (x.ID == rec.ID && !x.DeletedAt) = true
      · simp only [List.map, hc, if_true, List.find?, hv]
      · rw [List.map_cons, if_neg hc, List.find?_cons_of_neg _ hx]
        exact ih h

/-- Saving a new value for the row that a lookup by uuid found, in a
well-formed store: the write reports no error, the lookup now finds the new
value, and the notifications are untouched. -/
theorem dbSaveEndpoint_first {db : DB} {uuid : UUID} {rec : WebhookEndpointDB}
    (v : WebhookEndpointDB)
    (hwf : db.WF) (h : dbFirstEndpoint db uuid = .ok rec)
    (hid : v.ID = rec.ID) (hdel : v.DeletedAt = false) (hu : v.UUID = uuid) :
    (dbSaveEndpoint db v).2 = none ∧
      dbFirstEndpoint (dbSaveEndpoint db v).1 uuid = .ok v ∧
      (dbSaveEndpoint db v).1.notifications = db.notifications := by
  obtain ⟨hm, hd, _⟩ := dbFirstEndpoint_props h
  have hpos : 0 < rec.ID := hwf.1.1 rec.ID (List.mem_map_of_mem _ hm)
  have hne : v.ID ≠ 0 := by omega
  have hany : db.endpoints.any (fun r => r.ID == v.ID && !r.DeletedAt) = true := by
    rw [List.any_eq_true]
    exact ⟨rec, hm, by simp [hid, hd]⟩
  have hf := find?_map_update (fun r => !r.DeletedAt && r.UUID == uuid) v rec
    (by simp [hdel, hu]) hd db.endpoints (dbFirstEndpoint_find h)
  unfold dbSaveEndpoint
  simp only [hne, if_false, hany, if_true]
  refine ⟨trivial, ?_, trivial⟩
  unfold dbFirstEndpoint
  simp only [hid]
  rw [hf]

theorem uuidNewV4_ne_nil (rand : Nat) : uuidNewV4 rand ≠ uuidNil := by
  unfold uuidNewV4 uuidNil
  intro h
  injection h with h
  omega

theorem dbLastNotification_split {db : DB} (uuid : UUID)
    {pre post : List WebhookNotificationDB} {n : WebhookNotificationDB}
    (h : db.notifications = pre ++ n :: post) (hn : n.DeletedAt = false)
    (hu : n.EndpointUUID = uuid)
    (hpost : ∀ m ∈ post, m.DeletedAt = true ∨ m.EndpointUUID ≠ uuid) :
    dbLastNotification db uuid = .ok n := by
  have hnone : post.reverse.find? (fun r => !r.DeletedAt && r.EndpointUUID == uuid) = none := by
    rw [List.find?_eq_none]
    intro m hm
    rcases hpost m (List.mem_reverse.mp hm) with hd | hne
    · simp [hd]
    · simp [hne]
  unfold dbLastNotification
  rw [h, List.reverse_append, List.reverse_cons, List.append_assoc, List.find?_append, hnone]
  simp [List.find?, hn, hu]

theorem dbLastNotification_error_iff (db : DB) (uuid : UUID) :
    (∃ e, dbLastNotification db uuid = .error e) ↔
      ∀ m ∈ db.notifications, m.DeletedAt = true ∨ m.EndpointUUID ≠ uuid := by
  unfold dbLastNotification
  cases hf : db.notifications.reverse.find? (fun r => !r.DeletedAt && r.EndpointUUID == uuid) with
  | none =>
    rw [List.find?_eq_none] at hf
    simp only [exists_apply_eq_apply', true_iff] 
    intro m hm
    have := hf m (List.mem_reverse.mpr hm)
    by_cases hd : m.DeletedAt = true
    · exact Or.inl hd
    · right
      intro hu
      simp [hd, hu] at this
  | some r =>
    have hm := List.mem_reverse.mp (List.mem_of_find?_eq_some hf)
    have hp := List.find?_some hf
    simp at hp
    constructor
    · rintro ⟨e, he⟩
      cases he
    · intro hall
      rcases hall r hm with hd | hne
      · simp [hp.1] at hd
      · exact absurd hp.2 hne

/-- Inserting notifications for other endpoints appends rows for other
endpoints. -/
theorem foldl_dbCreateNotification (uuid : UUID) :
    ∀ (others : List WebhookNotificationDB) (db : DB),
      (∀ m ∈ others, m.ID = 0 ∧ m.EndpointUUID ≠ uuid) →
      ∃ post, (others.foldl (fun d m => (dbCreateNotification d m).1) db).notifications =
          db.notifications ++ post ∧ ∀ m ∈ post, m.EndpointUUID ≠ uuid := by
  intro others
  induction others with
  | nil => intro db _; exact ⟨[], by simp, by simp⟩
  | cons o os ih =>
    intro db h
    have ho := h o (List.mem_cons_self _ _)
    obtain ⟨post, hp, hpost⟩ := ih (dbCreateNotification db o).1
      (fun m hm => h m (List.mem_cons_of_mem _ hm))
    refine ⟨{ o with ID := nextID (db.notifications.map (·.ID)) } :: post, ?_, ?_⟩
    · rw [List.foldl_cons, hp]
      simp [dbCreateNotification, ho.1]
    · intro m hm
      rcases List.mem_cons.mp hm with rfl | hm
      · exact ho.2
      · exact hpost m hm

/-! ## Lemmas on listing -/

theorem take_succ_set {α : Type} (x : α) :
    ∀ (web : List α) (i : Nat), i < web.length →
      (web.set i x).take (i + 1) = web.take i ++ [x] := by
  intro web
  induction web with
  | nil => intro i h; simp at h
  | cons w ws ih =>
    intro i h
    cases i with
    | zero => simp
    | succ j =>
      simp only [List.set_cons_succ, List.take_succ_cons, List.cons_append, List.cons.injEq,
        true_and]
      exact ih j (by simpa using h)

/-- The loop fills the result from index `i` on with the converted records. -/
theorem endpointsDbToWebLoop_eq :
    ∀ (es : List WebhookEndpointDB) (i : Nat) (web : List WebhookEndpoint),
      web.length = i + es.length →
      endpointsDbToWebLoop i es web = web.take i ++ es.map endpointDbToWeb := by
  intro es
  induction es with
  | nil =>
    intro i web h
    simp at h
    simp [endpointsDbToWebLoop, List.take_of_length_le (Nat.le_of_eq h)]
  | cons e es ih =>
    intro i web h
    simp only [List.length_cons] at h
    have hlt : i < web.length := by omega
    rw [endpointsDbToWebLoop, ih (i + 1) _ (by rw [List.length_set]; omega)]
    rw [List.map_cons]
    rw [take_succ_set _ _ _ hlt]
    simp

theorem endpointsDbToWeb_eq_map (dbes : List WebhookEndpointDB) :
    endpointsDbToWeb dbes = dbes.map endpointDbToWeb := by
  unfold endpointsDbToWeb
  rw [endpointsDbToWebLoop_eq _ _ _ (by simp)]
  simp


theorem records_append_live (db : DB) (r : WebhookEndpointDB) (h : r.DeletedAt = false) :
    ({ db with endpoints := db.endpoints ++ [r] } : DB).records = db.records ++ [r] := by
  simp [DB.records, List.filter_append, h]

/-- Create calls with non-empty URLs add one record each. -/
theorem runCalls_creates_records :
    ∀ (creates : List (Nat × WebhookEndpoint)) (db : DB),
      (∀ c ∈ creates, c.2.URL ≠ "") →
      (runCalls (creates.map (fun c => Call.create c.1 c.2)) db).records.length =
        db.records.length + creates.length := by
  intro creates
  induction creates with
  | nil => intro db _; simp [runCalls]
  | cons c cs ih =>
    intro db h
    have hc := h c (List.mem_cons_self _ _)
    have hstep : ((Call.create c.1 c.2).run db).1.records.length = db.records.length + 1 := by
      by_cases hnil : c.2.UUID = uuidNil <;>
        simp [Call.run, Create, dbCreateEndpoint, hc, hnil, DB.records, List.filter_append]
    have := ih ((Call.create c.1 c.2).run db).1 (fun x hx => h x (List.mem_cons_of_mem _ hx))
    simp only [runCalls, List.map_cons, List.foldl_cons] at this ⊢
    rw [this, hstep]
    simp only [List.length_cons]
    omega

theorem ListEndpoints_eq (s : WebhookEndpointServiceImpl) :
    ListEndpoints s = (some (endpointsDbToWeb s.db.records), none) := rfl

/-! ## Well-formedness of the store

The empty store is well-formed and every operation of the service keeps the
store well-formed, so every store the service can reach is. -/

theorem le_foldr_max : ∀ (ids : List Nat) (i : Nat), i ∈ ids → i ≤ ids.foldr max 0 := by
  intro ids
  induction ids with
  | nil => intro i h; simp at h
  | cons x xs ih =>
    intro i h
    rcases List.mem_cons.mp h with rfl | h
    · simp [List.foldr]
    · have := ih i h
      simp only [List.foldr]
      omega

/-- Appending the next auto-incremented key keeps the keys in order. -/
theorem keysOK_append_nextID (ids : List Nat) (h : keysOK ids) : keysOK (ids ++ [nextID ids]) := by
  constructor
  · intro i hi
    rcases List.mem_append.mp hi with hi | hi
    · exact h.1 i hi
    · simp [nextID] at hi
      omega
  · rw [List.pairwise_append]
    refine ⟨h.2, List.pairwise_singleton _ _, ?_⟩
    intro a ha b hb
    simp at hb
    subst hb
    have := le_foldr_max ids a ha
    unfold nextID
    omega

theorem DB.empty_WF : DB.empty.WF := by decide

theorem dbCreateEndpoint_WF (db : DB) (v : WebhookEndpointDB) (h : db.WF) (hv : v.ID = 0) :
    (dbCreateEndpoint db v).1.WF := by
  unfold dbCreateEndpoint
  simp only [hv, if_true]
  refine ⟨?_, h.2⟩
  simpa using keysOK_append_nextID _ h.1

theorem dbCreateNotification_WF (db : DB) (v : WebhookNotificationDB) (h : db.WF) (hv : v.ID = 0) :
    (dbCreateNotification db v).1.WF := by
  unfold dbCreateNotification
  simp only [hv, if_true]
  refine ⟨h.1, ?_⟩
  simpa using keysOK_append_nextID _ h.2

/-- Saving a value under the key of a row that a lookup found keeps the store
well-formed. -/
theorem dbSaveEndpoint_WF {db : DB} {uuid : UUID} {rec : WebhookEndpointDB}
    (v : WebhookEndpointDB) (hwf : db.WF) (h : dbFirstEndpoint db uuid = .ok rec)
    (hid : v.ID = rec.ID) : (dbSaveEndpoint db v).1.WF := by
  obtain ⟨hm, hd, _⟩ := dbFirstEndpoint_props h
  have hpos : 0 < rec.ID := hwf.1.1 rec.ID (List.mem_map_of_mem _ hm)
  have hne : v.ID ≠ 0 := by omega
  have hany : db.endpoints.any (fun r => r.ID == v.ID && !r.DeletedAt) = true := by
    rw [List.any_eq_true]
    exact ⟨rec, hm, by simp [hid, hd]⟩
  have hids : (db.endpoints.map (fun r => if r.ID == v.ID && !r.DeletedAt then v else r)).map
      (·.ID) = db.endpoints.map (·.ID) := by
    rw [List.map_map]
    apply List.map_congr_left
    intro r _
    by_cases hc : (r.ID == v.ID && !r.DeletedAt) = true
    · simp only [Function.comp, hc, if_true]
      simp at hc
      exact hc.1.symm
    · simp only [Function.comp, hc, if_false]
      simp
  unfold dbSaveEndpoint
  simp only [hne, if_false, hany, if_true]
  exact ⟨by rw [hids]; exact hwf.1, hwf.2⟩

theorem dbDeleteEndpoint_WF (db : DB) (v : WebhookEndpointDB) (hwf : db.WF) :
    (dbDeleteEndpoint db v).1.WF := by
  unfold dbDeleteEndpoint
  by_cases hv : v.ID = 0
  · simp only [hv, if_true]
    exact hwf
  · have hids : (db.endpoints.map
        (fun r => if r.ID == v.ID && !r.DeletedAt then { r with DeletedAt := true } else r)).map
        (·.ID) = db.endpoints.map (·.ID) := by
      rw [List.map_map]
      apply List.map_congr_left
      intro r _
      by_cases hc : (r.ID == v.ID && !r.DeletedAt) = true <;> simp [Function.comp, hc]
    simp only [hv, if_false]
    exact ⟨by rw [hids]; exact hwf.1, hwf.2⟩

/-- Every operation of the service keeps the store well-formed. -/
theorem Create_WF (rand : Nat) (s : WebhookEndpointServiceImpl) (endpoint : WebhookEndpoint)
    (hwf : s.db.WF) : (Create rand s endpoint).db.WF := by
  by_cases hurl : endpoint.URL = ""
  · by_cases hnil : endpoint.UUID = uuidNil <;> simpa [Create, hurl, hnil] using hwf
  · by_cases hnil : endpoint.UUID = uuidNil
    · have := dbCreateEndpoint_WF s.db
        { ID := 0, DeletedAt := false, UUID := uuidNewV4 rand, URL := endpoint.URL,
          Status := Unverified } hwf rfl
      simpa [Create, hurl, hnil] using this
    · have := dbCreateEndpoint_WF s.db
        { ID := 0, DeletedAt := false, UUID := endpoint.UUID, URL := endpoint.URL,
          Status := Unverified } hwf rfl
      simpa [Create, hurl, hnil] using this

theorem UpdateURL_WF (s : WebhookEndpointServiceImpl) (endpoint : WebhookEndpoint)
    (hwf : s.db.WF) : (UpdateURL s endpoint).db.WF := by
  by_cases hid : endpoint.UUID = uuidNil
  · simpa [UpdateURL, fetchWebhookEndpointFromDB, hid] using hwf
  cases hrec : dbFirstEndpoint s.db endpoint.UUID with
  | error e =>
    by_cases he : e = gormErrRecordNotFound <;>
      simpa [UpdateURL, fetchWebhookEndpointFromDB, hid, hrec, he] using hwf
  | ok rec =>
    by_cases hurl : endpoint.URL = rec.URL
    · simpa [UpdateURL, fetchWebhookEndpointFromDB, hid, hrec, hurl] using hwf
    · have := dbSaveEndpoint_WF { rec with URL := endpoint.URL, Status := Unverified } hwf hrec rfl
      simpa [UpdateURL, fetchWebhookEndpointFromDB, hid, hrec, hurl] using this

theorem Delete_WF (s : WebhookEndpointServiceImpl) (endpoint : WebhookEndpoint)
    (hwf : s.db.WF) : (Delete s endpoint).db.WF := by
  by_cases hid : endpoint.UUID = uuidNil
  · simpa [Delete, fetchWebhookEndpointFromDB, hid] using hwf
  cases hrec : dbFirstEndpoint s.db endpoint.UUID with
  | error e =>
    by_cases he : e = gormErrRecordNotFound <;>
      simpa [Delete, fetchWebhookEndpointFromDB, hid, hrec, he] using hwf
  | ok rec =>
    have := dbDeleteEndpoint_WF s.db rec hwf
    simpa [Delete, fetchWebhookEndpointFromDB, hid, hrec] using this

theorem Verify_WF (dflt : HttpClient) (s : WebhookEndpointServiceImpl)
    (endpoint : WebhookEndpoint) (hwf : s.db.WF) : (Verify dflt s endpoint).db.WF := by
  by_cases hid : endpoint.UUID = uuidNil
  · simpa [Verify, fetchWebhookEndpointFromDB, hid] using hwf
  cases hrec : dbFirstEndpoint s.db endpoint.UUID with
  | error e =>
    by_cases he : e = gormErrRecordNotFound <;>
      simpa [Verify, fetchWebhookEndpointFromDB, hid, hrec, he] using hwf
  | ok rec =>
    by_cases hst : rec.Status > Suspended
    · simpa [Verify, fetchWebhookEndpointFromDB, hid, hrec, hst] using hwf
    · cases hprep : prepareEndpointForVerification rec.URL rec.UUID.String with
      | mk url perr =>
        cases perr with
        | some e => simpa [Verify, fetchWebhookEndpointFromDB, hid, hrec, hst, hprep] using hwf
        | none =>
          cases hget : (dflt.Get url).2 with
          | error e =>
            simpa [Verify, fetchWebhookEndpointFromDB, hid, hrec, hst, hprep, hget] using hwf
          | ok resp =>
            by_cases hver : verifyResponseBodyForVerification resp.Body endpoint.UUID.String = none
            · have := dbSaveEndpoint_WF { rec with Status := Verified } hwf hrec rfl
              simpa [Verify, fetchWebhookEndpointFromDB, hid, hrec, hst, hprep, hget, hver]
                using this
            · simpa [Verify, fetchWebhookEndpointFromDB, hid, hrec, hst, hprep, hget, hver]
                using hwf

theorem Notify_WF (s : WebhookEndpointServiceImpl) (endpoint : WebhookEndpoint)
    (notification : WebhookNotification) (hwf : s.db.WF) :
    (Notify s endpoint notification).db.WF := by
  unfold Notify
  split
  · exact hwf
  · split
    · exact hwf
    · split
      · exact hwf
      · split
        · exact hwf
        · split
          · exact hwf
          · simp only
            split
            · exact hwf
            · have hc := dbCreateNotification_WF s.db
                { ID := 0, DeletedAt := false, EventUUID := notification.EventUUID,
                  Topic := notification.Topic, Body := notification.Body,
                  EndpointUUID := (Get s endpoint).1.UUID } hwf rfl
              split
              · simp_all
              · split
                · split <;> simp_all
                · simp_all

/-! ## Sequences of calls: keys and UUIDs -/

/-- In a table with keys in order, a key determines the row. -/
theorem keysOK_inj {l : List WebhookEndpointDB} (h : keysOK (l.map (·.ID)))
    {r r2 : WebhookEndpointDB} (hr : r ∈ l) (hr2 : r2 ∈ l) (hid : r.ID = r2.ID) : r = r2 := by
  have hnd : (l.map (·.ID)).Nodup := h.2.imp (fun hlt => Nat.ne_of_lt hlt)
  exact List.inj_on_of_nodup_map hnd hr hr2 hid

/-- A row-wise change that keeps the deletion mark and the UUID of every row
keeps the UUIDs of the records. -/
theorem records_uuids_map (g : WebhookEndpointDB → WebhookEndpointDB) :
    ∀ l : List WebhookEndpointDB,
      (∀ r ∈ l, (g r).DeletedAt = r.DeletedAt ∧ (g r).UUID = r.UUID) →
      ((l.map g).filter (fun r => !r.DeletedAt)).map (·.UUID) =
        (l.filter (fun r => !r.DeletedAt)).map (·.UUID) := by
  intro l
  induction l with
  | nil => intro _; rfl
  | cons x xs ih =>
    intro h
    have hx := h x (List.mem_cons_self _ _)
    have ih2 := ih (fun r hr => h r (List.mem_cons_of_mem _ hr))
    by_cases hd : x.DeletedAt = true
    · simp only [List.map_cons, List.filter_cons, hx.1, hd, Bool.not_true]
      simpa using ih2
    · have hd2 : x.DeletedAt = false := by simpa using hd
      simp only [List.map_cons, List.filter_cons, hx.1, hd2, Bool.not_false, if_true, hx.2]
      rw [ih2]

/-- Saving a value with the key, deletion mark and UUID of the row a lookup
found keeps the UUIDs of the records. -/
theorem dbSaveEndpoint_records_uuids {db : DB} {uuid : UUID} {rec : WebhookEndpointDB}
    (v : WebhookEndpointDB) (hwf : db.WF) (h : dbFirstEndpoint db uuid = .ok rec)
    (hid : v.ID = rec.ID) (hdel : v.DeletedAt = rec.DeletedAt) (hu : v.UUID = rec.UUID) :
    (dbSaveEndpoint db v).1.records.map (·.UUID) = db.records.map (·.UUID) := by
  obtain ⟨hm, hd, _⟩ := dbFirstEndpoint_props h
  have hpos : 0 < rec.ID := hwf.1.1 rec.ID (List.mem_map_of_mem _ hm)
  have hne : v.ID ≠ 0 := by omega
  have hany : db.endpoints.any (fun r => r.ID == v.ID && !r.DeletedAt) = true := by
    rw [List.any_eq_true]
    exact ⟨rec, hm, by simp [hid, hd]⟩
  unfold dbSaveEndpoint
  simp only [hne, if_false, hany, if_true, DB.records]
  apply records_uuids_map
  intro r hr
  by_cases hc : (r.ID == v.ID && !r.DeletedAt) = true
  · simp only [hc, if_true]
    have hrid : r.ID = rec.ID := by
      simp at hc
      rw [hc.1, hid]
    have := keysOK_inj hwf.1 hr hm hrid
    subst this
    exact ⟨hdel, hu⟩
  · simp only [hc, if_false, and_self]
    simp

/-- Deleting keeps a sublist of the UUIDs of the records. -/
theorem mark_records_sublist (id : Nat) :
    ∀ l : List WebhookEndpointDB,
      (((l.map (fun r => if r.ID == id && !r.DeletedAt then { r with DeletedAt := true } else r)).filter
        (fun r => !r.DeletedAt)).map (·.UUID)).Sublist
        ((l.filter (fun r => !r.DeletedAt)).map (·.UUID)) := by
  intro l
  induction l with
  | nil => simp
  | cons x xs ih =>
    by_cases hd : x.DeletedAt = true
    · simpa [List.filter_cons, hd] using ih
    · have hd2 : x.DeletedAt = false := by simpa using hd
      by_cases hc : x.ID = id
      · simp only [List.map_cons, List.filter_cons, hc, hd2, beq_self_eq_true, Bool.not_false,
          Bool.and_self, if_true, Bool.not_true, Bool.false_eq_true, if_false]
        exact List.Sublist.cons _ ih
      · have hc2 : (x.ID == id) = false := by simpa using hc
        simp only [List.map_cons, List.filter_cons, hc2, Bool.false_and, Bool.false_eq_true,
          if_false, hd2, Bool.not_false, if_true]
        exact List.Sublist.cons₂ _ ih

theorem dbDeleteEndpoint_records_sublist (db : DB) (v : WebhookEndpointDB) :
    ((dbDeleteEndpoint db v).1.records.map (·.UUID)).Sublist (db.records.map (·.UUID)) := by
  unfold dbDeleteEndpoint
  by_cases hv : v.ID = 0
  · simp [hv]
  · simp only [hv, if_false, DB.records]
    exact mark_records_sublist v.ID db.endpoints

/-- Every call keeps the store well-formed. -/
theorem Call.run_WF (c : Call) (db : DB) (h : db.WF) : (c.run db).1.WF := by
  cases c with
  | create rand endpoint => exact Create_WF _ _ _ h
  | updateURL endpoint => exact UpdateURL_WF _ _ h
  | verify dflt endpoint => exact Verify_WF _ _ _ h
  | delete endpoint => exact Delete_WF _ _ h
  | notify http endpoint notification => exact Notify_WF _ _ _ h

theorem runCalls_WF : ∀ (calls : List Call) (db : DB), db.WF → (runCalls calls db).WF := by
  intro calls
  induction calls with
  | nil => intro db h; exact h
  | cons c cs ih =>
    intro db h
    exact ih _ (Call.run_WF c db h)


theorem Notify_endpoints (s : WebhookEndpointServiceImpl) (endpoint : WebhookEndpoint)
    (notification : WebhookNotification) :
    (Notify s endpoint notification).db.endpoints = s.db.endpoints := by
  unfold Notify
  split
  · rfl
  · split
    · rfl
    · split
      · rfl
      · split
        · rfl
        · split
          · rfl
          · simp only
            split
            · rfl
            · split
              · simp_all [dbCreateNotification]
              · split
                · split <;> simp [dbCreateNotification]
                · simp [dbCreateNotification]

theorem Create_records_uuids (rand : Nat) (s : WebhookEndpointServiceImpl)
    (endpoint : WebhookEndpoint) :
    (Create rand s endpoint).db.records.map (·.UUID) =
      if endpoint.URL = "" then s.db.records.map (·.UUID)
      else s.db.records.map (·.UUID) ++ [createdUUID rand endpoint] := by
  by_cases hurl : endpoint.URL = "" <;> by_cases hnil : endpoint.UUID = uuidNil <;>
    simp [Create, dbCreateEndpoint, hurl, hnil, DB.records, List.filter_append, createdUUID]

theorem UpdateURL_records_uuids (s : WebhookEndpointServiceImpl) (endpoint : WebhookEndpoint)
    (hwf : s.db.WF) :
    (UpdateURL s endpoint).db.records.map (·.UUID) = s.db.records.map (·.UUID) := by
  by_cases hid : endpoint.UUID = uuidNil
  · simp [UpdateURL, fetchWebhookEndpointFromDB, hid]
  cases hrec : dbFirstEndpoint s.db endpoint.UUID with
  | error e =>
    by_cases he : e = gormErrRecordNotFound <;>
      simp [UpdateURL, fetchWebhookEndpointFromDB, hid, hrec, he]
  | ok rec =>
    by_cases hurl : endpoint.URL = rec.URL
    · simp [UpdateURL, fetchWebhookEndpointFromDB, hid, hrec, hurl]
    · have := dbSaveEndpoint_records_uuids { rec with URL := endpoint.URL, Status := Unverified }
        hwf hrec rfl rfl rfl
      simpa [UpdateURL, fetchWebhookEndpointFromDB, hid, hrec, hurl] using this

theorem Verify_records_uuids (dflt : HttpClient) (s : WebhookEndpointServiceImpl)
    (endpoint : WebhookEndpoint) (hwf : s.db.WF) :
    (Verify dflt s endpoint).db.records.map (·.UUID) = s.db.records.map (·.UUID) := by
  by_cases hid : endpoint.UUID = uuidNil
  · simp [Verify, fetchWebhookEndpointFromDB, hid]
  cases hrec : dbFirstEndpoint s.db endpoint.UUID with
  | error e =>
    by_cases he : e = gormErrRecordNotFound <;>
      simp [Verify, fetchWebhookEndpointFromDB, hid, hrec, he]
  | ok rec =>
    by_cases hst : rec.Status > Suspended
    · simp [Verify, fetchWebhookEndpointFromDB, hid, hrec, hst]
    · cases hprep : prepareEndpointForVerification rec.URL rec.UUID.String with
      | mk url perr =>
        cases perr with
        | some e => simp [Verify, fetchWebhookEndpointFromDB, hid, hrec, hst, hprep]
        | none =>
          cases hget : (dflt.Get url).2 with
          | error e => simp [Verify, fetchWebhookEndpointFromDB, hid, hrec, hst, hprep, hget]
          | ok resp =>
            by_cases hver : verifyResponseBodyForVerification resp.Body endpoint.UUID.String = none
            · have := dbSaveEndpoint_records_uuids { rec with Status := Verified } hwf hrec rfl
                rfl rfl
              simpa [Verify, fetchWebhookEndpointFromDB, hid, hrec, hst, hprep, hget, hver]
                using this
            · simp [Verify, fetchWebhookEndpointFromDB, hid, hrec, hst, hprep, hget, hver]

theorem Delete_records_sublist (s : WebhookEndpointServiceImpl) (endpoint : WebhookEndpoint) :
    ((Delete s endpoint).db.records.map (·.UUID)).Sublist (s.db.records.map (·.UUID)) := by
  by_cases hid : endpoint.UUID = uuidNil
  · simp [Delete, fetchWebhookEndpointFromDB, hid]
  cases hrec : dbFirstEndpoint s.db endpoint.UUID with
  | error e =>
    by_cases he : e = gormErrRecordNotFound <;>
      simp [Delete, fetchWebhookEndpointFromDB, hid, hrec, he]
  | ok rec =>
    have := dbDeleteEndpoint_records_sublist s.db rec
    simpa [Delete, fetchWebhookEndpointFromDB, hid, hrec] using this

/-- A call with a fresh UUID keeps the UUIDs of the records distinct. -/
theorem Call.run_uniqueUUIDs (c : Call) (db : DB) (hwf : db.WF) (hu : db.uniqueUUIDs)
    (hf : c.freshOn db) : (c.run db).1.uniqueUUIDs := by
  unfold DB.uniqueUUIDs at hu ⊢
  cases c with
  | create rand endpoint =>
    simp only [Call.run, Create_records_uuids]
    by_cases hurl : endpoint.URL = ""
    · simpa [hurl] using hu
    · simp only [hurl, if_false]
      have hfresh := hf hurl
      rw [List.nodup_append]
      refine ⟨hu, List.nodup_singleton _, ?_⟩
      intro a ha hb
      simp at hb
      subst hb
      exact hfresh ha
  | updateURL endpoint =>
    simp only [Call.run]
    rw [UpdateURL_records_uuids _ _ hwf]
    exact hu
  | verify dflt endpoint =>
    simp only [Call.run]
    rw [Verify_records_uuids _ _ _ hwf]
    exact hu
  | delete endpoint =>
    simp only [Call.run]
    exact (Delete_records_sublist _ _).nodup hu
  | notify http endpoint notification =>
    simp only [Call.run, DB.records, Notify_endpoints]
    exact hu

theorem runCalls_uniqueUUIDs : ∀ (calls : List Call) (db : DB),
    db.WF → db.uniqueUUIDs → freshRun calls db → (runCalls calls db).uniqueUUIDs := by
  intro calls
  induction calls with
  | nil => intro db _ hu _; exact hu
  | cons c cs ih =>
    intro db hwf hu hf
    exact ih _ (Call.run_WF c db hwf) (Call.run_uniqueUUIDs c db hwf hu hf.1) hf.2

/-! ## Deletion -/

/-- What a Delete call that returns no error did: it found a record under the
UUID, with a non-zero key, and marked the rows with that key deleted. -/
theorem Delete_ok (s : WebhookEndpointServiceImpl) (endpoint : WebhookEndpoint)
    (hdel : (Delete s endpoint).ret = none) :
    endpoint.UUID ≠ uuidNil ∧
    ∃ rec, dbFirstEndpoint s.db endpoint.UUID = .ok rec ∧ rec.ID ≠ 0 ∧
      (Delete s endpoint).db.endpoints = s.db.endpoints.map
        (fun r => if r.ID == rec.ID && !r.DeletedAt then { r with DeletedAt := true } else r) := by
  by_cases hid : endpoint.UUID = uuidNil
  · simp [Delete, fetchWebhookEndpointFromDB, hid] at hdel
  refine ⟨hid, ?_⟩
  cases hrec : dbFirstEndpoint s.db endpoint.UUID with
  | error e =>
    by_cases he : e = gormErrRecordNotFound <;>
      simp [Delete, fetchWebhookEndpointFromDB, hid, hrec, he] at hdel
  | ok rec =>
    by_cases h0 : rec.ID = 0
    · simp [Delete, fetchWebhookEndpointFromDB, hid, hrec, dbDeleteEndpoint, h0] at hdel
    · exact ⟨rec, rfl, h0, by simp [Delete, fetchWebhookEndpointFromDB, hid, hrec,
        dbDeleteEndpoint, h0]⟩

/-- The records left by marking the rows with a key deleted are the records
with another key. -/
theorem mem_records_mark (id : Nat) (l : List WebhookEndpointDB) (r : WebhookEndpointDB) :
    r ∈ (l.map (fun r => if r.ID == id && !r.DeletedAt then { r with DeletedAt := true } else r)).filter
        (fun r => !r.DeletedAt) ↔
      r ∈ l.filter (fun r => !r.DeletedAt) ∧ r.ID ≠ id := by
  simp only [List.mem_filter, List.mem_map]
  constructor
  · rintro ⟨⟨x, hx, hxr⟩, hlive⟩
    by_cases hc : (x.ID == id && !x.DeletedAt) = true
    · rw [if_pos hc] at hxr
      subst hxr
      simp at hlive
    · rw [if_neg hc] at hxr
      subst hxr
      refine ⟨⟨hx, hlive⟩, ?_⟩
      intro hid
      apply hc
      simp [hid] 
      simpa using hlive
  · rintro ⟨⟨hx, hlive⟩, hne⟩
    refine ⟨⟨r, hx, ?_⟩, hlive⟩
    have : (r.ID == id) = false := by simpa using hne
    simp [this]

/-- After a Delete call that returned no error on a store whose records have
distinct UUIDs, no record has the UUID. -/
theorem Delete_no_record (s : WebhookEndpointServiceImpl) (endpoint : WebhookEndpoint)
    (hu : s.db.uniqueUUIDs) (hdel : (Delete s endpoint).ret = none) :
    (∀ r ∈ (Delete s endpoint).db.records, r.UUID ≠ endpoint.UUID) ∧
    (s.db.records.length = 1 → (Delete s endpoint).db.records = []) := by
  obtain ⟨_, rec, hrec, _, hends⟩ := Delete_ok s endpoint hdel
  obtain ⟨hm, hlive, huuid⟩ := dbFirstEndpoint_props hrec
  have hrecm : rec ∈ s.db.records := by
    simp [DB.records, List.mem_filter, hm, hlive]
  have hkey : ∀ r ∈ (Delete s endpoint).db.records, r ∈ s.db.records ∧ r.ID ≠ rec.ID := by
    intro r hr
    unfold DB.records at hr
    rw [hends] at hr
    exact (mem_records_mark rec.ID s.db.endpoints r).mp hr
  constructor
  · intro r hr hru
    obtain ⟨hrm, hne⟩ := hkey r hr
    have := List.inj_on_of_nodup_map hu hrm hrecm (by rw [hru, huuid])
    exact hne (by rw [this])
  · intro hlen
    rw [List.eq_nil_iff_forall_not_mem]
    intro r hr
    obtain ⟨hrm, hne⟩ := hkey r hr
    obtain ⟨x, hx⟩ := List.length_eq_one.mp hlen
    rw [hx] at hrm hrecm
    simp at hrm hrecm
    exact hne (by rw [hrm, hrecm])

theorem dbFirstEndpoint_none {db : DB} {uuid : UUID}
    (h : ∀ r ∈ db.records, r.UUID ≠ uuid) :
    dbFirstEndpoint db uuid = .error gormErrRecordNotFound := by
  unfold dbFirstEndpoint
  have : db.endpoints.find? (fun r => !r.DeletedAt && r.UUID == uuid) = none := by
    rw [List.find?_eq_none]
    intro r hr hp
    simp at hp
    exact h r (by simp [DB.records, List.mem_filter, hr, hp.1]) hp.2
  rw [this]

/-! ## The example stores, evaluated -/

theorem uuid7_String : (UUID.mk 7).String = "00000000-0000-0000-0000-000000000007" := by
  decide

theorem challenge_url :
    prepareEndpointForVerification "http://example.com/hooks"
        "00000000-0000-0000-0000-000000000007" =
      ("http://example.com/hooks/verification?id=00000000-0000-0000-0000-000000000007", none) := by
  decide

theorem challenge_NewRequest :
    NewRequest "GET"
        "http://example.com/hooks/verification?id=00000000-0000-0000-0000-000000000007" none =
      .ok challengeRequest := by
  decide

theorem challenge_echo :
    echoClient challengeRequest =
      .ok { StatusCode := 200, Body := .ok "00000000-0000-0000-0000-000000000007" } := by
  decide

theorem challenge_Get_echo :
    echoClient.Get
        "http://example.com/hooks/verification?id=00000000-0000-0000-0000-000000000007" =
      ([challengeRequest],
        .ok { StatusCode := 200, Body := .ok "00000000-0000-0000-0000-000000000007" }) := by
  simp only [HttpClient.Get, challenge_NewRequest, challenge_echo]

theorem challenge_Get_refusing :
    refusingClient.Get
        "http://example.com/hooks/verification?id=00000000-0000-0000-0000-000000000007" =
      ([challengeRequest], .error (Error.httpError "connection refused")) := by
  simp only [HttpClient.Get, challenge_NewRequest, refusingClient]

/-- Verify on a stored endpoint that is not yet verified, when the challenge
is answered with the id: the record is saved with status Verified. -/
theorem Verify_challenge_matched (dflt : HttpClient) (s : WebhookEndpointServiceImpl)
    (endpoint : WebhookEndpoint) (rec : WebhookEndpointDB) (url : String) (resp : Response)
    (hid : endpoint.UUID ≠ uuidNil)
    (hrec : dbFirstEndpoint s.db endpoint.UUID = .ok rec)
    (hst : rec.Status ≤ Suspended)
    (hurl : prepareEndpointForVerification rec.URL rec.UUID.String = (url, none))
    (hget : (dflt.Get url).2 = .ok resp)
    (hbody : resp.Body = .ok endpoint.UUID.String) :
    Verify dflt s endpoint =
      { db := (dbSaveEndpoint s.db { rec with Status := Verified }).1, calls := (dflt.Get url).1,
        ret := ({ endpoint with Status := Verified },
                (dbSaveEndpoint s.db { rec with Status := Verified }).2) } := by
  have hst2 : ¬ rec.Status > Suspended := not_lt.mpr hst
  simp [Verify, fetchWebhookEndpointFromDB, hid, hrec, hst2, hurl, hget, hbody,
    verifyResponseBodyForVerification]

theorem storeSuspended_first :
    dbFirstEndpoint storeSuspended ⟨7⟩ =
      .ok { ID := 1, DeletedAt := false, UUID := ⟨7⟩, URL := "http://example.com/hooks",
            Status := Suspended } := by
  decide

/-- The example: Verify of the suspended endpoint against the echoing server. -/
theorem Verify_storeSuspended_echo (endpoint : WebhookEndpoint) (h : endpoint.UUID = ⟨7⟩) :
    Verify echoClient ⟨storeSuspended, refusingClient⟩ endpoint =
      { db := storeVerified, calls := [challengeRequest],
        ret := ({ endpoint with Status := Verified }, none) } := by
  have hv := Verify_challenge_matched echoClient ⟨storeSuspended, refusingClient⟩ endpoint
    { ID := 1, DeletedAt := false, UUID := ⟨7⟩, URL := "http://example.com/hooks",
      Status := Suspended }
    "http://example.com/hooks/verification?id=00000000-0000-0000-0000-000000000007"
    { StatusCode := 200, Body := .ok "00000000-0000-0000-0000-000000000007" }
    (by rw [h]; decide) (by rw [h]; exact storeSuspended_first) (by decide)
    (by rw [uuid7_String]; exact challenge_url) (by rw [challenge_Get_echo])
    (by rw [h, uuid7_String])
  rw [hv, challenge_Get_echo]
  have hs : dbSaveEndpoint storeSuspended
      { ID := 1, DeletedAt := false, UUID := ⟨7⟩, URL := "http://example.com/hooks",
        Status := Verified } = (storeVerified, none) := by decide
  simp only [hs]

theorem exampleJSON_eq : jsonMarshal exampleNotification = .ok exampleJSON := by
  decide

theorem notification_url :
    prepareEndpointForNotification "http://example.com/hooks" =
      ("http://example.com/hooks/notification", none) := by
  decide

theorem notification_NewRequest :
    NewRequest "GET" "http://example.com/hooks/notification" (some exampleJSON) =
      .ok { notificationRequest with Header := [] } := by
  decide

theorem storeVerified_first :
    dbFirstEndpoint storeVerified ⟨7⟩ =
      .ok { ID := 1, DeletedAt := false, UUID := ⟨7⟩, URL := "http://example.com/hooks",
            Status := Verified } := by
  decide

/-! ## The endpoint lifecycle -/

/-- C1. Notify on a stored endpoint whose persisted status is below Verified
fails with ErrEndpointNotYetActivated, hands no request to the HTTP client and
leaves the store as it was (so no notification record is appended); the
caller's Status and URL play no part, only the persisted record does. -/
theorem notify_not_activated (s : WebhookEndpointServiceImpl) (endpoint : WebhookEndpoint)
    (notification : WebhookNotification) (rec : WebhookEndpointDB)
    (hid : endpoint.UUID ≠ uuidNil)
    (hrec : dbFirstEndpoint s.db endpoint.UUID = .ok rec)
    (hst : rec.Status < Verified) :
    Notify s endpoint notification =
      { db := s.db, calls := [], ret := some ErrEndpointNotYetActivated } := by
  simp [Notify, Get, fetchWebhookEndpointFromDB, hid, hrec, hst]

/-- C1, on a suspended endpoint that the caller presents as healthy and with
another URL. -/
theorem notify_not_activated_witness :
    Notify ⟨storeSuspended, echoClient⟩ ⟨⟨7⟩, "http://other.example", Healthy⟩ ⟨⟨1⟩, "t", ""⟩ =
      { db := storeSuspended, calls := [], ret := some ErrEndpointNotYetActivated } :=
  notify_not_activated ⟨storeSuspended, echoClient⟩
    ⟨⟨7⟩, "http://other.example", Healthy⟩ ⟨⟨1⟩, "t", ""⟩
    { ID := 1, DeletedAt := false, UUID := ⟨7⟩, URL := "http://example.com/hooks",
      Status := Suspended }
    (by decide) (by decide) (by decide)

/-- C2. UpdateURL on a stored endpoint: with the stored URL it succeeds and
leaves the whole store unchanged; with another URL it succeeds and (in a
well-formed store, where the write goes to the record that was read) a lookup
by the id then finds the record with the new URL and status Unverified,
whatever its status was. -/
theorem updateURL_same_or_reset (s : WebhookEndpointServiceImpl) (endpoint : WebhookEndpoint)
    (rec : WebhookEndpointDB)
    (hid : endpoint.UUID ≠ uuidNil)
    (hrec : dbFirstEndpoint s.db endpoint.UUID = .ok rec) :
    (endpoint.URL = rec.URL →
      UpdateURL s endpoint = { db := s.db, calls := [], ret := (endpoint, none) }) ∧
    (endpoint.URL ≠ rec.URL → s.db.WF →
      (UpdateURL s endpoint).ret = (endpoint, none) ∧
      dbFirstEndpoint (UpdateURL s endpoint).db endpoint.UUID =
        .ok { rec with URL := endpoint.URL, Status := Unverified } ∧
      (UpdateURL s endpoint).db.notifications = s.db.notifications) := by
  constructor
  · intro hurl
    simp [UpdateURL, fetchWebhookEndpointFromDB, hid, hrec, hurl]
  · intro hurl hwf
    obtain ⟨_, hdel, hu⟩ := dbFirstEndpoint_props hrec
    have hsave := dbSaveEndpoint_first { rec with URL := endpoint.URL, Status := Unverified }
      hwf hrec rfl hdel hu
    simp [UpdateURL, fetchWebhookEndpointFromDB, hid, hrec, hurl, hsave]

/-- C2, on a verified endpoint: the same URL changes nothing, another URL is
stored with status Unverified. -/
theorem updateURL_same_or_reset_witness :
    UpdateURL ⟨storeVerified, refusingClient⟩ ⟨⟨7⟩, "http://example.com/hooks", Unverified⟩ =
      { db := storeVerified, calls := [],
        ret := (⟨⟨7⟩, "http://example.com/hooks", Unverified⟩, none) } ∧
    dbFirstEndpoint
      (UpdateURL ⟨storeVerified, refusingClient⟩ ⟨⟨7⟩, "http://example.com/new", Healthy⟩).db ⟨7⟩ =
      .ok { ID := 1, DeletedAt := false, UUID := ⟨7⟩, URL := "http://example.com/new",
            Status := Unverified } :=
  ⟨(updateURL_same_or_reset ⟨storeVerified, refusingClient⟩
      ⟨⟨7⟩, "http://example.com/hooks", Unverified⟩
      { ID := 1, DeletedAt := false, UUID := ⟨7⟩, URL := "http://example.com/hooks",
        Status := Verified } (by decide) (by decide)).1 (by decide),
   ((updateURL_same_or_reset ⟨storeVerified, refusingClient⟩
      ⟨⟨7⟩, "http://example.com/new", Healthy⟩
      { ID := 1, DeletedAt := false, UUID := ⟨7⟩, URL := "http://example.com/hooks",
        Status := Verified } (by decide) (by decide)).2 (by decide) (by decide)).2.1⟩

/-- C3. Create with a non-empty URL returns no error and an endpoint with
status Unverified, whatever status the caller set, and appends to the
endpoints exactly one record, with status Unverified and the returned UUID and
URL; the UUID is the caller's when that is not nil, and a non-nil generated one
otherwise. -/
theorem create_unverified (rand : Nat) (s : WebhookEndpointServiceImpl) (endpoint : WebhookEndpoint)
    (hurl : endpoint.URL ≠ "") :
    (Create rand s endpoint).ret.2 = none ∧
    (Create rand s endpoint).ret.1.Status = Unverified ∧
    (Create rand s endpoint).ret.1.URL = endpoint.URL ∧
    (Create rand s endpoint).db.endpoints = s.db.endpoints ++
      [{ ID := nextID (s.db.endpoints.map (·.ID)), DeletedAt := false,
         UUID := (Create rand s endpoint).ret.1.UUID, URL := endpoint.URL,
         Status := Unverified }] ∧
    (Create rand s endpoint).db.notifications = s.db.notifications ∧
    (Create rand s endpoint).calls = [] ∧
    (endpoint.UUID ≠ uuidNil → (Create rand s endpoint).ret.1.UUID = endpoint.UUID) ∧
    (endpoint.UUID = uuidNil → (Create rand s endpoint).ret.1.UUID ≠ uuidNil) := by
  by_cases hnil : endpoint.UUID = uuidNil
  · simp [Create, dbCreateEndpoint, hurl, hnil, uuidNewV4_ne_nil]
  · simp [Create, dbCreateEndpoint, hurl, hnil]

/-- C3, on the empty store, for a caller that sets status Healthy and no
UUID, and for a caller that sets a UUID. -/
theorem create_unverified_witness :
    (Create 0 ⟨DB.empty, refusingClient⟩ ⟨uuidNil, "http://example.com/hooks", Healthy⟩).ret.1.Status
      = Unverified ∧
    (Create 0 ⟨DB.empty, refusingClient⟩ ⟨uuidNil, "http://example.com/hooks", Healthy⟩).ret.1.UUID
      ≠ uuidNil ∧
    (Create 0 ⟨DB.empty, refusingClient⟩ ⟨⟨7⟩, "http://example.com/hooks", Verified⟩).ret.1.UUID
      = ⟨7⟩ :=
  ⟨(create_unverified 0 ⟨DB.empty, refusingClient⟩
      ⟨uuidNil, "http://example.com/hooks", Healthy⟩ (by decide)).2.1,
   (create_unverified 0 ⟨DB.empty, refusingClient⟩
      ⟨uuidNil, "http://example.com/hooks", Healthy⟩ (by decide)).2.2.2.2.2.2.2 rfl,
   (create_unverified 0 ⟨DB.empty, refusingClient⟩
      ⟨⟨7⟩, "http://example.com/hooks", Verified⟩ (by decide)).2.2.2.2.2.2.1 (by decide)⟩


/-- C4, refuted as stated: the URL `example.com` has no scheme and the URL
policy validation rejects it, yet Create returns no error and inserts the
record. -/
theorem create_skips_validation :
    prepareEndpointForOperations "example.com" = .error ErrEmptyEndpointURLScheme ∧
    (Create 0 ⟨DB.empty, refusingClient⟩ ⟨⟨7⟩, "example.com", Unverified⟩).ret.2 = none ∧
    (Create 0 ⟨DB.empty, refusingClient⟩ ⟨⟨7⟩, "example.com", Unverified⟩).db.endpoints =
      [{ ID := 1, DeletedAt := false, UUID := ⟨7⟩, URL := "example.com", Status := Unverified }] := by
  decide

/-- C4, amended. Create checks the URL for emptiness only: with the empty URL
it fails with ErrEmptyEndpointURL and leaves the store unchanged; with any
other URL, whether or not the URL policy validation accepts it, it returns no
error and appends the record. -/
theorem create_rejects_empty_url_only (rand : Nat) (s : WebhookEndpointServiceImpl)
    (endpoint : WebhookEndpoint) :
    (endpoint.URL = "" →
      (Create rand s endpoint).ret.2 = some ErrEmptyEndpointURL ∧
      (Create rand s endpoint).db = s.db ∧ (Create rand s endpoint).calls = []) ∧
    (endpoint.URL ≠ "" →
      (Create rand s endpoint).ret.2 = none ∧
      (Create rand s endpoint).db.endpoints = s.db.endpoints ++
        [{ ID := nextID (s.db.endpoints.map (·.ID)), DeletedAt := false,
           UUID := (Create rand s endpoint).ret.1.UUID, URL := endpoint.URL,
           Status := Unverified }]) := by
  constructor
  · intro hurl
    by_cases hnil : endpoint.UUID = uuidNil <;> simp [Create, hurl, hnil]
  · intro hurl
    by_cases hnil : endpoint.UUID = uuidNil <;> simp [Create, dbCreateEndpoint, hurl, hnil]

/-- C4 amended, on the empty URL and on a URL without scheme. -/
theorem create_rejects_empty_url_only_witness :
    (Create 0 ⟨storeVerified, refusingClient⟩ ⟨⟨9⟩, "", Unverified⟩).ret.2 =
      some ErrEmptyEndpointURL ∧
    (Create 0 ⟨storeVerified, refusingClient⟩ ⟨⟨9⟩, "", Unverified⟩).db = storeVerified ∧
    (Create 0 ⟨storeVerified, refusingClient⟩ ⟨⟨9⟩, "example.com", Unverified⟩).ret.2 = none :=
  ⟨((create_rejects_empty_url_only 0 ⟨storeVerified, refusingClient⟩
      ⟨⟨9⟩, "", Unverified⟩).1 rfl).1,
   ((create_rejects_empty_url_only 0 ⟨storeVerified, refusingClient⟩
      ⟨⟨9⟩, "", Unverified⟩).1 rfl).2.1,
   ((create_rejects_empty_url_only 0 ⟨storeVerified, refusingClient⟩
      ⟨⟨9⟩, "example.com", Unverified⟩).2 (by decide)).1⟩

/-- Verify on a stored endpoint whose persisted status is above Suspended
returns at once. -/
theorem Verify_already_verified (dflt : HttpClient) (s : WebhookEndpointServiceImpl)
    (endpoint : WebhookEndpoint) (rec : WebhookEndpointDB)
    (hid : endpoint.UUID ≠ uuidNil)
    (hrec : dbFirstEndpoint s.db endpoint.UUID = .ok rec)
    (hst : rec.Status > Suspended) :
    Verify dflt s endpoint = { db := s.db, calls := [], ret := (endpoint, none) } := by
  simp [Verify, fetchWebhookEndpointFromDB, hid, hrec, hst]

/-- C5. Verify on a stored endpoint whose persisted status is above Suspended
(Verified, Healthy) returns no error, hands no request to an HTTP client and
leaves the store unchanged. Hence, in a well-formed store, after a Verify
call that returned no error, a second Verify call on the same id, whatever
the network then answers, hands no request to an HTTP client, returns no
error and leaves the store unchanged. -/
theorem verify_idempotent (dflt : HttpClient) (s : WebhookEndpointServiceImpl)
    (endpoint : WebhookEndpoint) :
    (∀ rec : WebhookEndpointDB, endpoint.UUID ≠ uuidNil →
      dbFirstEndpoint s.db endpoint.UUID = .ok rec → rec.Status > Suspended →
      Verify dflt s endpoint = { db := s.db, calls := [], ret := (endpoint, none) }) ∧
    (∀ (dflt2 : HttpClient) (endpoint2 : WebhookEndpoint), s.db.WF →
      (Verify dflt s endpoint).ret.2 = none → endpoint2.UUID = endpoint.UUID →
      Verify dflt2 ⟨(Verify dflt s endpoint).db, s.http⟩ endpoint2 =
        { db := (Verify dflt s endpoint).db, calls := [], ret := (endpoint2, none) }) := by
  refine ⟨fun rec hid hrec hst => Verify_already_verified dflt s endpoint rec hid hrec hst, ?_⟩
  intro dflt2 endpoint2 hwf hok heq
  by_cases hid : endpoint.UUID = uuidNil
  · simp [Verify, fetchWebhookEndpointFromDB, hid] at hok
  have hid2 : endpoint2.UUID ≠ uuidNil := by rw [heq]; exact hid
  cases hrec : dbFirstEndpoint s.db endpoint.UUID with
  | error e =>
    by_cases he : e = gormErrRecordNotFound <;>
      simp [Verify, fetchWebhookEndpointFromDB, hid, hrec, he] at hok
  | ok rec =>
    by_cases hst : rec.Status > Suspended
    · have h1 := Verify_already_verified dflt s endpoint rec hid hrec hst
      rw [h1]
      exact Verify_already_verified dflt2 ⟨s.db, s.http⟩ endpoint2 rec hid2 (by rw [heq]; exact hrec) hst
    · obtain ⟨_, hdel, hu⟩ := dbFirstEndpoint_props hrec
      have hsave := dbSaveEndpoint_first { rec with Status := Verified } hwf hrec rfl hdel hu
      cases hprep : prepareEndpointForVerification rec.URL rec.UUID.String with
      | mk url perr =>
        cases perr with
        | some e => simp [Verify, fetchWebhookEndpointFromDB, hid, hrec, hst, hprep] at hok
        | none =>
          cases hget : (dflt.Get url).2 with
          | error e => simp [Verify, fetchWebhookEndpointFromDB, hid, hrec, hst, hprep, hget] at hok
          | ok resp =>
            by_cases hver : verifyResponseBodyForVerification resp.Body endpoint.UUID.String = none
            · have hdb : (Verify dflt s endpoint).db =
                  (dbSaveEndpoint s.db { rec with Status := Verified }).1 := by
                simp [Verify, fetchWebhookEndpointFromDB, hid, hrec, hst, hprep, hget, hver]
              rw [hdb]
              exact Verify_already_verified dflt2 _ endpoint2 { rec with Status := Verified } hid2
                (by rw [heq]; exact hsave.2.1) (by show Verified > Suspended; decide)
            · simp [Verify, fetchWebhookEndpointFromDB, hid, hrec, hst, hprep, hget, hver] at hok

/-- C5, on a verified endpoint, and on a suspended endpoint that a first
call verifies against an echoing server: the second call, with the network
down, still succeeds and sends nothing. -/
theorem verify_idempotent_witness :
    Verify refusingClient ⟨storeVerified, refusingClient⟩ ⟨⟨7⟩, "", Unverified⟩ =
      { db := storeVerified, calls := [], ret := (⟨⟨7⟩, "", Unverified⟩, none) } ∧
    (Verify echoClient ⟨storeSuspended, refusingClient⟩ ⟨⟨7⟩, "", Unverified⟩).calls =
      [challengeRequest] ∧
    Verify refusingClient
        ⟨(Verify echoClient ⟨storeSuspended, refusingClient⟩ ⟨⟨7⟩, "", Unverified⟩).db,
          refusingClient⟩ ⟨⟨7⟩, "", Unverified⟩ =
      { db := (Verify echoClient ⟨storeSuspended, refusingClient⟩ ⟨⟨7⟩, "", Unverified⟩).db,
        calls := [], ret := (⟨⟨7⟩, "", Unverified⟩, none) } :=
  ⟨(verify_idempotent refusingClient ⟨storeVerified, refusingClient⟩ ⟨⟨7⟩, "", Unverified⟩).1
      { ID := 1, DeletedAt := false, UUID := ⟨7⟩, URL := "http://example.com/hooks",
        Status := Verified } (by decide) (by decide) (by decide),
   by rw [Verify_storeSuspended_echo _ rfl],
   (verify_idempotent echoClient ⟨storeSuspended, refusingClient⟩ ⟨⟨7⟩, "", Unverified⟩).2
      refusingClient ⟨⟨7⟩, "", Unverified⟩ (by decide)
      (by rw [Verify_storeSuspended_echo _ rfl]) rfl⟩

/-- C6, refuted as stated: on a suspended endpoint with a valid URL, when the
transport fails, Verify returns the transport's error, which is not
ErrFailedEndpointVerification. -/
theorem verify_transport_error_not_wrapped :
    dbFirstEndpoint storeSuspended ⟨7⟩ =
      .ok { ID := 1, DeletedAt := false, UUID := ⟨7⟩, URL := "http://example.com/hooks",
            Status := Suspended } ∧
    refusingClient challengeRequest = .error (Error.httpError "connection refused") ∧
    Verify refusingClient ⟨storeSuspended, refusingClient⟩ ⟨⟨7⟩, "", Unverified⟩ =
      { db := storeSuspended, calls := [challengeRequest],
        ret := (⟨⟨7⟩, "", Unverified⟩, some (Error.httpError "connection refused")) } ∧
    (Verify refusingClient ⟨storeSuspended, refusingClient⟩ ⟨⟨7⟩, "", Unverified⟩).ret.2 ≠
      some ErrFailedEndpointVerification := by
  have hv : Verify refusingClient ⟨storeSuspended, refusingClient⟩ ⟨⟨7⟩, "", Unverified⟩ =
      { db := storeSuspended, calls := [challengeRequest],
        ret := (⟨⟨7⟩, "", Unverified⟩, some (Error.httpError "connection refused")) } := by
    simp [Verify, fetchWebhookEndpointFromDB, uuidNil, storeSuspended_first, uuid7_String,
      challenge_url, challenge_Get_refusing, Suspended]
  refine ⟨storeSuspended_first, rfl, hv, ?_⟩
  rw [hv]
  decide

/-- C6, amended. On a stored endpoint with persisted status Unverified or
Suspended and a valid stored URL, Verify fails with the transport's own error
when the transport call returns an error, and with
ErrFailedEndpointVerification when reading the response body returns an error
or the body differs from the endpoint id string; in all three cases the store,
and with it the persisted status, is unchanged. -/
theorem verify_challenge_failures (dflt : HttpClient) (s : WebhookEndpointServiceImpl)
    (endpoint : WebhookEndpoint) (rec : WebhookEndpointDB) (url : String)
    (hid : endpoint.UUID ≠ uuidNil)
    (hrec : dbFirstEndpoint s.db endpoint.UUID = .ok rec)
    (hst : rec.Status ≤ Suspended)
    (hurl : prepareEndpointForVerification rec.URL rec.UUID.String = (url, none)) :
    (∀ e, (dflt.Get url).2 = .error e →
      Verify dflt s endpoint =
        { db := s.db, calls := (dflt.Get url).1, ret := (endpoint, some e) }) ∧
    (∀ resp e, (dflt.Get url).2 = .ok resp → resp.Body = .error e →
      Verify dflt s endpoint =
        { db := s.db, calls := (dflt.Get url).1,
          ret := (endpoint, some ErrFailedEndpointVerification) }) ∧
    (∀ resp body, (dflt.Get url).2 = .ok resp → resp.Body = .ok body →
      body ≠ endpoint.UUID.String →
      Verify dflt s endpoint =
        { db := s.db, calls := (dflt.Get url).1,
          ret := (endpoint, some ErrFailedEndpointVerification) }) := by
  have hst2 : ¬ rec.Status > Suspended := not_lt.mpr hst
  refine ⟨?_, ?_, ?_⟩
  · intro e hget
    simp [Verify, fetchWebhookEndpointFromDB, hid, hrec, hst2, hurl, hget]
  · intro resp e hget hbody
    simp [Verify, fetchWebhookEndpointFromDB, hid, hrec, hst2, hurl, hget, hbody,
      verifyResponseBodyForVerification]
  · intro resp body hget hbody hne
    simp [Verify, fetchWebhookEndpointFromDB, hid, hrec, hst2, hurl, hget, hbody, hne,
      verifyResponseBodyForVerification]

/-- C6 amended, on the suspended endpoint: a refusing transport, an
unreadable body, and an empty body. -/
theorem verify_challenge_failures_witness :
    (Verify refusingClient ⟨storeSuspended, refusingClient⟩ ⟨⟨7⟩, "", Unverified⟩).ret.2 =
      some (Error.httpError "connection refused") ∧
    Verify brokenBodyClient ⟨storeSuspended, refusingClient⟩ ⟨⟨7⟩, "", Unverified⟩ =
      { db := storeSuspended, calls := [challengeRequest],
        ret := (⟨⟨7⟩, "", Unverified⟩, some ErrFailedEndpointVerification) } ∧
    Verify (statusClient 200) ⟨storeSuspended, refusingClient⟩ ⟨⟨7⟩, "", Unverified⟩ =
      { db := storeSuspended, calls := [challengeRequest],
        ret := (⟨⟨7⟩, "", Unverified⟩, some ErrFailedEndpointVerification) } := by
  have hb : brokenBodyClient.Get
      "http://example.com/hooks/verification?id=00000000-0000-0000-0000-000000000007" =
      ([challengeRequest],
        .ok { StatusCode := 200, Body := .error (Error.readError "unexpected EOF") }) := by
    simp only [HttpClient.Get, challenge_NewRequest, brokenBodyClient]
  have hs : (statusClient 200).Get
      "http://example.com/hooks/verification?id=00000000-0000-0000-0000-000000000007" =
      ([challengeRequest], .ok { StatusCode := 200, Body := .ok "" }) := by
    simp only [HttpClient.Get, challenge_NewRequest, statusClient]
  have h1 := (verify_challenge_failures refusingClient ⟨storeSuspended, refusingClient⟩
    ⟨⟨7⟩, "", Unverified⟩ _ _ (by decide) storeSuspended_first (by decide)
    (by rw [uuid7_String]; exact challenge_url)).1 _ (by rw [challenge_Get_refusing])
  have h2 := (verify_challenge_failures brokenBodyClient ⟨storeSuspended, refusingClient⟩
    ⟨⟨7⟩, "", Unverified⟩ _ _ (by decide) storeSuspended_first (by decide)
    (by rw [uuid7_String]; exact challenge_url)).2.1 _ _ (by rw [hb]) rfl
  have h3 := (verify_challenge_failures (statusClient 200) ⟨storeSuspended, refusingClient⟩
    ⟨⟨7⟩, "", Unverified⟩ _ _ (by decide) storeSuspended_first (by decide)
    (by rw [uuid7_String]; exact challenge_url)).2.2 _ _ (by rw [hs]) rfl
    (by rw [uuid7_String]; decide)
  rw [hb] at h2
  rw [hs] at h3
  exact ⟨by rw [h1], h2, h3⟩

/-- C7. The body check accepts a body that was read without error exactly
when it equals the id, character for character. And in a well-formed store,
Verify on a stored endpoint with persisted status Unverified or Suspended
whose challenge is answered with its id returns the endpoint with status
Verified and no error, after which a lookup by the id finds the record with
status Verified and the same key, UUID and URL. -/
theorem verify_match_persists :
    (∀ body uuid : String, verifyResponseBodyForVerification (.ok body) uuid = none ↔ body = uuid) ∧
    (∀ (dflt : HttpClient) (s : WebhookEndpointServiceImpl) (endpoint : WebhookEndpoint)
        (rec : WebhookEndpointDB) (url : String) (resp : Response),
      s.db.WF → endpoint.UUID ≠ uuidNil →
      dbFirstEndpoint s.db endpoint.UUID = .ok rec → rec.Status ≤ Suspended →
      prepareEndpointForVerification rec.URL rec.UUID.String = (url, none) →
      (dflt.Get url).2 = .ok resp → resp.Body = .ok endpoint.UUID.String →
      (Verify dflt s endpoint).ret = ({ endpoint with Status := Verified }, none) ∧
      dbFirstEndpoint (Verify dflt s endpoint).db endpoint.UUID =
        .ok { rec with Status := Verified } ∧
      (Verify dflt s endpoint).db.notifications = s.db.notifications) := by
  constructor
  · intro body uuid
    simp [verifyResponseBodyForVerification]
  · intro dflt s endpoint rec url resp hwf hid hrec hst hurl hget hbody
    obtain ⟨_, hdel, hu⟩ := dbFirstEndpoint_props hrec
    have hsave := dbSaveEndpoint_first { rec with Status := Verified } hwf hrec rfl hdel hu
    rw [Verify_challenge_matched dflt s endpoint rec url resp hid hrec hst hurl hget hbody]
    exact ⟨by simp only [hsave.1], hsave.2.1, hsave.2.2⟩

/-- C7, on bodies that differ from the id by a trailing newline or by case,
and on the suspended endpoint verified against the echoing server. -/
theorem verify_match_persists_witness :
    verifyResponseBodyForVerification (.ok "abcd") "abcd" = none ∧
    verifyResponseBodyForVerification (.ok "abcd\n") "abcd" ≠ none ∧
    verifyResponseBodyForVerification (.ok "ABCD") "abcd" ≠ none ∧
    (Verify echoClient ⟨storeSuspended, refusingClient⟩ ⟨⟨7⟩, "", Unverified⟩).ret =
      (⟨⟨7⟩, "", Verified⟩, none) ∧
    dbFirstEndpoint
        (Verify echoClient ⟨storeSuspended, refusingClient⟩ ⟨⟨7⟩, "", Unverified⟩).db ⟨7⟩ =
      .ok { ID := 1, DeletedAt := false, UUID := ⟨7⟩, URL := "http://example.com/hooks",
            Status := Verified } := by
  have h := verify_match_persists.2 echoClient ⟨storeSuspended, refusingClient⟩
    ⟨⟨7⟩, "", Unverified⟩ _ _ _ (by decide) (by decide) storeSuspended_first (by decide)
    (by rw [uuid7_String]; exact challenge_url) (by rw [challenge_Get_echo])
    (by rw [uuid7_String])
  exact ⟨(verify_match_persists.1 "abcd" "abcd").2 rfl,
    fun hn => absurd ((verify_match_persists.1 "abcd\n" "abcd").1 hn) (by decide),
    fun hn => absurd ((verify_match_persists.1 "ABCD" "abcd").1 hn) (by decide),
    h.1, h.2.1⟩

/-- Notify on a stored endpoint with persisted status at least Verified, once
its request is built: the outcome in terms of what the injected client
answers. -/
theorem Notify_sent (s : WebhookEndpointServiceImpl) (endpoint : WebhookEndpoint)
    (notification : WebhookNotification) (rec : WebhookEndpointDB)
    (jsonval final_url : String) (request : Request)
    (hid : endpoint.UUID ≠ uuidNil)
    (hrec : dbFirstEndpoint s.db endpoint.UUID = .ok rec)
    (hst : Verified ≤ rec.Status)
    (hjson : jsonMarshal notification = .ok jsonval)
    (hurl : prepareEndpointForNotification rec.URL = (final_url, none))
    (hreq : NewRequest "GET" final_url (some jsonval) = .ok request) :
    Notify s endpoint notification =
      match s.http { request with
          Header := headerSet request.Header "Content-Type" "application/json" } with
      | .error err =>
        { db := s.db,
          calls := [{ request with
            Header := headerSet request.Header "Content-Type" "application/json" }],
          ret := some err }
      | .ok response =>
        { db := { s.db with notifications := s.db.notifications ++
              [{ ID := nextID (s.db.notifications.map (·.ID)), DeletedAt := false,
                 EventUUID := notification.EventUUID, Topic := notification.Topic,
                 Body := notification.Body, EndpointUUID := rec.UUID }] },
          calls := [{ request with
            Header := headerSet request.Header "Content-Type" "application/json" }],
          ret := if response.StatusCode ≥ 400 then some ErrFailedNotifyingTheEndpoint
                 else none } := by
  have hst2 : ¬ rec.Status < Verified := not_lt.mpr hst
  simp only [Notify, Get, fetchWebhookEndpointFromDB, hid, if_false, hrec, hst2, hjson, hurl, hreq]
  cases hdo : s.http { request with
      Header := headerSet request.Header "Content-Type" "application/json" } with
  | error err => simp
  | ok response =>
    simp only [dbCreateNotification, if_true]
    by_cases hc : response.StatusCode ≥ 400
    · simp only [hc, if_true]
      cases response.Body <;> rfl
    · simp only [hc, if_false]

/-- C8. Notify on a stored endpoint with persisted status at least Verified
(Verified, Healthy) and a valid stored URL, once its request is built: if the
injected client returns a response, whatever its status code, exactly one
notification record is appended, carrying the stored endpoint's UUID and the
notification's EventUUID, Topic and Body, and the endpoints are untouched; if
the client returns an error, the store is unchanged and that error is
returned. -/
theorem notify_records_every_response (s : WebhookEndpointServiceImpl)
    (endpoint : WebhookEndpoint) (notification : WebhookNotification) (rec : WebhookEndpointDB)
    (jsonval final_url : String) (request : Request)
    (hid : endpoint.UUID ≠ uuidNil)
    (hrec : dbFirstEndpoint s.db endpoint.UUID = .ok rec)
    (hst : Verified ≤ rec.Status)
    (hjson : jsonMarshal notification = .ok jsonval)
    (hurl : prepareEndpointForNotification rec.URL = (final_url, none))
    (hreq : NewRequest "GET" final_url (some jsonval) = .ok request) :
    (∀ response : Response,
      s.http { request with
        Header := headerSet request.Header "Content-Type" "application/json" } = .ok response →
      (Notify s endpoint notification).db.notifications = s.db.notifications ++
        [{ ID := nextID (s.db.notifications.map (·.ID)), DeletedAt := false,
           EventUUID := notification.EventUUID, Topic := notification.Topic,
           Body := notification.Body, EndpointUUID := rec.UUID }] ∧
      (Notify s endpoint notification).db.endpoints = s.db.endpoints ∧
      (Notify s endpoint notification).calls =
        [{ request with Header := headerSet request.Header "Content-Type" "application/json" }]) ∧
    (∀ err : Error,
      s.http { request with
        Header := headerSet request.Header "Content-Type" "application/json" } = .error err →
      Notify s endpoint notification =
        { db := s.db,
          calls := [{ request with
            Header := headerSet request.Header "Content-Type" "application/json" }],
          ret := some err }) := by
  have h := Notify_sent s endpoint notification rec jsonval final_url request hid hrec hst hjson
    hurl hreq
  constructor
  · intro response hdo
    rw [h, hdo]
    exact ⟨rfl, rfl, rfl⟩
  · intro err hdo
    rw [h, hdo]

/-- C8, on the verified endpoint: a server answering 500 still gets its
record, a refusing transport leaves none. -/
theorem notify_records_every_response_witness :
    (Notify ⟨storeVerified, statusClient 500⟩ ⟨⟨7⟩, "", Unverified⟩
        exampleNotification).db.notifications =
      [{ ID := 1, DeletedAt := false, EventUUID := ⟨1⟩, Topic := "t", Body := "",
         EndpointUUID := ⟨7⟩ }] ∧
    Notify ⟨storeVerified, refusingClient⟩ ⟨⟨7⟩, "", Unverified⟩ exampleNotification =
      { db := storeVerified, calls := [notificationRequest],
        ret := some (Error.httpError "connection refused") } :=
  ⟨((notify_records_every_response ⟨storeVerified, statusClient 500⟩ ⟨⟨7⟩, "", Unverified⟩
      exampleNotification _ _ _ _ (by decide) storeVerified_first (by decide) exampleJSON_eq
      notification_url notification_NewRequest).1 { StatusCode := 500, Body := .ok "" } rfl).1,
   (notify_records_every_response ⟨storeVerified, refusingClient⟩ ⟨⟨7⟩, "", Unverified⟩
      exampleNotification _ _ _ _ (by decide) storeVerified_first (by decide) exampleJSON_eq
      notification_url notification_NewRequest).2 (Error.httpError "connection refused") rfl⟩

/-- C9. Notify on a stored endpoint with persisted status at least Verified,
when the injected client returned a response (the notification record is then
written, and the store reports no error for it): the call returns
ErrFailedNotifyingTheEndpoint exactly when the status code is at least 400,
and no error exactly when it is below 400. -/
theorem notify_rejected_iff_status (s : WebhookEndpointServiceImpl)
    (endpoint : WebhookEndpoint) (notification : WebhookNotification) (rec : WebhookEndpointDB)
    (jsonval final_url : String) (request : Request) (response : Response)
    (hid : endpoint.UUID ≠ uuidNil)
    (hrec : dbFirstEndpoint s.db endpoint.UUID = .ok rec)
    (hst : Verified ≤ rec.Status)
    (hjson : jsonMarshal notification = .ok jsonval)
    (hurl : prepareEndpointForNotification rec.URL = (final_url, none))
    (hreq : NewRequest "GET" final_url (some jsonval) = .ok request)
    (hdo : s.http { request with
      Header := headerSet request.Header "Content-Type" "application/json" } = .ok response) :
    ((Notify s endpoint notification).ret = some ErrFailedNotifyingTheEndpoint ↔
      response.StatusCode ≥ 400) ∧
    ((Notify s endpoint notification).ret = none ↔ response.StatusCode < 400) := by
  have h := Notify_sent s endpoint notification rec jsonval final_url request hid hrec hst hjson
    hurl hreq
  rw [h, hdo]
  by_cases hc : response.StatusCode ≥ 400
  · have hlt : ¬ response.StatusCode < 400 := not_lt.mpr hc
    simp [hc, hlt]
  · have hlt : response.StatusCode < 400 := not_le.mp hc
    simp [hc, hlt]

/-- C9, on the verified endpoint: 200 and 399 are accepted, 400 and 500 are
not. -/
theorem notify_rejected_iff_status_witness :
    (Notify ⟨storeVerified, statusClient 200⟩ ⟨⟨7⟩, "", Unverified⟩ exampleNotification).ret =
      none ∧
    (Notify ⟨storeVerified, statusClient 399⟩ ⟨⟨7⟩, "", Unverified⟩ exampleNotification).ret =
      none ∧
    (Notify ⟨storeVerified, statusClient 400⟩ ⟨⟨7⟩, "", Unverified⟩ exampleNotification).ret =
      some ErrFailedNotifyingTheEndpoint ∧
    (Notify ⟨storeVerified, statusClient 500⟩ ⟨⟨7⟩, "", Unverified⟩ exampleNotification).ret =
      some ErrFailedNotifyingTheEndpoint :=
  ⟨(notify_rejected_iff_status ⟨storeVerified, statusClient 200⟩ ⟨⟨7⟩, "", Unverified⟩
      exampleNotification _ _ _ _ { StatusCode := 200, Body := .ok "" } (by decide)
      storeVerified_first (by decide) exampleJSON_eq notification_url notification_NewRequest
      rfl).2.2 (by decide),
   (notify_rejected_iff_status ⟨storeVerified, statusClient 399⟩ ⟨⟨7⟩, "", Unverified⟩
      exampleNotification _ _ _ _ { StatusCode := 399, Body := .ok "" } (by decide)
      storeVerified_first (by decide) exampleJSON_eq notification_url notification_NewRequest
      rfl).2.2 (by decide),
   (notify_rejected_iff_status ⟨storeVerified, statusClient 400⟩ ⟨⟨7⟩, "", Unverified⟩
      exampleNotification _ _ _ _ { StatusCode := 400, Body := .ok "" } (by decide)
      storeVerified_first (by decide) exampleJSON_eq notification_url notification_NewRequest
      rfl).1.2 (by decide),
   (notify_rejected_iff_status ⟨storeVerified, statusClient 500⟩ ⟨⟨7⟩, "", Unverified⟩
      exampleNotification _ _ _ _ { StatusCode := 500, Body := .ok "" } (by decide)
      storeVerified_first (by decide) exampleJSON_eq notification_url notification_NewRequest
      rfl).1.2 (by decide)⟩

/-- C10. LastNotificationSent with the nil UUID fails with
ErrEmptyEndpointUUID. With a non-nil id it returns the EventUUID, Topic and
Body of the last inserted record (a row not marked deleted) of that endpoint
id, whatever was inserted later for other endpoint ids; it fails with
ErrRecordNotFound exactly when the store holds no record of that endpoint id;
and after a notification is inserted for the id, followed by any number of
insertions for other ids, it returns that notification. -/
theorem lastNotificationSent_most_recent (s : WebhookEndpointServiceImpl)
    (endpoint : WebhookEndpoint) :
    (endpoint.UUID = uuidNil →
      LastNotificationSent s endpoint =
        ({ EventUUID := uuidNil, Topic := "", Body := "" }, some ErrEmptyEndpointUUID)) ∧
    (endpoint.UUID ≠ uuidNil →
      (∀ (pre post : List WebhookNotificationDB) (n : WebhookNotificationDB),
        s.db.notifications = pre ++ n :: post → n.DeletedAt = false →
        n.EndpointUUID = endpoint.UUID →
        (∀ m ∈ post, m.DeletedAt = true ∨ m.EndpointUUID ≠ endpoint.UUID) →
        LastNotificationSent s endpoint =
          ({ EventUUID := n.EventUUID, Topic := n.Topic, Body := n.Body }, none)) ∧
      ((LastNotificationSent s endpoint).2 = some ErrRecordNotFound ↔
        ∀ m ∈ s.db.notifications, m.DeletedAt = true ∨ m.EndpointUUID ≠ endpoint.UUID) ∧
      (∀ (n : WebhookNotificationDB) (others : List WebhookNotificationDB),
        n.ID = 0 → n.DeletedAt = false → n.EndpointUUID = endpoint.UUID →
        (∀ m ∈ others, m.ID = 0 ∧ m.EndpointUUID ≠ endpoint.UUID) →
        LastNotificationSent
            ⟨others.foldl (fun d m => (dbCreateNotification d m).1) (dbCreateNotification s.db n).1,
              s.http⟩ endpoint =
          ({ EventUUID := n.EventUUID, Topic := n.Topic, Body := n.Body }, none))) := by
  constructor
  · intro hnil
    simp [LastNotificationSent, hnil]
  · intro hid
    refine ⟨?_, ?_, ?_⟩
    · intro pre post n hsplit hn hu hpost
      have hl := dbLastNotification_split endpoint.UUID hsplit hn hu hpost
      simp [LastNotificationSent, hid, hl]
    · rw [← dbLastNotification_error_iff]
      cases hl : dbLastNotification s.db endpoint.UUID with
      | ok r => simp [LastNotificationSent, hid, hl]
      | error e =>
        have he : e = gormErrRecordNotFound := by
          unfold dbLastNotification at hl
          split at hl
          · cases hl
          · cases hl; rfl
        simp [LastNotificationSent, hid, hl, he]
    · intro n others hn0 hn hu hothers
      obtain ⟨post, hp, hpost⟩ := foldl_dbCreateNotification endpoint.UUID others
        (dbCreateNotification s.db n).1 hothers
      have hsplit : (others.foldl (fun d m => (dbCreateNotification d m).1)
          (dbCreateNotification s.db n).1).notifications =
          s.db.notifications ++ { n with ID := nextID (s.db.notifications.map (·.ID)) } :: post := by
        rw [hp]
        simp [dbCreateNotification, hn0]
      have hl := dbLastNotification_split endpoint.UUID hsplit hn hu
        (fun m hm => Or.inr (hpost m hm))
      simp [LastNotificationSent, hid, hl]

/-- C10, on a store whose last record for endpoint 7 is followed by a record
for endpoint 8: the record for 7 is returned; an endpoint without records gets
ErrRecordNotFound; the nil UUID gets ErrEmptyEndpointUUID. -/
theorem lastNotificationSent_most_recent_witness :
    LastNotificationSent ⟨storeNotified, refusingClient⟩ ⟨⟨7⟩, "", Unverified⟩ =
      ({ EventUUID := ⟨2⟩, Topic := "b", Body := "x" }, none) ∧
    (LastNotificationSent ⟨storeNotified, refusingClient⟩ ⟨⟨9⟩, "", Unverified⟩).2 =
      some ErrRecordNotFound ∧
    LastNotificationSent ⟨storeNotified, refusingClient⟩ ⟨uuidNil, "", Unverified⟩ =
      ({ EventUUID := uuidNil, Topic := "", Body := "" }, some ErrEmptyEndpointUUID) :=
  ⟨((lastNotificationSent_most_recent ⟨storeNotified, refusingClient⟩
      ⟨⟨7⟩, "", Unverified⟩).2 (by decide)).1
      [{ ID := 1, DeletedAt := false, EventUUID := ⟨1⟩, Topic := "a", Body := "",
         EndpointUUID := ⟨7⟩ }]
      [{ ID := 3, DeletedAt := false, EventUUID := ⟨3⟩, Topic := "c", Body := "",
         EndpointUUID := ⟨8⟩ }]
      { ID := 2, DeletedAt := false, EventUUID := ⟨2⟩, Topic := "b", Body := "x",
        EndpointUUID := ⟨7⟩ }
      rfl rfl rfl (by decide),
   ((lastNotificationSent_most_recent ⟨storeNotified, refusingClient⟩
      ⟨⟨9⟩, "", Unverified⟩).2 (by decide)).2.1.2 (by decide),
   (lastNotificationSent_most_recent ⟨storeNotified, refusingClient⟩
      ⟨uuidNil, "", Unverified⟩).1 rfl⟩

/-- C14. UpdateURL with the nil UUID fails with ErrEmptyEndpointUUID, whatever
URL the argument carries, and leaves the whole store unchanged, so the status
and URL of every stored record are as before. -/
theorem updateURL_nil_uuid (s : WebhookEndpointServiceImpl) (endpoint : WebhookEndpoint)
    (hnil : endpoint.UUID = uuidNil) :
    UpdateURL s endpoint =
      { db := s.db, calls := [], ret := (endpoint, some ErrEmptyEndpointUUID) } := by
  simp [UpdateURL, fetchWebhookEndpointFromDB, hnil]

/-- C14, on the store with one verified endpoint and an argument with a new
URL and no UUID. -/
theorem updateURL_nil_uuid_witness :
    UpdateURL ⟨storeVerified, refusingClient⟩ ⟨uuidNil, "http://localhost:8080", Unverified⟩ =
      { db := storeVerified, calls := [],
        ret := (⟨uuidNil, "http://localhost:8080", Unverified⟩, some ErrEmptyEndpointUUID) } :=
  updateURL_nil_uuid ⟨storeVerified, refusingClient⟩
    ⟨uuidNil, "http://localhost:8080", Unverified⟩ rfl

/-- C17. The conversion endpointsDbToWeb returns a list of the same length
whose element at each index has the UUID, URL and Status of the record at
that index; ListEndpoints returns the conversion of the records of the store
(the rows not marked deleted) in store order; and after n Create calls with
non-empty URLs on the empty store it returns n endpoints. -/
theorem listEndpoints_all_in_order :
    (∀ dbes : List WebhookEndpointDB,
      (endpointsDbToWeb dbes).length = dbes.length ∧
      ∀ (i : Nat) (r : WebhookEndpointDB), dbes[i]? = some r →
        (endpointsDbToWeb dbes)[i]? = some { UUID := r.UUID, URL := r.URL, Status := r.Status }) ∧
    (∀ s : WebhookEndpointServiceImpl,
      ListEndpoints s = (some (s.db.records.map endpointDbToWeb), none)) ∧
    (∀ (creates : List (Nat × WebhookEndpoint)) (http : HttpClient),
      (∀ c ∈ creates, c.2.URL ≠ "") →
      ∃ l, ListEndpoints ⟨runCalls (creates.map (fun c => Call.create c.1 c.2)) DB.empty, http⟩ =
          (some l, none) ∧ l.length = creates.length) := by
  refine ⟨?_, ?_, ?_⟩
  · intro dbes
    rw [endpointsDbToWeb_eq_map]
    refine ⟨by simp, ?_⟩
    intro i r h
    simp [List.getElem?_map, h, endpointDbToWeb]
  · intro s
    simp [ListEndpoints, dbFindEndpoints, endpointsDbToWeb_eq_map, DB.records]
  · intro creates http h
    refine ⟨_, ListEndpoints_eq _, ?_⟩
    rw [endpointsDbToWeb_eq_map, List.length_map]
    have := runCalls_creates_records creates DB.empty h
    simpa [DB.records, DB.empty] using this

/-- C17, on two records (the repository's test case), and after two Create
calls on the empty store. -/
theorem listEndpoints_all_in_order_witness :
    endpointsDbToWeb
        [{ ID := 1, DeletedAt := false, UUID := ⟨1⟩, URL := "http://localhost:8080",
           Status := Unverified },
         { ID := 2, DeletedAt := false, UUID := ⟨2⟩, URL := "http://localhost:8081",
           Status := Unverified }] =
      [⟨⟨1⟩, "http://localhost:8080", Unverified⟩, ⟨⟨2⟩, "http://localhost:8081", Unverified⟩] ∧
    (∃ l, ListEndpoints
          ⟨runCalls ([(0, ⟨uuidNil, "http://example.com:8080", Unverified⟩),
            (1, ⟨uuidNil, "http://example.com:8081", Unverified⟩)].map
              (fun c => Call.create c.1 c.2)) DB.empty, refusingClient⟩ = (some l, none) ∧
        l.length = 2) :=
  ⟨by decide,
   listEndpoints_all_in_order.2.2
     [(0, ⟨uuidNil, "http://example.com:8080", Unverified⟩),
      (1, ⟨uuidNil, "http://example.com:8081", Unverified⟩)] refusingClient (by decide)⟩

/-- C18. UpdateURL returns its argument unchanged on every path. Verify
returns its argument with the same UUID and URL on every path. When the
challenge of Verify is sent and answered with the id, the returned Status is
Verified, whatever the argument's Status was; on every other path of Verify
the result is the argument unchanged. On the already-verified short-circuit
the argument comes back as it is and the store is untouched, so the returned
Status is the caller's even when the persisted status differs; on the reset
path of UpdateURL the argument comes back as it is while the persisted status
becomes Unverified. -/
theorem verify_update_return_argument (dflt : HttpClient) (s : WebhookEndpointServiceImpl)
    (endpoint : WebhookEndpoint) :
    (UpdateURL s endpoint).ret.1 = endpoint ∧
    (Verify dflt s endpoint).ret.1.UUID = endpoint.UUID ∧
    (Verify dflt s endpoint).ret.1.URL = endpoint.URL ∧
    (∀ (rec : WebhookEndpointDB) (url : String) (resp : Response),
      endpoint.UUID ≠ uuidNil → dbFirstEndpoint s.db endpoint.UUID = .ok rec →
      rec.Status ≤ Suspended →
      prepareEndpointForVerification rec.URL rec.UUID.String = (url, none) →
      (dflt.Get url).2 = .ok resp → resp.Body = .ok endpoint.UUID.String →
      (Verify dflt s endpoint).ret.1 = { endpoint with Status := Verified } ∧
        (Verify dflt s endpoint).ret.1.Status = Verified) ∧
    ((Verify dflt s endpoint).ret.1 = endpoint ∨
      ((Verify dflt s endpoint).ret.1 = { endpoint with Status := Verified } ∧
        endpoint.UUID ≠ uuidNil ∧
        ∃ (rec : WebhookEndpointDB) (url : String) (resp : Response),
          dbFirstEndpoint s.db endpoint.UUID = .ok rec ∧ rec.Status ≤ Suspended ∧
          prepareEndpointForVerification rec.URL rec.UUID.String = (url, none) ∧
          (dflt.Get url).2 = .ok resp ∧ resp.Body = .ok endpoint.UUID.String)) ∧
    (∀ rec : WebhookEndpointDB, endpoint.UUID ≠ uuidNil →
      dbFirstEndpoint s.db endpoint.UUID = .ok rec → rec.Status > Suspended →
      (Verify dflt s endpoint).ret.1 = endpoint ∧ (Verify dflt s endpoint).db = s.db) ∧
    (∀ rec : WebhookEndpointDB, endpoint.UUID ≠ uuidNil →
      dbFirstEndpoint s.db endpoint.UUID = .ok rec → endpoint.URL ≠ rec.URL → s.db.WF →
      (UpdateURL s endpoint).ret.1 = endpoint ∧
      dbFirstEndpoint (UpdateURL s endpoint).db endpoint.UUID =
        .ok { rec with URL := endpoint.URL, Status := Unverified }) := by
  have hupd : (UpdateURL s endpoint).ret.1 = endpoint := by
    unfold UpdateURL
    split
    · rfl
    · rfl
    · split <;> rfl
  have hver : (Verify dflt s endpoint).ret.1 = endpoint ∨
      ((Verify dflt s endpoint).ret.1 = { endpoint with Status := Verified } ∧
        endpoint.UUID ≠ uuidNil ∧
        ∃ (rec : WebhookEndpointDB) (url : String) (resp : Response),
          dbFirstEndpoint s.db endpoint.UUID = .ok rec ∧ rec.Status ≤ Suspended ∧
          prepareEndpointForVerification rec.URL rec.UUID.String = (url, none) ∧
          (dflt.Get url).2 = .ok resp ∧ resp.Body = .ok endpoint.UUID.String) := by
    by_cases hid : endpoint.UUID = uuidNil
    · left; simp [Verify, fetchWebhookEndpointFromDB, hid]
    cases hrec : dbFirstEndpoint s.db endpoint.UUID with
    | error e =>
      left
      by_cases he : e = gormErrRecordNotFound <;>
        simp [Verify, fetchWebhookEndpointFromDB, hid, hrec, he]
    | ok rec =>
      by_cases hst : rec.Status > Suspended
      · left; simp [Verify, fetchWebhookEndpointFromDB, hid, hrec, hst]
      · cases hprep : prepareEndpointForVerification rec.URL rec.UUID.String with
        | mk url perr =>
          cases perr with
          | some e => left; simp [Verify, fetchWebhookEndpointFromDB, hid, hrec, hst, hprep]
          | none =>
            cases hget : (dflt.Get url).2 with
            | error e =>
              left; simp [Verify, fetchWebhookEndpointFromDB, hid, hrec, hst, hprep, hget]
            | ok resp =>
              by_cases hver : verifyResponseBodyForVerification resp.Body endpoint.UUID.String = none
              · right
                refine ⟨by simp [Verify, fetchWebhookEndpointFromDB, hid, hrec, hst, hprep, hget,
                  hver], hid, rec, url, resp, rfl, not_lt.mp hst, hprep, hget, ?_⟩
                unfold verifyResponseBodyForVerification at hver
                split at hver
                · cases hver
                · rename_i body hb
                  by_cases hne : body ≠ endpoint.UUID.String
                  · simp [hne] at hver
                  · rw [hb, not_not.mp hne]
              · left
                simp [Verify, fetchWebhookEndpointFromDB, hid, hrec, hst, hprep, hget, hver]
  refine ⟨hupd, ?_, ?_, ?_, hver, ?_, ?_⟩
  · rcases hver with h | ⟨h, _⟩ <;> rw [h]
  · rcases hver with h | ⟨h, _⟩ <;> rw [h]
  · intro rec url resp hid hrec hst hprep hget hbody
    rw [Verify_challenge_matched dflt s endpoint rec url resp hid hrec hst hprep hget hbody]
    exact ⟨rfl, rfl⟩
  · intro rec hid hrec hst
    rw [Verify_already_verified dflt s endpoint rec hid hrec hst]
    exact ⟨rfl, rfl⟩
  · intro rec hid hrec hurl hwf
    refine ⟨hupd, ?_⟩
    obtain ⟨_, hdel, hu⟩ := dbFirstEndpoint_props hrec
    have hsave := dbSaveEndpoint_first { rec with URL := endpoint.URL, Status := Unverified }
      hwf hrec rfl hdel hu
    simp [UpdateURL, fetchWebhookEndpointFromDB, hid, hrec, hurl, hsave]

/-- C18, on the example stores. The challenge of the suspended endpoint,
answered with the id, hands back Status Verified for an argument that said
Unverified. On the verified endpoint the short-circuit of Verify and the reset
of UpdateURL hand back the caller's status, here Suspended and Healthy, while
the persisted status is Verified before and Unverified after the reset. -/
theorem verify_update_return_argument_witness :
    (Verify echoClient ⟨storeSuspended, refusingClient⟩ ⟨⟨7⟩, "", Unverified⟩).ret.1 =
      ⟨⟨7⟩, "", Verified⟩ ∧
    (Verify refusingClient ⟨storeVerified, refusingClient⟩ ⟨⟨7⟩, "", Suspended⟩).ret.1 =
      ⟨⟨7⟩, "", Suspended⟩ ∧
    (UpdateURL ⟨storeVerified, refusingClient⟩ ⟨⟨7⟩, "http://example.com/new", Healthy⟩).ret.1 =
      ⟨⟨7⟩, "http://example.com/new", Healthy⟩ ∧
    dbFirstEndpoint
        (UpdateURL ⟨storeVerified, refusingClient⟩ ⟨⟨7⟩, "http://example.com/new", Healthy⟩).db
        ⟨7⟩ =
      .ok { ID := 1, DeletedAt := false, UUID := ⟨7⟩, URL := "http://example.com/new",
            Status := Unverified } :=
  ⟨((verify_update_return_argument echoClient ⟨storeSuspended, refusingClient⟩
      ⟨⟨7⟩, "", Unverified⟩).2.2.2.1
      { ID := 1, DeletedAt := false, UUID := ⟨7⟩, URL := "http://example.com/hooks",
        Status := Suspended }
      "http://example.com/hooks/verification?id=00000000-0000-0000-0000-000000000007"
      { StatusCode := 200, Body := .ok "00000000-0000-0000-0000-000000000007" }
      (by decide) storeSuspended_first (by decide)
      (by rw [uuid7_String]; exact challenge_url) (by rw [challenge_Get_echo])
      (by rw [uuid7_String])).1,
   ((verify_update_return_argument refusingClient ⟨storeVerified, refusingClient⟩
      ⟨⟨7⟩, "", Suspended⟩).2.2.2.2.2.1 _ (by decide) storeVerified_first (by decide)).1,
   ((verify_update_return_argument refusingClient ⟨storeVerified, refusingClient⟩
      ⟨⟨7⟩, "http://example.com/new", Healthy⟩).2.2.2.2.2.2 _ (by decide) storeVerified_first
      (by decide) (by decide)).1,
   ((verify_update_return_argument refusingClient ⟨storeVerified, refusingClient⟩
      ⟨⟨7⟩, "http://example.com/new", Healthy⟩).2.2.2.2.2.2 _ (by decide) storeVerified_first
      (by decide) (by decide)).2⟩

/-- C15, refuted as stated: two Create calls with the same caller-supplied
UUID on the empty store both succeed and leave two records with that UUID. -/
theorem create_allows_duplicate_uuid :
    (runCalls duplicateCreates DB.empty).endpoints =
      [{ ID := 1, DeletedAt := false, UUID := ⟨7⟩, URL := "http://a.example.com",
         Status := Unverified },
       { ID := 2, DeletedAt := false, UUID := ⟨7⟩, URL := "http://b.example.com",
         Status := Unverified }] ∧
    ¬ (runCalls duplicateCreates DB.empty).uniqueUUIDs := by
  decide

/-- C15, amended. In every store reached from the empty store by Create,
UpdateURL, Verify, Delete and Notify calls, the primary keys of the endpoint
rows are positive and strictly increasing, so no two rows have the same key;
and no two records have the same UUID provided every Create call of the
sequence used a UUID, the caller's or the generated one, that no record had
when it was called. -/
theorem reachable_unique_keys_and_fresh_uuids (calls : List Call) :
    (runCalls calls DB.empty).WF ∧
    (∀ r ∈ (runCalls calls DB.empty).endpoints, ∀ r2 ∈ (runCalls calls DB.empty).endpoints,
      r.ID = r2.ID → r = r2) ∧
    (freshRun calls DB.empty → (runCalls calls DB.empty).uniqueUUIDs) := by
  have hwf := runCalls_WF calls DB.empty DB.empty_WF
  refine ⟨hwf, ?_, ?_⟩
  · intro r hr r2 hr2 hid
    exact keysOK_inj hwf.1 hr hr2 hid
  · intro hf
    exact runCalls_uniqueUUIDs calls DB.empty DB.empty_WF (by decide) hf

/-- C15 amended, on two Create calls with different caller-supplied UUIDs
followed by a deletion and a update. -/
theorem reachable_unique_keys_and_fresh_uuids_witness :
    (runCalls [Call.create 0 ⟨⟨7⟩, "http://a.example.com", Unverified⟩,
               Call.create 1 ⟨⟨8⟩, "http://b.example.com", Unverified⟩,
               Call.delete ⟨⟨7⟩, "", Unverified⟩,
               Call.updateURL ⟨⟨8⟩, "http://c.example.com", Unverified⟩] DB.empty).uniqueUUIDs :=
  (reachable_unique_keys_and_fresh_uuids
    [Call.create 0 ⟨⟨7⟩, "http://a.example.com", Unverified⟩,
     Call.create 1 ⟨⟨8⟩, "http://b.example.com", Unverified⟩,
     Call.delete ⟨⟨7⟩, "", Unverified⟩,
     Call.updateURL ⟨⟨8⟩, "http://c.example.com", Unverified⟩]).2.2 (by decide)

/-- C13, refuted as stated: after two Create calls with the same
caller-supplied UUID, Delete on that UUID returns no error, and Get on it then
returns the second record, which ListEndpoints still lists. -/
theorem delete_leaves_duplicate :
    (Delete ⟨runCalls duplicateCreates DB.empty, refusingClient⟩ ⟨⟨7⟩, "", Unverified⟩).ret =
      none ∧
    Get ⟨(Delete ⟨runCalls duplicateCreates DB.empty, refusingClient⟩
          ⟨⟨7⟩, "", Unverified⟩).db, refusingClient⟩ ⟨⟨7⟩, "", Unverified⟩ =
      (⟨⟨7⟩, "http://b.example.com", Unverified⟩, none) ∧
    ListEndpoints ⟨(Delete ⟨runCalls duplicateCreates DB.empty, refusingClient⟩
          ⟨⟨7⟩, "", Unverified⟩).db, refusingClient⟩ =
      (some [⟨⟨7⟩, "http://b.example.com", Unverified⟩], none) := by
  decide

/-- C13, amended. On every store whose records have distinct UUIDs (as in
every reachable store whose Create calls used fresh UUIDs), after Delete on an
id returned no error, Get, Verify and Notify on that id fail with
ErrRecordNotFound and send nothing, and ListEndpoints returns no endpoint with
that id; if the store had a single record, ListEndpoints returns the empty
list. -/
theorem delete_then_not_found (s : WebhookEndpointServiceImpl) (endpoint : WebhookEndpoint)
    (hu : s.db.uniqueUUIDs) (hdel : (Delete s endpoint).ret = none) :
    ∀ (dflt http : HttpClient) (e2 : WebhookEndpoint) (n : WebhookNotification),
      e2.UUID = endpoint.UUID →
      Get ⟨(Delete s endpoint).db, http⟩ e2 = (e2, some ErrRecordNotFound) ∧
      Verify dflt ⟨(Delete s endpoint).db, http⟩ e2 =
        { db := (Delete s endpoint).db, calls := [], ret := (e2, some ErrRecordNotFound) } ∧
      Notify ⟨(Delete s endpoint).db, http⟩ e2 n =
        { db := (Delete s endpoint).db, calls := [], ret := some ErrRecordNotFound } ∧
      (∀ l, (ListEndpoints ⟨(Delete s endpoint).db, http⟩).1 = some l →
        ∀ w ∈ l, w.UUID ≠ endpoint.UUID) ∧
      (s.db.records.length = 1 →
        ListEndpoints ⟨(Delete s endpoint).db, http⟩ = (some [], none)) := by
  intro dflt http e2 n he2
  obtain ⟨hnone, hone⟩ := Delete_no_record s endpoint hu hdel
  have hid : e2.UUID ≠ uuidNil := by rw [he2]; exact (Delete_ok s endpoint hdel).1
  have hfirst : dbFirstEndpoint (Delete s endpoint).db e2.UUID = .error gormErrRecordNotFound :=
    dbFirstEndpoint_none (by rw [he2]; exact hnone)
  refine ⟨?_, ?_, ?_, ?_, ?_⟩
  · simp [Get, fetchWebhookEndpointFromDB, hid, hfirst]
  · simp [Verify, fetchWebhookEndpointFromDB, hid, hfirst]
  · simp [Notify, Get, fetchWebhookEndpointFromDB, hid, hfirst]
  · intro l hl w hw
    rw [ListEndpoints_eq, endpointsDbToWeb_eq_map] at hl
    simp only [Option.some.injEq] at hl
    subst hl
    obtain ⟨r, hr, hrw⟩ := List.mem_map.mp hw
    subst hrw
    exact hnone r hr
  · intro hlen
    rw [ListEndpoints_eq, hone hlen]
    rfl

/-- C13 amended, on the store with one verified endpoint: after its deletion
Get fails with ErrRecordNotFound and the list is empty. -/
theorem delete_then_not_found_witness :
    Get ⟨(Delete ⟨storeVerified, refusingClient⟩ ⟨⟨7⟩, "", Unverified⟩).db, refusingClient⟩
        ⟨⟨7⟩, "", Unverified⟩ = (⟨⟨7⟩, "", Unverified⟩, some ErrRecordNotFound) ∧
    ListEndpoints ⟨(Delete ⟨storeVerified, refusingClient⟩ ⟨⟨7⟩, "", Unverified⟩).db,
        refusingClient⟩ = (some [], none) :=
  ⟨(delete_then_not_found ⟨storeVerified, refusingClient⟩ ⟨⟨7⟩, "", Unverified⟩ (by decide)
      (by decide) refusingClient refusingClient ⟨⟨7⟩, "", Unverified⟩ exampleNotification rfl).1,
   (delete_then_not_found ⟨storeVerified, refusingClient⟩ ⟨⟨7⟩, "", Unverified⟩ (by decide)
      (by decide) refusingClient refusingClient ⟨⟨7⟩, "", Unverified⟩ exampleNotification
      rfl).2.2.2.2 (by decide)⟩

/-! ## Deliveries follow a successful challenge -/

theorem storeAfter_succ (calls : List Call) (n : Nat) :
    storeAfter calls (n + 1) =
      match calls[n]? with
      | some c => (c.run (storeAfter calls n)).1
      | none => storeAfter calls n := by
  unfold storeAfter runCalls
  cases h : calls[n]? with
  | none =>
    have hlen : calls.length ≤ n := by
      rw [List.getElem?_eq_none_iff] at h
      exact h
    simp only
    rw [List.take_of_length_le hlen, List.take_of_length_le (by omega)]
  | some c =>
    simp only
    have hlt : n < calls.length := by
      by_contra hn
      rw [List.getElem?_eq_none (by omega)] at h
      cases h
    have hc : calls[n] = c := by
      rw [List.getElem?_eq_getElem hlt] at h
      exact Option.some.inj h
    rw [List.take_succ, List.foldl_append, List.getElem?_eq_getElem hlt, hc]
    rfl

theorem storeAfter_WF (calls : List Call) (n : Nat) : (storeAfter calls n).WF :=
  runCalls_WF _ _ DB.empty_WF

/-- The rows after a save, in a well-formed store, under the key of a row
that a lookup found: the saved value and rows of before. -/
theorem mem_dbSaveEndpoint {db : DB} {uuid : UUID} {rec : WebhookEndpointDB}
    (v : WebhookEndpointDB) (hwf : db.WF) (h : dbFirstEndpoint db uuid = .ok rec)
    (hid : v.ID = rec.ID) :
    ∀ r ∈ (dbSaveEndpoint db v).1.endpoints, r = v ∨ r ∈ db.endpoints := by
  obtain ⟨hm, hd, _⟩ := dbFirstEndpoint_props h
  have hpos : 0 < rec.ID := hwf.1.1 rec.ID (List.mem_map_of_mem _ hm)
  have hne : v.ID ≠ 0 := by omega
  have hany : db.endpoints.any (fun r => r.ID == v.ID && !r.DeletedAt) = true := by
    rw [List.any_eq_true]
    exact ⟨rec, hm, by simp [hid, hd]⟩
  unfold dbSaveEndpoint
  simp only [hne, if_false, hany, if_true]
  intro r hr
  obtain ⟨x, hx, hxr⟩ := List.mem_map.mp hr
  by_cases hc : (x.ID == v.ID && !x.DeletedAt) = true
  · rw [if_pos hc] at hxr
    exact Or.inl hxr.symm
  · rw [if_neg hc] at hxr
    exact Or.inr (hxr ▸ hx)

/-- The store after UpdateURL: unchanged, or the record found saved with the
new URL and status Unverified. -/
theorem UpdateURL_db_cases (s : WebhookEndpointServiceImpl) (endpoint : WebhookEndpoint) :
    (UpdateURL s endpoint).db = s.db ∨
    ∃ rec, dbFirstEndpoint s.db endpoint.UUID = .ok rec ∧
      (UpdateURL s endpoint).db =
        (dbSaveEndpoint s.db { rec with URL := endpoint.URL, Status := Unverified }).1 := by
  by_cases hid : endpoint.UUID = uuidNil
  · left; simp [UpdateURL, fetchWebhookEndpointFromDB, hid]
  cases hrec : dbFirstEndpoint s.db endpoint.UUID with
  | error e =>
    left
    by_cases he : e = gormErrRecordNotFound <;>
      simp [UpdateURL, fetchWebhookEndpointFromDB, hid, hrec, he]
  | ok rec =>
    by_cases hurl : endpoint.URL = rec.URL
    · left; simp [UpdateURL, fetchWebhookEndpointFromDB, hid, hrec, hurl]
    · right
      exact ⟨rec, rfl, by simp [UpdateURL, fetchWebhookEndpointFromDB, hid, hrec, hurl]⟩

/-- The store after Verify: unchanged, or, after a challenge answered with
the id, the record found saved with status Verified. -/
theorem Verify_db_cases (dflt : HttpClient) (s : WebhookEndpointServiceImpl)
    (endpoint : WebhookEndpoint) :
    (Verify dflt s endpoint).db = s.db ∨
    ∃ (rec : WebhookEndpointDB) (url : String) (resp : Response),
      dbFirstEndpoint s.db endpoint.UUID = .ok rec ∧
      prepareEndpointForVerification rec.URL rec.UUID.String = (url, none) ∧
      (dflt.Get url).2 = .ok resp ∧ resp.Body = .ok rec.UUID.String ∧
      (Verify dflt s endpoint).db = (dbSaveEndpoint s.db { rec with Status := Verified }).1 := by
  by_cases hid : endpoint.UUID = uuidNil
  · left; simp [Verify, fetchWebhookEndpointFromDB, hid]
  cases hrec : dbFirstEndpoint s.db endpoint.UUID with
  | error e =>
    left
    by_cases he : e = gormErrRecordNotFound <;>
      simp [Verify, fetchWebhookEndpointFromDB, hid, hrec, he]
  | ok rec =>
    by_cases hst : rec.Status > Suspended
    · left; simp [Verify, fetchWebhookEndpointFromDB, hid, hrec, hst]
    · cases hprep : prepareEndpointForVerification rec.URL rec.UUID.String with
      | mk url perr =>
        cases perr with
        | some e => left; simp [Verify, fetchWebhookEndpointFromDB, hid, hrec, hst, hprep]
        | none =>
          cases hget : (dflt.Get url).2 with
          | error e =>
            left; simp [Verify, fetchWebhookEndpointFromDB, hid, hrec, hst, hprep, hget]
          | ok resp =>
            by_cases hver : verifyResponseBodyForVerification resp.Body endpoint.UUID.String = none
            · right
              refine ⟨rec, url, resp, rfl, hprep, hget, ?_, by simp [Verify,
                fetchWebhookEndpointFromDB, hid, hrec, hst, hprep, hget, hver]⟩
              have hu := (dbFirstEndpoint_props hrec).2.2
              unfold verifyResponseBodyForVerification at hver
              split at hver
              · cases hver
              · rename_i body hb
                by_cases hne : body ≠ endpoint.UUID.String
                · simp [hne] at hver
                · rw [hb, not_not.mp hne, hu]
            · left
              simp [Verify, fetchWebhookEndpointFromDB, hid, hrec, hst, hprep, hget, hver]

/-- The rows after Delete are the rows of before, up to the deletion mark. -/
theorem mem_Delete_endpoints (s : WebhookEndpointServiceImpl) (endpoint : WebhookEndpoint) :
    ∀ r ∈ (Delete s endpoint).db.endpoints,
      ∃ r0 ∈ s.db.endpoints, r0.ID = r.ID ∧ r0.UUID = r.UUID ∧ r0.URL = r.URL ∧
        r0.Status = r.Status := by
  intro r hr
  by_cases hid : endpoint.UUID = uuidNil
  · simp [Delete, fetchWebhookEndpointFromDB, hid] at hr
    exact ⟨r, hr, rfl, rfl, rfl, rfl⟩
  cases hrec : dbFirstEndpoint s.db endpoint.UUID with
  | error e =>
    by_cases he : e = gormErrRecordNotFound <;>
      simp [Delete, fetchWebhookEndpointFromDB, hid, hrec, he] at hr <;>
      exact ⟨r, hr, rfl, rfl, rfl, rfl⟩
  | ok rec =>
    simp only [Delete, fetchWebhookEndpointFromDB, hid, if_false, hrec, dbDeleteEndpoint] at hr
    by_cases h0 : rec.ID = 0
    · simp only [h0, if_true] at hr
      exact ⟨r, hr, rfl, rfl, rfl, rfl⟩
    · simp only [h0, if_false] at hr
      obtain ⟨x, hx, hxr⟩ := List.mem_map.mp hr
      by_cases hc : (x.ID == rec.ID && !x.DeletedAt) = true
      · rw [if_pos hc] at hxr
        subst hxr
        exact ⟨x, hx, rfl, rfl, rfl, rfl⟩
      · rw [if_neg hc] at hxr
        subst hxr
        exact ⟨x, hx, rfl, rfl, rfl, rfl⟩

theorem create_rows (rand : Nat) (s : WebhookEndpointServiceImpl) (endpoint : WebhookEndpoint)
    (hurl : endpoint.URL ≠ "") :
    (Create rand s endpoint).db.endpoints = s.db.endpoints ++
      [{ ID := nextID (s.db.endpoints.map (·.ID)), DeletedAt := false,
         UUID := createdUUID rand endpoint, URL := endpoint.URL, Status := Unverified }] := by
  by_cases hnil : endpoint.UUID = uuidNil <;>
    simp [Create, dbCreateEndpoint, hurl, hnil, createdUUID]


/-- A row with status at least Verified after a call either was such a row
before the call, with the same key, UUID and URL, or was just verified by this
call, a Verify whose challenge was answered with the id. -/
theorem Call.run_verified (c : Call) (db : DB) (hwf : db.WF) (r : WebhookEndpointDB)
    (hr : r ∈ (c.run db).1.endpoints) (hst : Verified ≤ r.Status) :
    (∃ r0 ∈ db.endpoints, r0.ID = r.ID ∧ r0.UUID = r.UUID ∧ r0.URL = r.URL ∧
      Verified ≤ r0.Status) ∨
    (∃ (dflt : HttpClient) (endpoint : WebhookEndpoint) (rec : WebhookEndpointDB) (url : String)
        (resp : Response),
      c = Call.verify dflt endpoint ∧ dbFirstEndpoint db endpoint.UUID = .ok rec ∧
      rec.ID = r.ID ∧ rec.UUID = r.UUID ∧ rec.URL = r.URL ∧
      prepareEndpointForVerification r.URL r.UUID.String = (url, none) ∧
      (dflt.Get url).2 = .ok resp ∧ resp.Body = .ok r.UUID.String) := by
  cases c with
  | create rand endpoint =>
    left
    simp only [Call.run] at hr
    by_cases hurl : endpoint.URL = ""
    · have : (Create rand ⟨db, fun _ => .error (Error.httpError "not used")⟩ endpoint).db = db := by
        by_cases hnil : endpoint.UUID = uuidNil <;> simp [Create, hurl, hnil]
      rw [this] at hr
      exact ⟨r, hr, rfl, rfl, rfl, hst⟩
    · have hc := (create_rows rand ⟨db, fun _ => .error (Error.httpError "not used")⟩ endpoint hurl)
      rw [hc] at hr
      rcases List.mem_append.mp hr with h | h
      · exact ⟨r, h, rfl, rfl, rfl, hst⟩
      · simp at h
        subst h
        exact absurd hst (by show ¬ (Verified ≤ Unverified); decide)
  | updateURL endpoint =>
    left
    simp only [Call.run] at hr
    rcases UpdateURL_db_cases ⟨db, fun _ => .error (Error.httpError "not used")⟩ endpoint with
      h | ⟨rec, hrec, h⟩
    · rw [h] at hr
      exact ⟨r, hr, rfl, rfl, rfl, hst⟩
    · rw [h] at hr
      rcases mem_dbSaveEndpoint { rec with URL := endpoint.URL, Status := Unverified } hwf hrec
        rfl r hr with hv | hm
      · subst hv
        exact absurd hst (by show ¬ (Verified ≤ Unverified); decide)
      · exact ⟨r, hm, rfl, rfl, rfl, hst⟩
  | verify dflt endpoint =>
    simp only [Call.run] at hr
    rcases Verify_db_cases dflt ⟨db, fun _ => .error (Error.httpError "not used")⟩ endpoint with
      h | ⟨rec, url, resp, hrec, hprep, hget, hbody, h⟩
    · rw [h] at hr
      exact Or.inl ⟨r, hr, rfl, rfl, rfl, hst⟩
    · rw [h] at hr
      rcases mem_dbSaveEndpoint { rec with Status := Verified } hwf hrec rfl r hr with hv | hm
      · subst hv
        exact Or.inr ⟨dflt, endpoint, rec, url, resp, rfl, hrec, rfl, rfl, rfl, hprep, hget, hbody⟩
      · exact Or.inl ⟨r, hm, rfl, rfl, rfl, hst⟩
  | delete endpoint =>
    left
    simp only [Call.run] at hr
    obtain ⟨r0, hr0, h1, h2, h3, h4⟩ := mem_Delete_endpoints _ endpoint r hr
    exact ⟨r0, hr0, h1, h2, h3, by rw [h4]; exact hst⟩
  | notify http endpoint notification =>
    left
    simp only [Call.run, Notify_endpoints] at hr
    exact ⟨r, hr, rfl, rfl, rfl, hst⟩

/-- A certificate only depends on the key, UUID and URL of the row. -/
theorem Certified_congr {calls : List Call} {n : Nat} {r r2 : WebhookEndpointDB}
    (h : Certified calls n r) (hid : r.ID = r2.ID) (hu : r.UUID = r2.UUID)
    (hurl : r.URL = r2.URL) : Certified calls n r2 := by
  obtain ⟨j, hj, ⟨dflt, endpoint, rec, url, resp, h1, h2, h3, h4, h5, h6, h7, h8⟩, hk⟩ := h
  refine ⟨j, hj, ⟨dflt, endpoint, rec, url, resp, h1, h2, ?_, ?_, ?_, ?_, h7, ?_⟩, ?_⟩
  · rw [h3, hid]
  · rw [h4, hu]
  · rw [h5, hurl]
  · rw [← hu, ← hurl]; exact h6
  · rw [← hu]; exact h8
  · intro m hjm hmn
    obtain ⟨x, hx, hx1, hx2, hx3⟩ := hk m hjm hmn
    exact ⟨x, hx, by rw [hx1, hid], by rw [hx2, hu], by rw [hx3, hurl]⟩

/-- At every point of a sequence of calls from the empty store, a row with
status at least Verified is certified. -/
theorem verified_rows_certified (calls : List Call) :
    ∀ (n : Nat) (r : WebhookEndpointDB), r ∈ (storeAfter calls n).endpoints →
      Verified ≤ r.Status → Certified calls n r := by
  intro n
  induction n with
  | zero =>
    intro r hr _
    simp [storeAfter, runCalls, DB.empty] at hr
  | succ n ih =>
    intro r hr hst
    have hsucc := storeAfter_succ calls n
    cases hc : calls[n]? with
    | none =>
      rw [hc] at hsucc
      simp only at hsucc
      have hr0 : r ∈ (storeAfter calls n).endpoints := by rw [← hsucc]; exact hr
      obtain ⟨j, hj, hch, hk⟩ := ih r hr0 hst
      refine ⟨j, by omega, hch, ?_⟩
      intro m hjm hmn
      by_cases hm : m ≤ n
      · exact hk m hjm hm
      · have : m = n + 1 := by omega
        subst this
        exact ⟨r, hr, rfl, rfl, rfl⟩
    | some c =>
      rw [hc] at hsucc
      simp only at hsucc
      rw [hsucc] at hr
      rcases Call.run_verified c (storeAfter calls n) (storeAfter_WF calls n) r hr hst with
        ⟨r0, hr0, h1, h2, h3, hst0⟩ | ⟨dflt, endpoint, rec, url, resp, hcv, hrec, h1, h2, h3, h4,
          h5, h6⟩
      · obtain ⟨j, hj, hch, hk⟩ := Certified_congr (ih r0 hr0 hst0) h1 h2 h3
        refine ⟨j, by omega, hch, ?_⟩
        intro m hjm hmn
        by_cases hm : m ≤ n
        · exact hk m hjm hm
        · have : m = n + 1 := by omega
          subst this
          exact ⟨r, by rw [hsucc]; exact hr, rfl, rfl, rfl⟩
      · refine ⟨n, by omega, ⟨dflt, endpoint, rec, url, resp, by rw [hc, hcv], hrec, h1, h2, h3,
          h4, h5, h6⟩, ?_⟩
        intro m hjm hmn
        have : m = n + 1 := by omega
        subst this
        exact ⟨r, by rw [hsucc]; exact hr, rfl, rfl, rfl⟩

/-- A request handed to the client by Notify goes to the notification URL of
the record found under the UUID, and that record has status at least
Verified. -/
theorem Notify_request (s : WebhookEndpointServiceImpl) (endpoint : WebhookEndpoint)
    (notification : WebhookNotification) (req : Request)
    (hreq : req ∈ (Notify s endpoint notification).calls) :
    ∃ (rec : WebhookEndpointDB) (final_url jsonval : String) (request : Request),
      dbFirstEndpoint s.db endpoint.UUID = .ok rec ∧ Verified ≤ rec.Status ∧
      jsonMarshal notification = .ok jsonval ∧
      prepareEndpointForNotification rec.URL = (final_url, none) ∧
      NewRequest "GET" final_url (some jsonval) = .ok request ∧
      req = { request with
        Header := headerSet request.Header "Content-Type" "application/json" } := by
  by_cases hid : endpoint.UUID = uuidNil
  · simp [Notify, Get, fetchWebhookEndpointFromDB, hid] at hreq
  cases hrec : dbFirstEndpoint s.db endpoint.UUID with
  | error e =>
    by_cases he : e = gormErrRecordNotFound <;>
      simp [Notify, Get, fetchWebhookEndpointFromDB, hid, hrec, he] at hreq
  | ok rec =>
    by_cases hst : rec.Status < Verified
    · simp [Notify, Get, fetchWebhookEndpointFromDB, hid, hrec, hst] at hreq
    · cases hprep : prepareEndpointForNotification rec.URL with
      | mk final_url perr =>
        cases perr with
        | some e =>
          simp [Notify, Get, fetchWebhookEndpointFromDB, hid, hrec, hst, hprep, jsonMarshal]
            at hreq
        | none =>
          obtain ⟨jsonval, hjson⟩ : ∃ j, jsonMarshal notification = .ok j := ⟨_, rfl⟩
          cases hnew : NewRequest "GET" final_url (some jsonval) with
          | error e =>
            simp [Notify, Get, fetchWebhookEndpointFromDB, hid, hrec, hst, hprep, hjson, hnew]
              at hreq
          | ok request =>
            have hsent := Notify_sent s endpoint notification rec jsonval final_url request hid
              hrec (not_lt.mp hst) hjson hprep hnew
            rw [hsent] at hreq
            refine ⟨rec, final_url, jsonval, request, rfl, not_lt.mp hst, hjson, hprep, hnew, ?_⟩
            cases hdo : s.http { request with
                Header := headerSet request.Header "Content-Type" "application/json" } with
            | error e =>
              rw [hdo] at hreq
              simpa using hreq
            | ok response =>
              rw [hdo] at hreq
              simpa using hreq


/-- A request handed to the client by Verify is the challenge: a GET without
body on the verification URL of the record found under the UUID. -/
theorem Verify_request (dflt : HttpClient) (s : WebhookEndpointServiceImpl)
    (endpoint : WebhookEndpoint) (req : Request)
    (hreq : req ∈ (Verify dflt s endpoint).calls) :
    ∃ (rec : WebhookEndpointDB) (url : String),
      dbFirstEndpoint s.db endpoint.UUID = .ok rec ∧
      prepareEndpointForVerification rec.URL rec.UUID.String = (url, none) ∧
      NewRequest "GET" url none = .ok req := by
  by_cases hid : endpoint.UUID = uuidNil
  · simp [Verify, fetchWebhookEndpointFromDB, hid] at hreq
  cases hrec : dbFirstEndpoint s.db endpoint.UUID with
  | error e =>
    by_cases he : e = gormErrRecordNotFound <;>
      simp [Verify, fetchWebhookEndpointFromDB, hid, hrec, he] at hreq
  | ok rec =>
    by_cases hst : rec.Status > Suspended
    · simp [Verify, fetchWebhookEndpointFromDB, hid, hrec, hst] at hreq
    · cases hprep : prepareEndpointForVerification rec.URL rec.UUID.String with
      | mk url perr =>
        cases perr with
        | some e => simp [Verify, fetchWebhookEndpointFromDB, hid, hrec, hst, hprep] at hreq
        | none =>
          have hcalls : (Verify dflt s endpoint).calls = (dflt.Get url).1 := by
            cases hget : (dflt.Get url).2 with
            | error e => simp [Verify, fetchWebhookEndpointFromDB, hid, hrec, hst, hprep, hget]
            | ok resp =>
              by_cases hver :
                  verifyResponseBodyForVerification resp.Body endpoint.UUID.String = none <;>
                simp [Verify, fetchWebhookEndpointFromDB, hid, hrec, hst, hprep, hget, hver]
          rw [hcalls] at hreq
          refine ⟨rec, url, rfl, hprep, ?_⟩
          unfold HttpClient.Get at hreq
          cases hnew : NewRequest "GET" url none with
          | error e => simp [hnew] at hreq
          | ok r0 =>
            simp [hnew] at hreq
            rw [hreq]

/-- C16. Over every sequence of Create, UpdateURL, Verify, Delete and Notify
calls from the empty store: (1) at every point, a row with status at least
Verified is certified, that is, an earlier Verify call sent the challenge to
the verification URL built from the row's current URL and UUID and read the
UUID back, and the row has kept that URL since; (2) every request that a
Notify call hands to its client goes to the notification URL built from the
URL of the record found under the id, and that record is certified; (3) a
request handed to a client by Verify is the challenge itself, and Create,
UpdateURL and Delete hand no request to a client; (4) an UpdateURL call with
another URL leaves the record with the new URL and status Unverified, so a
new certificate is needed before the next delivery. -/
theorem notify_only_after_challenge (calls : List Call) :
    (∀ (n : Nat) (r : WebhookEndpointDB), r ∈ (storeAfter calls n).endpoints →
      Verified ≤ r.Status → Certified calls n r) ∧
    (∀ (k : Nat) (http : HttpClient) (endpoint : WebhookEndpoint)
        (notification : WebhookNotification) (req : Request),
      calls[k]? = some (Call.notify http endpoint notification) →
      req ∈ ((Call.notify http endpoint notification).run (storeAfter calls k)).2 →
      ∃ (rec : WebhookEndpointDB) (final_url jsonval : String) (request : Request),
        dbFirstEndpoint (storeAfter calls k) endpoint.UUID = .ok rec ∧
        Certified calls k rec ∧
        prepareEndpointForNotification rec.URL = (final_url, none) ∧
        NewRequest "GET" final_url (some jsonval) = .ok request ∧
        req = { request with
          Header := headerSet request.Header "Content-Type" "application/json" }) ∧
    (∀ (db : DB) (c : Call) (req : Request), req ∈ (c.run db).2 →
      (∃ http endpoint notification, c = Call.notify http endpoint notification) ∨
      (∃ (dflt : HttpClient) (endpoint : WebhookEndpoint) (rec : WebhookEndpointDB)
          (url : String),
        c = Call.verify dflt endpoint ∧ dbFirstEndpoint db endpoint.UUID = .ok rec ∧
        prepareEndpointForVerification rec.URL rec.UUID.String = (url, none) ∧
        NewRequest "GET" url none = .ok req)) ∧
    (∀ (n : Nat) (endpoint : WebhookEndpoint) (rec : WebhookEndpointDB),
      calls[n]? = some (Call.updateURL endpoint) → endpoint.UUID ≠ uuidNil →
      dbFirstEndpoint (storeAfter calls n) endpoint.UUID = .ok rec → endpoint.URL ≠ rec.URL →
      dbFirstEndpoint (storeAfter calls (n + 1)) endpoint.UUID =
        .ok { rec with URL := endpoint.URL, Status := Unverified }) := by
  refine ⟨verified_rows_certified calls, ?_, ?_, ?_⟩
  · intro k http endpoint notification req _ hreq
    obtain ⟨rec, final_url, jsonval, request, hrec, hst, _, hprep, hnew, hr⟩ :=
      Notify_request ⟨storeAfter calls k, http⟩ endpoint notification req hreq
    exact ⟨rec, final_url, jsonval, request, hrec,
      verified_rows_certified calls k rec (dbFirstEndpoint_props hrec).1 hst, hprep, hnew, hr⟩
  · intro db c req hreq
    cases c with
    | create rand endpoint =>
      have : (Create rand ⟨db, fun _ => .error (Error.httpError "not used")⟩ endpoint).calls =
          [] := by
        by_cases hurl : endpoint.URL = "" <;> by_cases hnil : endpoint.UUID = uuidNil <;>
          simp [Create, hurl, hnil]
      simp [Call.run, this] at hreq
    | updateURL endpoint =>
      have : (UpdateURL ⟨db, fun _ => .error (Error.httpError "not used")⟩ endpoint).calls =
          [] := by
        unfold UpdateURL
        split
        · rfl
        · rfl
        · split <;> rfl
      simp [Call.run, this] at hreq
    | verify dflt endpoint =>
      right
      obtain ⟨rec, url, h1, h2, h3⟩ := Verify_request dflt _ endpoint req hreq
      exact ⟨dflt, endpoint, rec, url, rfl, h1, h2, h3⟩
    | delete endpoint =>
      have : (Delete ⟨db, fun _ => .error (Error.httpError "not used")⟩ endpoint).calls = [] := by
        unfold Delete
        split <;> rfl
      simp [Call.run, this] at hreq
    | notify http endpoint notification =>
      exact Or.inl ⟨http, endpoint, notification, rfl⟩
  · intro n endpoint rec hc hid hrec hurl
    have hsucc := storeAfter_succ calls n
    rw [hc] at hsucc
    simp only at hsucc
    have hsave := dbSaveEndpoint_first { rec with URL := endpoint.URL, Status := Unverified }
      (storeAfter_WF calls n) hrec rfl (dbFirstEndpoint_props hrec).2.1
      (dbFirstEndpoint_props hrec).2.2
    rw [hsucc]
    simp only [Call.run, UpdateURL, fetchWebhookEndpointFromDB, hid, if_false, hrec, hurl]
    exact hsave.2.1


theorem storeUnverified_first :
    dbFirstEndpoint storeUnverified ⟨7⟩ =
      .ok { ID := 1, DeletedAt := false, UUID := ⟨7⟩, URL := "http://example.com/hooks",
            Status := Unverified } := by
  decide

theorem Verify_storeUnverified_echo (http : HttpClient) :
    Verify echoClient ⟨storeUnverified, http⟩ ⟨⟨7⟩, "", Unverified⟩ =
      { db := storeVerified, calls := [challengeRequest],
        ret := (⟨⟨7⟩, "", Verified⟩, none) } := by
  have hv := Verify_challenge_matched echoClient ⟨storeUnverified, http⟩ ⟨⟨7⟩, "", Unverified⟩
    { ID := 1, DeletedAt := false, UUID := ⟨7⟩, URL := "http://example.com/hooks",
      Status := Unverified }
    "http://example.com/hooks/verification?id=00000000-0000-0000-0000-000000000007"
    { StatusCode := 200, Body := .ok "00000000-0000-0000-0000-000000000007" }
    (by decide) storeUnverified_first (by decide)
    (by rw [uuid7_String]; exact challenge_url) (by rw [challenge_Get_echo])
    (by rw [uuid7_String])
  rw [hv, challenge_Get_echo]
  have hs : dbSaveEndpoint storeUnverified
      { ID := 1, DeletedAt := false, UUID := ⟨7⟩, URL := "http://example.com/hooks",
        Status := Verified } = (storeVerified, none) := by decide
  simp only [hs]

theorem Call.run_verify (dflt : HttpClient) (endpoint : WebhookEndpoint) (db : DB) :
    (Call.verify dflt endpoint).run db =
      ((Verify dflt ⟨db, fun _ => .error (Error.httpError "not used")⟩ endpoint).db,
        (Verify dflt ⟨db, fun _ => .error (Error.httpError "not used")⟩ endpoint).calls) := rfl

theorem Call.run_notify (http : HttpClient) (endpoint : WebhookEndpoint)
    (notification : WebhookNotification) (db : DB) :
    (Call.notify http endpoint notification).run db =
      ((Notify ⟨db, http⟩ endpoint notification).db,
        (Notify ⟨db, http⟩ endpoint notification).calls) := rfl

theorem storeAfter_exampleCalls_1 : storeAfter exampleCalls 1 = storeUnverified := by
  decide

theorem storeAfter_exampleCalls_2 : storeAfter exampleCalls 2 = storeVerified := by
  have h := storeAfter_succ exampleCalls 1
  have hc : exampleCalls[1]? = some (Call.verify echoClient ⟨⟨7⟩, "", Unverified⟩) := rfl
  rw [hc] at h
  simp only at h
  rw [h, storeAfter_exampleCalls_1, Call.run_verify, Verify_storeUnverified_echo]

theorem Notify_storeVerified_calls (http : HttpClient) :
    (Notify ⟨storeVerified, http⟩ ⟨⟨7⟩, "", Unverified⟩ exampleNotification).calls =
      [notificationRequest] := by
  rw [Notify_sent ⟨storeVerified, http⟩ ⟨⟨7⟩, "", Unverified⟩ exampleNotification _ _ _ _
    (by decide) storeVerified_first (by decide) exampleJSON_eq notification_url
    notification_NewRequest]
  split <;> rfl

/-- C16, on the sequence Create, Verify against a server that echoes the id,
Notify: the request of the Notify call goes to the notification URL of the
record, which the Verify call certified. -/
theorem notify_only_after_challenge_witness :
    ∃ (rec : WebhookEndpointDB) (final_url jsonval : String) (request : Request),
      dbFirstEndpoint (storeAfter exampleCalls 2) ⟨7⟩ = .ok rec ∧
      Certified exampleCalls 2 rec ∧
      prepareEndpointForNotification rec.URL = (final_url, none) ∧
      NewRequest "GET" final_url (some jsonval) = .ok request ∧
      notificationRequest = { request with
        Header := headerSet request.Header "Content-Type" "application/json" } :=
  (notify_only_after_challenge exampleCalls).2.1 2 (statusClient 200) ⟨⟨7⟩, "", Unverified⟩
    exampleNotification notificationRequest rfl
    (by
      rw [Call.run_notify, storeAfter_exampleCalls_2, Notify_storeVerified_calls]
      exact List.mem_singleton.mpr rfl)

/-! ## The URL policy -/

open encoding

theorem unescapeCheck_urlError (mode : encoding) :
    ∀ (n : Nat) (s : List Char), s.length ≤ n → ∀ e, unescapeCheck mode s = some e →
      ∃ msg, e = Error.urlError msg := by
  intro n
  induction n with
  | zero =>
    intro s hs e h
    have : s = [] := List.length_eq_zero.mp (by omega)
    subst this
    simp [unescapeCheck] at h
  | succ n ih =>
    intro s hs e h
    cases s with
    | nil => simp [unescapeCheck] at h
    | cons c rest =>
      unfold unescapeCheck at h
      split at h
      · split at h
        · rename_i h1 h2 rest2
          split at h
          · exact ⟨_, (Option.some.inj h).symm⟩
          · split at h
            · exact ⟨_, (Option.some.inj h).symm⟩
            · split at h
              · exact ⟨_, (Option.some.inj h).symm⟩
              · exact ih rest2 (by simp at hs; omega) e h
        · exact ⟨_, (Option.some.inj h).symm⟩
      · split at h
        · exact ⟨_, (Option.some.inj h).symm⟩
        · exact ih rest (by simp at hs; omega) e h

theorem unescape_urlError {s : List Char} {mode : encoding} {e : Error}
    (h : unescape s mode = .error e) : ∃ msg, e = Error.urlError msg := by
  unfold unescape at h
  split at h
  · rename_i e2 he
    cases h
    exact unescapeCheck_urlError mode s.length s (Nat.le_refl _) _ he
  · cases h

theorem getSchemeLoop_urlError (rawURL : List Char) :
    ∀ (rest acc : List Char) (e : Error), getSchemeLoop rawURL acc rest = .error e →
      ∃ msg, e = Error.urlError msg := by
  intro rest
  induction rest with
  | nil => intro acc e h; simp [getSchemeLoop] at h
  | cons c cs ih =>
    intro acc e h
    unfold getSchemeLoop at h
    split at h
    · exact ih _ e h
    · split at h
      · split at h
        · cases h
        · exact ih _ e h
      · split at h
        · split at h
          · cases h; exact ⟨_, rfl⟩
          · cases h
        · cases h

theorem parseHost_urlError {host : List Char} {e : Error}
    (h : parseHost host = .error e) : ∃ msg, e = Error.urlError msg := by
  unfold parseHost at h
  split at h
  · split at h
    · cases h; exact ⟨_, rfl⟩
    · split at h
      · cases h; exact ⟨_, rfl⟩
      · split at h
        · split at h
          · rename_i e1 he1
            cases h
            exact unescape_urlError he1
          · split at h
            · rename_i e2 he2
              cases h
              exact unescape_urlError he2
            · split at h
              · rename_i e3 he3
                cases h
                exact unescape_urlError he3
              · cases h
        · exact unescape_urlError h
  · split at h
    · split at h
      · cases h; exact ⟨_, rfl⟩
      · exact unescape_urlError h
    · exact unescape_urlError h

theorem parseAuthority_urlError {authority : List Char} {e : Error}
    (h : parseAuthority authority = .error e) : ∃ msg, e = Error.urlError msg := by
  unfold parseAuthority at h
  split at h
  · split at h
    · rename_i e1 he1
      cases h
      exact parseHost_urlError he1
    · cases h
  · split at h
    · rename_i e1 he1
      cases h
      exact parseHost_urlError he1
    · split at h
      · cases h; exact ⟨_, rfl⟩
      · split at h
        · split at h
          · rename_i e1 he1
            cases h
            exact unescape_urlError he1
          · cases h
        · simp only at h
          split at h
          · rename_i e1 he1
            cases h
            exact unescape_urlError he1
          · split at h
            · rename_i e1 he1
              cases h
              exact unescape_urlError he1
            · cases h

theorem setPath_urlError {u : URL} {p : List Char} {e : Error}
    (h : URL.setPath u p = .error e) : ∃ msg, e = Error.urlError msg := by
  unfold URL.setPath at h
  split at h
  · rename_i e1 he1
    cases h
    exact unescape_urlError he1
  · cases h

theorem setFragment_urlError {u : URL} {p : List Char} {e : Error}
    (h : URL.setFragment u p = .error e) : ∃ msg, e = Error.urlError msg := by
  unfold URL.setFragment at h
  split at h
  · rename_i e1 he1
    cases h
    exact unescape_urlError he1
  · cases h


theorem urlparseRest_urlError (viaRequest : Bool) (scheme rest1 : List Char) (url : URL)
    (e : Error)
    (h : (if rest1.head? ≠ some '/' && !scheme.isEmpty then
        (Except.ok { url with Opaque := String.mk rest1 } : Except Error URL)
      else if rest1.head? ≠ some '/' && viaRequest then
        .error (Error.urlError "invalid URI for request")
      else if rest1.head? ≠ some '/' && (cutAt '/' rest1).1.contains ':' then
        .error (Error.urlError "first path segment in URL cannot contain colon")
      else if (!scheme.isEmpty || (!viaRequest && !(List.isPrefixOf ['/', '/', '/'] rest1))) &&
          ['/', '/'].isPrefixOf rest1 then
        match parseAuthority (cutAt '/' (rest1.drop 2)).1 with
        | .error e => .error e
        | .ok (user, host) =>
          URL.setPath { url with User := user, Host := String.mk host }
            (if (cutAt '/' (rest1.drop 2)).2.2 then '/' :: (cutAt '/' (rest1.drop 2)).2.1 else [])
      else if !scheme.isEmpty && rest1.head? = some '/' then
        URL.setPath { url with OmitHost := true } rest1
      else URL.setPath url rest1) = .error e) :
    ∃ msg, e = Error.urlError msg := by
  split at h
  · cases h
  · split at h
    · cases h; exact ⟨_, rfl⟩
    · split at h
      · cases h; exact ⟨_, rfl⟩
      · split at h
        · split at h
          · rename_i e1 he1
            cases h
            exact parseAuthority_urlError he1
          · exact setPath_urlError h
        · split at h
          · exact setPath_urlError h
          · exact setPath_urlError h

theorem urlparse_urlError {rawURL : List Char} {viaRequest : Bool} {e : Error}
    (h : urlparse rawURL viaRequest = .error e) : ∃ msg, e = Error.urlError msg := by
  unfold urlparse at h
  split at h
  · cases h; exact ⟨_, rfl⟩
  · split at h
    · cases h; exact ⟨_, rfl⟩
    · split at h
      · cases h
      · cases hg : getScheme rawURL with
        | error e1 =>
          rw [hg] at h
          cases h
          exact getSchemeLoop_urlError _ _ _ _ hg
        | ok p =>
          obtain ⟨scheme0, rest0⟩ := p
          rw [hg] at h
          exact urlparseRest_urlError viaRequest (scheme0.map toLowerByte)
            (if (rest0.getLast? = some '?' && rest0.count '?' = 1) then rest0.dropLast
              else (cutAt '?' rest0).1)
            { URL.zero with Scheme := String.mk (scheme0.map toLowerByte),
                            ForceQuery := rest0.getLast? = some '?' && rest0.count '?' = 1,
                            RawQuery := String.mk
                              (if (rest0.getLast? = some '?' && rest0.count '?' = 1) then []
                                else (cutAt '?' rest0).2.1) }
            e h

/-- Every error of `url.Parse` is an error of package net/url, none of the
error values of this package. -/
theorem urlParse_urlError {rawURL : String} {e : Error}
    (h : urlParse rawURL = .error e) : ∃ msg, e = Error.urlError msg := by
  unfold urlParse at h
  simp only at h
  split at h
  · rename_i e1 he1
    cases h
    exact urlparse_urlError he1
  · split at h
    · cases h
    · exact setFragment_urlError h


/-- C11, refuted as stated: the empty string fails with the missing-scheme
error, not with the empty-URL error, and a string that `url.Parse` rejects
fails with the error of net/url, which is none of the specific kinds. -/
theorem validation_empty_and_generic :
    prepareEndpointForOperations "" = .error ErrEmptyEndpointURLScheme ∧
    prepareEndpointForOperations ":foo" = .error (Error.urlError "missing protocol scheme") ∧
    prepareEndpointForOperations "http://example.com:80a/" =
      .error (Error.urlError "invalid port \":80a\" after host") := by
  decide

/-- C11, amended. For every input string the validation has exactly these
outcomes. If `url.Parse` rejects the string, its error is returned as it is,
and it is an error of net/url, not one of the error values of the package.
If the string parses: without a scheme (as the empty string does) the error
is ErrEmptyEndpointURLScheme; with a scheme other than http and https it is
ErrUnsupportedEndpointURLScheme; with scheme http or https and an empty host it
is ErrEmptyEndpointURL; otherwise the parsed URL is returned. -/
theorem validation_outcomes (endpoint : String) :
    (∀ e, urlParse endpoint = .error e →
      prepareEndpointForOperations endpoint = .error e ∧ ∃ msg, e = Error.urlError msg) ∧
    (∀ u, urlParse endpoint = .ok u →
      (u.Scheme = "" → prepareEndpointForOperations endpoint = .error ErrEmptyEndpointURLScheme) ∧
      (u.Scheme ≠ "" → u.Scheme ≠ "http" → u.Scheme ≠ "https" →
        prepareEndpointForOperations endpoint = .error ErrUnsupportedEndpointURLScheme) ∧
      ((u.Scheme = "http" ∨ u.Scheme = "https") → u.Host = "" →
        prepareEndpointForOperations endpoint = .error ErrEmptyEndpointURL) ∧
      ((u.Scheme = "http" ∨ u.Scheme = "https") → u.Host ≠ "" →
        prepareEndpointForOperations endpoint = .ok u)) ∧
    (endpoint = "" → prepareEndpointForOperations endpoint = .error ErrEmptyEndpointURLScheme) := by
  refine ⟨?_, ?_, ?_⟩
  · intro e he
    exact ⟨by simp [prepareEndpointForOperations, he], urlParse_urlError he⟩
  · intro u hu
    refine ⟨?_, ?_, ?_, ?_⟩
    · intro hs
      simp [prepareEndpointForOperations, hu, URL.IsAbs, hs]
    · intro hs h1 h2
      simp [prepareEndpointForOperations, hu, URL.IsAbs, hs, h1, h2]
    · intro hs hh
      rcases hs with hs | hs <;>
        simp [prepareEndpointForOperations, hu, URL.IsAbs, hs, hh]
    · intro hs hh
      rcases hs with hs | hs <;>
        simp [prepareEndpointForOperations, hu, URL.IsAbs, hs, hh]
  · intro he
    subst he
    decide

/-- C11 amended, on a string that does not parse, strings without scheme,
with an unsupported scheme and with an empty host, and a valid URL. -/
theorem validation_outcomes_witness :
    prepareEndpointForOperations ":foo" = .error (Error.urlError "missing protocol scheme") ∧
    prepareEndpointForOperations "example.com" = .error ErrEmptyEndpointURLScheme ∧
    prepareEndpointForOperations "udp://example.com" = .error ErrUnsupportedEndpointURLScheme ∧
    prepareEndpointForOperations "http:///path" = .error ErrEmptyEndpointURL ∧
    prepareEndpointForOperations "https://example.com/a" =
      .ok { URL.zero with Scheme := "https", Host := "example.com", Path := "/a" } :=
  ⟨((validation_outcomes ":foo").1 (Error.urlError "missing protocol scheme") (by decide)).1,
   ((validation_outcomes "example.com").2.1 { URL.zero with Path := "example.com" }
      (by decide)).1 (by decide),
   ((validation_outcomes "udp://example.com").2.1
      { URL.zero with Scheme := "udp", Host := "example.com" } (by decide)).2.1
      (by decide) (by decide) (by decide),
   ((validation_outcomes "http:///path").2.1
      { URL.zero with Scheme := "http", Path := "/path" } (by decide)).2.2.1
      (by decide) (by decide),
   ((validation_outcomes "https://example.com/a").2.1
      { URL.zero with Scheme := "https", Host := "example.com", Path := "/a" }
      (by decide)).2.2.2 (by decide) (by decide)⟩

/-! ## The challenge URL -/

theorem cutAt_of_not_mem (sep : Char) :
    ∀ s : List Char, sep ∉ s → cutAt sep s = (s, [], false) := by
  intro s
  induction s with
  | nil => intro _; rfl
  | cons c cs ih =>
    intro h
    have hc : c ≠ sep := fun hh => h (by simp [hh])
    have hcs : sep ∉ cs := fun hh => h (List.mem_cons_of_mem _ hh)
    simp [cutAt, hc, ih hcs]

theorem cutAt_append (sep : Char) (b : List Char) :
    ∀ a : List Char, sep ∉ a → cutAt sep (a ++ sep :: b) = (a, b, true) := by
  intro a
  induction a with
  | nil => intro _; simp [cutAt]
  | cons c cs ih =>
    intro h
    have hc : c ≠ sep := fun hh => h (by simp [hh])
    have hcs : sep ∉ cs := fun hh => h (List.mem_cons_of_mem _ hh)
    simp [cutAt, hc, ih hcs]

theorem cutLast_of_not_mem (sep : Char) (s : List Char) (h : sep ∉ s) : cutLast sep s = none := by
  unfold cutLast
  rw [cutAt_of_not_mem sep s.reverse (by simpa using h)]
  simp

/-- An unreserved byte is a letter, a digit or one of four marks. -/
theorem unreservedByte_cases {c : Char} (h : unreservedByte c = true) :
    (isLowerByte c || isUpperByte c || isDigitByte c) = true ∨
      c = '-' ∨ c = '_' ∨ c = '.' ∨ c = '~' := by
  simp only [unreservedByte, Bool.or_eq_true, decide_eq_true_eq] at h ⊢
  tauto

theorem alnum_toNat {c : Char} (h : (isLowerByte c || isUpperByte c || isDigitByte c) = true) :
    48 ≤ c.toNat ∧ c.toNat ≤ 122 ∧ (c.toNat ≤ 57 ∨ 65 ≤ c.toNat) ∧ (c.toNat ≤ 90 ∨ 97 ≤ c.toNat) := by
  simp only [isLowerByte, isUpperByte, isDigitByte, Bool.or_eq_true, Bool.and_eq_true,
    decide_eq_true_eq] at h
  omega

/-- Facts on one unreserved byte. -/
theorem unreservedByte_facts {c : Char} (h : unreservedByte c = true) :
    c ≠ '%' ∧ c ≠ '#' ∧ c ≠ '?' ∧ c ≠ '/' ∧ c ≠ ':' ∧ c ≠ '@' ∧ c ≠ '[' ∧ c ≠ ' ' ∧ c ≠ '+' ∧
      c ≠ '&' ∧ c ≠ ';' ∧ c ≠ '=' ∧ ¬ (c.toNat < 32) ∧ c.toNat ≠ 127 := by
  rcases unreservedByte_cases h with ha | rfl | rfl | rfl | rfl
  · have hn := alnum_toNat ha
    refine ⟨?_, ?_, ?_, ?_, ?_, ?_, ?_, ?_, ?_, ?_, ?_, ?_, ?_, ?_⟩ <;>
      first
      | omega
      | (intro heq; subst heq; revert ha; decide)
  · decide
  · decide
  · decide
  · decide

theorem shouldEscape_unreserved {c : Char} (h : unreservedByte c = true) (mode : encoding) :
    shouldEscape c mode = false := by
  rcases unreservedByte_cases h with ha | rfl | rfl | rfl | rfl
  · simp [shouldEscape, ha]
  · cases mode <;> decide
  · cases mode <;> decide
  · cases mode <;> decide
  · cases mode <;> decide

theorem unescapeCheck_plain (mode : encoding) :
    ∀ s : List Char, (∀ c ∈ s, c ≠ '%' ∧ shouldEscape c encodeHost = false) →
      unescapeCheck mode s = none := by
  intro s
  induction s with
  | nil => intro _; simp [unescapeCheck]
  | cons c cs ih =>
    intro h
    have hc := h c (List.mem_cons_self _ _)
    have hcs := ih (fun d hd => h d (List.mem_cons_of_mem _ hd))
    unfold unescapeCheck
    simp [hc.1, hc.2, hcs]

theorem unescapeCheck_path :
    ∀ s : List Char, (∀ c ∈ s, c ≠ '%') → unescapeCheck encodePath s = none := by
  intro s
  induction s with
  | nil => intro _; simp [unescapeCheck]
  | cons c cs ih =>
    intro h
    have hc := h c (List.mem_cons_self _ _)
    have hcs := ih (fun d hd => h d (List.mem_cons_of_mem _ hd))
    unfold unescapeCheck
    simp [hc, hcs]

theorem unescapeDecode_plain (mode : encoding) (hmode : mode ≠ encodeQueryComponent) :
    ∀ s : List Char, (∀ c ∈ s, c ≠ '%') → unescapeDecode mode s = s := by
  intro s
  induction s with
  | nil => intro _; simp [unescapeDecode]
  | cons c cs ih =>
    intro h
    have hc := h c (List.mem_cons_self _ _)
    have hcs := ih (fun d hd => h d (List.mem_cons_of_mem _ hd))
    unfold unescapeDecode
    simp [hc, hcs, hmode]

theorem escape_cons (c : Char) (cs : List Char) (mode : encoding) :
    escape (c :: cs) mode =
      (if c = ' ' && mode = encodeQueryComponent then ['+']
        else if shouldEscape c mode then
          ['%', upperHexDigit (c.toNat / 16), upperHexDigit c.toNat]
        else [c]) ++ escape cs mode := by
  simp [escape, List.flatMap_cons]

theorem escape_plain (mode : encoding) :
    ∀ s : List Char, (∀ c ∈ s, c ≠ ' ' ∧ shouldEscape c mode = false) → escape s mode = s := by
  intro s
  induction s with
  | nil => intro _; rfl
  | cons c cs ih =>
    intro h
    have hc := h c (List.mem_cons_self _ _)
    have hcs := ih (fun d hd => h d (List.mem_cons_of_mem _ hd))
    rw [escape_cons, hcs]
    simp [hc.1, hc.2]

theorem splitOnByte_ne_nil (sep : Char) : ∀ s : List Char, splitOnByte sep s ≠ [] := by
  intro s
  induction s with
  | nil => simp [splitOnByte]
  | cons c cs ih =>
    unfold splitOnByte
    cases h : splitOnByte sep cs with
    | nil => simp
    | cons seg segs => by_cases hc : c = sep <;> simp [hc]

theorem splitOnByte_sep (sep : Char) (s : List Char) :
    splitOnByte sep (sep :: s) = [] :: splitOnByte sep s := by
  cases h : splitOnByte sep s with
  | nil => exact absurd h (splitOnByte_ne_nil sep s)
  | cons seg segs => simp [splitOnByte, h]

theorem splitOnByte_of_not_mem (sep : Char) :
    ∀ s : List Char, sep ∉ s → splitOnByte sep s = [s] := by
  intro s
  induction s with
  | nil => intro _; rfl
  | cons c cs ih =>
    intro h
    have hc : c ≠ sep := fun hh => h (by simp [hh])
    have hcs : sep ∉ cs := fun hh => h (List.mem_cons_of_mem _ hh)
    simp [splitOnByte, ih hcs, hc]

theorem splitOnByte_append_sep (sep : Char) (rest : List Char) :
    ∀ s : List Char, sep ∉ s →
      splitOnByte sep (s ++ sep :: rest) = s :: splitOnByte sep rest := by
  intro s
  induction s with
  | nil => intro _; exact splitOnByte_sep sep rest
  | cons c cs ih =>
    intro h
    have hc : c ≠ sep := fun hh => h (by simp [hh])
    have hcs : sep ∉ cs := fun hh => h (List.mem_cons_of_mem _ hh)
    simp [splitOnByte, ih hcs, hc]

theorem plainSegment_not_slash {seg : List Char} (h : plainSegment seg) : '/' ∉ seg :=
  fun hm => (unreservedByte_facts (h.2.2.2 _ hm)).2.2.2.1 rfl

theorem pathOfSegments_cons (s : List Char) (ss : List (List Char)) :
    pathOfSegments (s :: ss) = '/' :: (s ++ pathOfSegments ss) := by
  simp [pathOfSegments, List.flatMap_cons]

theorem pathOfSegments_append (ss ts : List (List Char)) :
    pathOfSegments (ss ++ ts) = pathOfSegments ss ++ pathOfSegments ts := by
  simp [pathOfSegments, List.flatMap_append]

/-- The elements of a path of plain segments followed by a slash and more. -/
theorem splitOnByte_pathOfSegments (rest : List Char) :
    ∀ segs : List (List Char), (∀ seg ∈ segs, plainSegment seg) →
      splitOnByte '/' (pathOfSegments segs ++ '/' :: rest) = [] :: (segs ++ splitOnByte '/' rest) := by
  intro segs
  induction segs with
  | nil => intro _; exact splitOnByte_sep '/' rest
  | cons s ss ih =>
    intro h
    have hs := plainSegment_not_slash (h s (List.mem_cons_self _ _))
    have hss := ih (fun d hd => h d (List.mem_cons_of_mem _ hd))
    obtain ⟨X, hX⟩ : ∃ X, pathOfSegments ss ++ '/' :: rest = '/' :: X := by
      cases ss with
      | nil => exact ⟨rest, rfl⟩
      | cons t ts => exact ⟨_, by rw [pathOfSegments_cons]; rfl⟩
    rw [hX, splitOnByte_sep] at hss
    rw [pathOfSegments_cons, List.cons_append, List.append_assoc, hX, splitOnByte_sep,
      splitOnByte_append_sep '/' X s hs, List.cons.inj hss |>.2]
    rfl

theorem cleanElems_plain (tail : List (List Char)) :
    ∀ (segs out : List (List Char)), (∀ seg ∈ segs, plainSegment seg) →
      cleanElems true out (segs ++ tail) = cleanElems true (segs.reverse ++ out) tail := by
  intro segs
  induction segs with
  | nil => intro out _; rfl
  | cons s ss ih =>
    intro out h
    have hs := h s (List.mem_cons_self _ _)
    have hne : s.isEmpty = false := by
      cases s with
      | nil => exact absurd rfl hs.1
      | cons _ _ => rfl
    rw [List.cons_append, cleanElems.eq_def]
    simp only [hne, hs.2.1, hs.2.2.1, decide_False, Bool.or_self, Bool.false_eq_true, if_false]
    rw [ih (s :: out) (fun d hd => h d (List.mem_cons_of_mem _ hd))]
    simp

theorem slash_intercalate :
    ∀ segs : List (List Char), segs ≠ [] →
      '/' :: List.intercalate ['/'] segs = pathOfSegments segs := by
  intro segs
  induction segs with
  | nil => intro h; exact absurd rfl h
  | cons s ss ih =>
    intro _
    cases ss with
    | nil => simp [pathOfSegments, List.intercalate]
    | cons t ts =>
      have h2 := ih (by simp)
      rw [pathOfSegments_cons s, ← h2]
      simp [List.intercalate, List.intersperse]

theorem unescape_host_plain (host : List Char) (h : ∀ c ∈ host, unreservedByte c = true) :
    unescape host encodeHost = .ok host := by
  unfold unescape
  rw [unescapeCheck_plain encodeHost host
    (fun c hc => ⟨(unreservedByte_facts (h c hc)).1, shouldEscape_unreserved (h c hc) _⟩)]
  simp only
  rw [unescapeDecode_plain encodeHost (by decide) host
    (fun c hc => (unreservedByte_facts (h c hc)).1)]

theorem parseAuthority_plain (host : List Char) (h : ∀ c ∈ host, unreservedByte c = true) :
    parseAuthority host = .ok (none, host) := by
  have hat : '@' ∉ host := fun hm => (unreservedByte_facts (h _ hm)).2.2.2.2.2.1 rfl
  have hcolon : ':' ∉ host := fun hm => (unreservedByte_facts (h _ hm)).2.2.2.2.1 rfl
  have hbr : host.head? ≠ some '[' := by
    intro hh
    have hm : '[' ∈ host := List.mem_of_mem_head? hh
    exact (unreservedByte_facts (h _ hm)).2.2.2.2.2.2.1 rfl
  have hph : parseHost host = .ok host := by
    unfold parseHost
    rw [if_neg hbr, cutLast_of_not_mem ':' host hcolon]
    exact unescape_host_plain host h
  unfold parseAuthority
  rw [cutLast_of_not_mem '@' host hat]
  simp only [hph]

/-- A byte of a path made of plain segments. -/
theorem pathByte_facts {c : Char} (h : unreservedByte c = true ∨ c = '/') :
    c ≠ '%' ∧ c ≠ '#' ∧ c ≠ '?' ∧ c ≠ ' ' ∧ ¬ (c.toNat < 32) ∧ c.toNat ≠ 127 ∧
      shouldEscape c encodePath = false := by
  rcases h with h | rfl
  · have hf := unreservedByte_facts h
    exact ⟨hf.1, hf.2.1, hf.2.2.1, hf.2.2.2.2.2.2.2.1, hf.2.2.2.2.2.2.2.2.2.2.2.2.1,
      hf.2.2.2.2.2.2.2.2.2.2.2.2.2, shouldEscape_unreserved h _⟩
  · decide

theorem setPath_plain (u : URL) (p : List Char) (h : ∀ c ∈ p, unreservedByte c = true ∨ c = '/') :
    URL.setPath u p = .ok { u with Path := String.mk p, RawPath := "" } := by
  have hun : unescape p encodePath = .ok p := by
    unfold unescape
    rw [unescapeCheck_path p (fun c hc => (pathByte_facts (h c hc)).1)]
    simp only
    rw [unescapeDecode_plain encodePath (by decide) p (fun c hc => (pathByte_facts (h c hc)).1)]
  have hesc : escape p encodePath = p :=
    escape_plain encodePath p (fun c hc =>
      ⟨(pathByte_facts (h c hc)).2.2.2.1, (pathByte_facts (h c hc)).2.2.2.2.2.2⟩)
  unfold URL.setPath
  simp only [hun, hesc, if_true]

/-- What is left of `host ++ p` after the host, when the path is empty or
starts with a slash. -/
theorem cutAt_host_path (host p : List Char) (hhost : '/' ∉ host)
    (hp : p = [] ∨ ∃ q, p = '/' :: q) :
    (cutAt '/' (host ++ p)).1 = host ∧
      (if (cutAt '/' (host ++ p)).2.2 then '/' :: (cutAt '/' (host ++ p)).2.1 else []) = p := by
  rcases hp with rfl | ⟨q, rfl⟩
  · rw [List.append_nil, cutAt_of_not_mem '/' host hhost]
    simp
  · rw [cutAt_append '/' q host hhost]
    simp

theorem getScheme_http (rest : List Char) :
    getScheme ('h' :: 't' :: 't' :: 'p' :: ':' :: rest) = .ok (['h', 't', 't', 'p'], rest) := rfl

theorem getScheme_https (rest : List Char) :
    getScheme ('h' :: 't' :: 't' :: 'p' :: 's' :: ':' :: rest) =
      .ok (['h', 't', 't', 'p', 's'], rest) := rfl

theorem urlparse_authority (rawURL sch host p : List Char)
    (hget : getScheme rawURL = .ok (sch, '/' :: '/' :: (host ++ p)))
    (hctl : stringContainsCTLByte rawURL = false)
    (hstar : rawURL ≠ ['*'])
    (hlow : sch.map toLowerByte = sch) (hsch : sch.isEmpty = false)
    (hhost : ∀ c ∈ host, unreservedByte c = true)
    (hp : ∀ c ∈ p, unreservedByte c = true ∨ c = '/')
    (hhead : p = [] ∨ ∃ q, p = '/' :: q) :
    urlparse rawURL false =
      .ok { URL.zero with Scheme := String.mk sch, Host := String.mk host, Path := String.mk p } := by
  have hrest : ∀ c ∈ '/' :: '/' :: (host ++ p), unreservedByte c = true ∨ c = '/' := by
    intro c hc
    simp only [List.mem_cons, List.mem_append] at hc
    rcases hc with rfl | rfl | hc | hc
    · exact Or.inr rfl
    · exact Or.inr rfl
    · exact Or.inl (hhost c hc)
    · exact hp c hc
  have hq : '?' ∉ '/' :: '/' :: (host ++ p) := fun hm => (pathByte_facts (hrest _ hm)).2.2.1 rfl
  have hlast : (('/' :: '/' :: (host ++ p)).getLast? = some '?') = False :=
    eq_false (fun hh => hq (List.mem_of_getLast?_eq_some hh))
  have hslash : '/' ∉ host := fun hm => (unreservedByte_facts (hhost _ hm)).2.2.2.1 rfl
  have hcut := cutAt_host_path host p hslash hhead
  unfold urlparse
  simp only [hctl, hget, hlow, hsch, hlast, cutAt_of_not_mem '?' _ hq, hstar,
    Bool.false_eq_true, if_false, Bool.and_false, decide_False, Bool.false_and,
    List.head?_cons, ne_eq, not_true_eq_false, Bool.not_false, Bool.true_and, Bool.and_true,
    Bool.true_or]
  have hpre : ['/', '/'].isPrefixOf ('/' :: '/' :: (host ++ p)) = true := by simp
  have hdrop : List.drop 2 ('/' :: '/' :: (host ++ p)) = host ++ p := rfl
  rw [if_pos hpre, hdrop, hcut.1, hcut.2, parseAuthority_plain host hhost]
  simp only
  rw [setPath_plain _ p hp]
  rfl

theorem mk_ne_empty {s : List Char} (h : s ≠ []) : String.mk s ≠ "" :=
  fun e => h (congrArg String.data e)

theorem scheme_unreserved {sch : List Char}
    (hsch : sch = ['h', 't', 't', 'p'] ∨ sch = ['h', 't', 't', 'p', 's']) :
    ∀ c ∈ sch, unreservedByte c = true := by
  rcases hsch with rfl | rfl <;> decide

/-- Validation accepts a URL of an http or https scheme, a plain host and a
path of plain bytes, and reads it into its three parts. -/
theorem prepareEndpointForOperations_plain (sch host p : List Char)
    (hsch : sch = ['h', 't', 't', 'p'] ∨ sch = ['h', 't', 't', 'p', 's'])
    (hne : host ≠ [])
    (hhost : ∀ c ∈ host, unreservedByte c = true)
    (hp : ∀ c ∈ p, unreservedByte c = true ∨ c = '/')
    (hhead : p = [] ∨ ∃ q, p = '/' :: q) :
    prepareEndpointForOperations (String.mk (sch ++ ':' :: '/' :: '/' :: (host ++ p))) =
      .ok { URL.zero with Scheme := String.mk sch, Host := String.mk host, Path := String.mk p } := by
  have hraw : ∀ c ∈ sch ++ ':' :: '/' :: '/' :: (host ++ p),
      c ≠ '#' ∧ ¬ (c.toNat < 32) ∧ c.toNat ≠ 127 := by
    intro c hc
    simp only [List.mem_cons, List.mem_append] at hc
    have hu : ∀ d : Char, unreservedByte d = true → d ≠ '#' ∧ ¬ (d.toNat < 32) ∧ d.toNat ≠ 127 :=
      fun d hd => ⟨(unreservedByte_facts hd).2.1, (unreservedByte_facts hd).2.2.2.2.2.2.2.2.2.2.2.2.1,
        (unreservedByte_facts hd).2.2.2.2.2.2.2.2.2.2.2.2.2⟩
    rcases hc with hc | rfl | rfl | rfl | hc | hc
    · exact hu c (scheme_unreserved hsch c hc)
    · decide
    · decide
    · decide
    · exact hu c (hhost c hc)
    · rcases hp c hc with h | rfl
      · exact hu c h
      · decide
  have hctl : stringContainsCTLByte (sch ++ ':' :: '/' :: '/' :: (host ++ p)) = false := by
    unfold stringContainsCTLByte
    rw [List.any_eq_false]
    intro c hc
    simp [(hraw c hc).2.1, (hraw c hc).2.2]
  have hfrag : '#' ∉ sch ++ ':' :: '/' :: '/' :: (host ++ p) := fun hm => (hraw _ hm).1 rfl
  have hparse : urlparse (sch ++ ':' :: '/' :: '/' :: (host ++ p)) false =
      .ok { URL.zero with Scheme := String.mk sch, Host := String.mk host, Path := String.mk p } := by
    rcases hsch with rfl | rfl
    · exact urlparse_authority _ _ host p (getScheme_http _) hctl (by simp) (by decide) (by decide)
        hhost hp hhead
    · exact urlparse_authority _ _ host p (getScheme_https _) hctl (by simp) (by decide) (by decide)
        hhost hp hhead
  have hurl : urlParse (String.mk (sch ++ ':' :: '/' :: '/' :: (host ++ p))) =
      .ok { URL.zero with Scheme := String.mk sch, Host := String.mk host, Path := String.mk p } := by
    unfold urlParse
    simp only [cutAt_of_not_mem '#' _ hfrag, hparse, List.isEmpty_nil, if_true]
  unfold prepareEndpointForOperations
  rw [hurl]
  have hhostne : String.mk host ≠ "" := mk_ne_empty hne
  rcases hsch with rfl | rfl
  · simp [URL.IsAbs, hhostne]
  · simp [URL.IsAbs, hhostne]

theorem plain_verification : plainSegment "verification".data := by
  unfold plainSegment
  decide

/-- The function `path.Join` on a path of plain segments, with or without a
slash at its end, and one more plain segment. -/
theorem pathJoin_plain (segs : List (List Char)) (trailing : Bool) (v : List Char)
    (hsegs : ∀ seg ∈ segs, plainSegment seg) (hv : plainSegment v)
    (hne : pathOfSegments segs ++ (if trailing then ['/'] else []) ≠ []) :
    pathJoin [String.mk (pathOfSegments segs ++ (if trailing then ['/'] else [])), String.mk v] =
      String.mk (pathOfSegments segs ++ '/' :: v) := by
  have hvne : v ≠ [] := hv.1
  have hlen : ([String.mk (pathOfSegments segs ++ (if trailing then ['/'] else [])),
      String.mk v].map String.length).sum ≠ 0 := by
    have : 0 < v.length := List.length_pos.mpr hvne
    simp [String.length]
    exact fun _ _ => hvne
  have hbuf : pathJoinBuf [] ([String.mk (pathOfSegments segs ++ (if trailing then ['/'] else [])),
      String.mk v].map String.data) =
      pathOfSegments segs ++ (if trailing then ['/'] else []) ++ '/' :: v := by
    have he : (pathOfSegments segs ++ (if trailing then ['/'] else [])).isEmpty = false := by
      cases h : pathOfSegments segs ++ (if trailing then ['/'] else []) with
      | nil => exact absurd h hne
      | cons _ _ => rfl
    simp [pathJoinBuf, he]
  have hsplit : splitOnByte '/' (pathOfSegments segs ++ (if trailing then ['/'] else []) ++ '/' :: v) =
      [] :: (segs ++ (if trailing then [[], v] else [v])) := by
    cases trailing with
    | false =>
      simp only [Bool.false_eq_true, if_false, List.append_nil]
      rw [splitOnByte_pathOfSegments v segs hsegs,
        splitOnByte_of_not_mem '/' v (plainSegment_not_slash hv)]
    | true =>
      simp only [if_true, List.append_assoc, List.singleton_append]
      rw [splitOnByte_pathOfSegments ('/' :: v) segs hsegs, splitOnByte_sep,
        splitOnByte_of_not_mem '/' v (plainSegment_not_slash hv)]
  have hclean : cleanElems true [] ([] :: (segs ++ (if trailing then [[], v] else [v]))) =
      segs ++ [v] := by
    have hvE : v.isEmpty = false := by
      cases v with
      | nil => exact absurd rfl hvne
      | cons _ _ => rfl
    have hlast : ∀ out, cleanElems true out [v] = (v :: out).reverse := by
      intro out
      simp [cleanElems, hvE, hv.2.1, hv.2.2.1]
    rw [cleanElems.eq_def]
    simp only [List.isEmpty_nil, Bool.true_or, if_true]
    rw [cleanElems_plain _ segs [] hsegs]
    cases trailing with
    | false => simp [hlast]
    | true =>
      simp only [if_true]
      rw [cleanElems.eq_def]
      simp [hlast]
  have hhead : (pathOfSegments segs ++ (if trailing then ['/'] else []) ++ '/' :: v).head? = some '/' := by
    cases segs with
    | nil => cases trailing <;> simp [pathOfSegments]
    | cons s ss => simp [pathOfSegments_cons]
  unfold pathJoin
  rw [if_neg hlen, hbuf]
  unfold pathClean
  have hnil : (pathOfSegments segs ++ (if trailing then ['/'] else []) ++ '/' :: v).isEmpty = false := by
    simp
  simp only [hnil, hhead, hsplit, hclean, Bool.false_eq_true, if_false, decide_True, if_true]
  rw [slash_intercalate _ (by simp), pathOfSegments_append]
  simp [pathOfSegments]

/-- The query of the challenge URL when the base has no query and the id is
made of unreserved bytes. -/
theorem query_id_plain (u : URL) (id : List Char) (hq : u.RawQuery = "")
    (hid : ∀ c ∈ id, unreservedByte c = true) :
    ((URL.Query u).Set "id" (String.mk id)).Encode = String.mk ('i' :: 'd' :: '=' :: id) := by
  have hesc : escape id encodeQueryComponent = id :=
    escape_plain _ id (fun c hc =>
      ⟨(unreservedByte_facts (hid c hc)).2.2.2.2.2.2.2.1, shouldEscape_unreserved (hid c hc) _⟩)
  have hkey : escape "id".data encodeQueryComponent = ['i', 'd'] := by decide
  have hquery : URL.Query u = [] := by
    unfold URL.Query
    rw [hq]
    rfl
  rw [hquery]
  simp [Values.Set, Values.Encode, sortByKey, insertByKey, hesc, hkey, List.intercalate]

/-- The text of a URL of an http or https scheme, a plain host, a path of
plain bytes and a query. -/
theorem String_plain (sch host p q : List Char)
    (hsch : sch = ['h', 't', 't', 'p'] ∨ sch = ['h', 't', 't', 'p', 's'])
    (hne : host ≠ [])
    (hhost : ∀ c ∈ host, unreservedByte c = true)
    (hp : ∀ c ∈ p, unreservedByte c = true ∨ c = '/')
    (hpne : p ≠ []) (hstar : p ≠ ['*']) (hq : q ≠ []) :
    URL.String { URL.zero with Scheme := String.mk sch, Host := String.mk host, Path := String.mk p,
                               RawQuery := String.mk q } =
      String.mk (sch ++ ':' :: '/' :: '/' :: (host ++
        ((if p.head? ≠ some '/' then ['/'] else []) ++ (p ++ '?' :: q)))) := by
  have hhostne : String.mk host ≠ "" := mk_ne_empty hne
  have hqne : String.mk q ≠ "" := mk_ne_empty hq
  have hpstar : String.mk p ≠ "*" := fun e => hstar (congrArg String.data e)
  have hesch : escape host encodeHost = host :=
    escape_plain _ host (fun c hc =>
      ⟨(unreservedByte_facts (hhost c hc)).2.2.2.2.2.2.2.1, shouldEscape_unreserved (hhost c hc) _⟩)
  have hescp : escape p encodePath = p :=
    escape_plain encodePath p (fun c hc =>
      ⟨(pathByte_facts (hp c hc)).2.2.2.1, (pathByte_facts (hp c hc)).2.2.2.2.2.2⟩)
  have hpE : p.isEmpty = false := by
    cases p with
    | nil => exact absurd rfl hpne
    | cons _ _ => rfl
  unfold URL.String URL.EscapedPath
  rcases hsch with rfl | rfl
  · simp [URL.zero, hhostne, hqne, hesch, hpE, URL.EscapedFragment, hpstar, hescp]
  · simp [URL.zero, hhostne, hqne, hesch, hpE, URL.EscapedFragment, hpstar, hescp]

/-- The challenge URL of a base made of an http or https scheme, a plain host
and plain path segments, with or without a slash at its end. -/
theorem prepareEndpointForVerification_plain (sch host id : List Char) (segs : List (List Char))
    (trailing : Bool)
    (hsch : sch = ['h', 't', 't', 'p'] ∨ sch = ['h', 't', 't', 'p', 's'])
    (hne : host ≠ [])
    (hhost : ∀ c ∈ host, unreservedByte c = true)
    (hsegs : ∀ seg ∈ segs, plainSegment seg)
    (hid : ∀ c ∈ id, unreservedByte c = true) :
    prepareEndpointForVerification
        (String.mk (plainBase sch host segs ++ (if trailing then ['/'] else []))) (String.mk id) =
      (String.mk (plainBase sch host segs ++ ("/verification?id=".data ++ id)), none) := by
  have hv := plain_verification
  have hsegsB : ∀ c ∈ pathOfSegments segs, unreservedByte c = true ∨ c = '/' := by
    intro c hc
    simp only [pathOfSegments, List.mem_flatMap, List.mem_cons] at hc
    obtain ⟨seg, hseg, rfl | hc⟩ := hc
    · exact Or.inr rfl
    · exact Or.inl ((hsegs seg hseg).2.2.2 c hc)
  have hp : ∀ c ∈ pathOfSegments segs ++ (if trailing then ['/'] else []),
      unreservedByte c = true ∨ c = '/' := by
    intro c hc
    rcases List.mem_append.mp hc with hc | hc
    · exact hsegsB c hc
    · cases trailing with
      | false => simp at hc
      | true => exact Or.inr (by simpa using hc)
  have hhead : pathOfSegments segs ++ (if trailing then ['/'] else []) = [] ∨
      ∃ q, pathOfSegments segs ++ (if trailing then ['/'] else []) = '/' :: q := by
    cases segs with
    | nil =>
      cases trailing with
      | false => exact Or.inl rfl
      | true => exact Or.inr ⟨[], rfl⟩
    | cons s ss => exact Or.inr ⟨_, by rw [pathOfSegments_cons]; rfl⟩
  have hshape : plainBase sch host segs ++ (if trailing then ['/'] else []) =
      sch ++ ':' :: '/' :: '/' :: (host ++ (pathOfSegments segs ++ (if trailing then ['/'] else []))) := by
    simp [plainBase]
  have hops := prepareEndpointForOperations_plain sch host _ hsch hne hhost hp hhead
  have hidq : ('i' :: 'd' :: '=' :: id) ≠ [] := by simp
  unfold prepareEndpointForVerification
  rw [hshape, hops]
  simp only
  rw [query_id_plain _ id rfl hid]
  by_cases hempty : pathOfSegments segs ++ (if trailing then ['/'] else []) = []
  · have hsegs0 : pathOfSegments segs = [] := (List.append_eq_nil.mp hempty).1
    have hjoin : pathJoin [String.mk (pathOfSegments segs ++ (if trailing then ['/'] else [])),
        "verification"] = String.mk "verification".data := by
      rw [hempty]
      decide
    have hvB : ∀ c ∈ "verification".data, unreservedByte c = true ∨ c = '/' :=
      fun c hc => Or.inl (hv.2.2.2 c hc)
    have hstr := String_plain sch host "verification".data ('i' :: 'd' :: '=' :: id) hsch hne hhost
      hvB (by decide) (by decide) hidq
    simp only [URL.zero] at hstr ⊢
    rw [hjoin, hstr]
    simp [plainBase, hsegs0]
  · have hjoin := pathJoin_plain segs trailing "verification".data hsegs hv hempty
    have hvB : ∀ c ∈ pathOfSegments segs ++ '/' :: "verification".data,
        unreservedByte c = true ∨ c = '/' := by
      intro c hc
      rcases List.mem_append.mp hc with hc | hc
      · exact hsegsB c hc
      · rcases List.mem_cons.mp hc with rfl | hc
        · exact Or.inr rfl
        · exact Or.inl (hv.2.2.2 c hc)
    have hstr := String_plain sch host (pathOfSegments segs ++ '/' :: "verification".data)
      ('i' :: 'd' :: '=' :: id) hsch hne hhost hvB (by simp)
      (by
        cases segs with
        | nil => simp [pathOfSegments]
        | cons s ss => rw [pathOfSegments_cons]; simp)
      hidq
    have hh : (pathOfSegments segs ++ '/' :: "verification".data).head? = some '/' := by
      cases segs with
      | nil => rfl
      | cons s ss => rw [pathOfSegments_cons]; rfl
    simp only [URL.zero] at hstr ⊢
    rw [show ("verification" : String) = String.mk "verification".data from rfl, hjoin, hstr]
    simp [plainBase, hh]

theorem lowerHexDigit_unreserved (n : Nat) : unreservedByte (lowerHexDigit n) = true := by
  have h : ∀ d, d < 16 → unreservedByte (lowerHexDigit d) = true := by decide
  have hmod : lowerHexDigit n = lowerHexDigit (n % 16) := by
    simp [lowerHexDigit]
  rw [hmod]
  exact h _ (Nat.mod_lt _ (by decide))

theorem hexDigits_unreserved (v : Nat) :
    ∀ k, ∀ c ∈ hexDigits v k, unreservedByte c = true := by
  intro k
  induction k with
  | zero => intro c hc; simp [hexDigits] at hc
  | succ k ih =>
    intro c hc
    rcases List.mem_cons.mp hc with rfl | hc
    · exact lowerHexDigit_unreserved _
    · exact ih c hc

/-- The text of a UUID is made of unreserved bytes. -/
theorem UUID_String_unreserved (x : UUID) : ∀ c ∈ x.String.data, unreservedByte c = true := by
  intro c hc
  simp only [UUID.String, List.mem_append, List.mem_cons] at hc
  have hdash : unreservedByte '-' = true := by decide
  rcases hc with hc | rfl | hc
  · rcases hc with hc | rfl | hc
    · rcases hc with hc | rfl | hc
      · rcases hc with hc | rfl | hc
        · exact hexDigits_unreserved _ _ c hc
        · exact hdash
        · exact hexDigits_unreserved _ _ c hc
      · exact hdash
      · exact hexDigits_unreserved _ _ c hc
    · exact hdash
    · exact hexDigits_unreserved _ _ c hc
  · exact hdash
  · exact hexDigits_unreserved _ _ c hc

/-- C12, refuted as stated: the path prefix of a valid base is not always
kept. Dot segments are resolved and an escaped slash is decoded before
`verification` is appended, so the result is not the base followed by
`/verification?id=<id>`. -/
theorem verification_url_rewrites_prefix :
    prepareEndpointForVerification "http://example.com/a/../b" "u" =
        ("http://example.com/b/verification?id=u", none) ∧
    prepareEndpointForVerification "http://example.com/a/../b" "u" ≠
        ("http://example.com/a/../b/verification?id=u", none) ∧
    prepareEndpointForVerification "http://example.com/a%2Fb" "u" =
        ("http://example.com/a/b/verification?id=u", none) ∧
    prepareEndpointForVerification "http://example.com/a%2Fb" "u" ≠
        ("http://example.com/a%2Fb/verification?id=u", none) := by
  decide

/-- C12, amended. When the base fails validation the result is the empty
string and the error of the validation. When validation returns the URL `u`,
the result is, with no error, the text of `u` with its path replaced by
`path.Join(u.Path, "verification")` and its query by the parameters of the
base with `id` set to the id, encoded again. For a base
`scheme://host/seg1/.../segn` of scheme http or https, a host that is not empty,
host, segments and id made of unreserved bytes, no segment `.` or `..`, and at
most one slash at its end, the result is the base without that slash followed by
`/verification?id=<id>`; the text of a UUID is such an id. -/
theorem verification_url_built (endpoint uuid : String) :
    (∀ e, prepareEndpointForOperations endpoint = .error e →
      prepareEndpointForVerification endpoint uuid = ("", some e)) ∧
    (∀ u, prepareEndpointForOperations endpoint = .ok u →
      prepareEndpointForVerification endpoint uuid =
        (URL.String { u with Path := pathJoin [u.Path, "verification"],
                             RawQuery := ((URL.Query u).Set "id" uuid).Encode }, none)) ∧
    (∀ (sch host id : List Char) (segs : List (List Char)) (trailing : Bool),
      (sch = "http".data ∨ sch = "https".data) → host ≠ [] →
      (∀ c ∈ host, unreservedByte c = true) → (∀ seg ∈ segs, plainSegment seg) →
      (∀ c ∈ id, unreservedByte c = true) →
      endpoint = String.mk (plainBase sch host segs ++ (if trailing then ['/'] else [])) →
      uuid = String.mk id →
      prepareEndpointForVerification endpoint uuid =
        (String.mk (plainBase sch host segs ++ "/verification?id=".data ++ id), none)) ∧
    (∀ x : UUID, ∀ c ∈ x.String.data, unreservedByte c = true) := by
  refine ⟨?_, ?_, ?_, UUID_String_unreserved⟩
  · intro e h
    simp [prepareEndpointForVerification, h]
  · intro u h
    simp only [prepareEndpointForVerification, h]
    rfl
  · intro sch host id segs trailing hsch hne hhost hsegs hid hendpoint huuid
    subst hendpoint huuid
    rw [prepareEndpointForVerification_plain sch host id segs trailing hsch hne hhost hsegs hid,
      List.append_assoc]

/-- C12, the cases of the test of the repository and the example of the
specification: a base with a slash at its end, a base with a path, and a base
that validation rejects. -/
theorem verification_url_built_witness :
    prepareEndpointForVerification "https://webhooks.example.com/"
        "3f7dc3d8-ac53-4819-a0db-8e643da31fa0" =
      ("https://webhooks.example.com/verification?id=3f7dc3d8-ac53-4819-a0db-8e643da31fa0", none) ∧
    prepareEndpointForVerification "http://example.com/webhooks" "u" =
      ("http://example.com/webhooks/verification?id=u", none) ∧
    prepareEndpointForVerification "udp://example.com" "u" =
      ("", some ErrUnsupportedEndpointURLScheme) :=
  ⟨(verification_url_built "https://webhooks.example.com/"
      "3f7dc3d8-ac53-4819-a0db-8e643da31fa0").2.2.1 "https".data "webhooks.example.com".data
      "3f7dc3d8-ac53-4819-a0db-8e643da31fa0".data [] true (Or.inr rfl) (by decide) (by decide)
      (by decide) (by decide) rfl rfl,
   (verification_url_built "http://example.com/webhooks" "u").2.2.1 "http".data
      "example.com".data "u".data ["webhooks".data] false (Or.inl rfl) (by decide) (by decide)
      (by decide) (by decide) rfl rfl,
   (verification_url_built "udp://example.com" "u").1 ErrUnsupportedEndpointURLScheme
      (by decide)⟩

end IronHook
